import Mathlib

/-!
Crop geometry of `src/CropTool.js`.

A shallow embedding of the crop tool's geometry: initial placement of the
tracker, the drag and corner-resize move handlers, and the export of the
selection in original-image pixels (`getCoords`).

Modelling conventions.

* JavaScript numbers are modelled in two ways.  The definitions outside the
  namespace `Rounded` use exact rationals (`ℚ`): every value is the
  mathematically exact result of the source expression.  The definitions in
  `Rounded` pass the result of every arithmetic operation through a rounding
  function; with `round64`, the rounding of IEEE 754 double precision, they are
  the source as JavaScript runs it, and with the identity they are the exact
  definitions.  Statements whose truth depends on rounding (products and
  quotients by a ratio or by a scale that is not a double-precision number) are
  proved about `Rounded` with `round64`.  Divisions in the source are by the
  rendered image size and by the ratio, both of which are non-zero whenever the
  source reaches them.
* The DOM is modelled by the inline style the code writes: the tracker is the
  record of its `top/right/bottom/left/width/height` style properties, where
  `none` stands for `auto`.  The tracker is laid out inside the image wrapper,
  whose size is the rendered image size, and has neither border nor padding, so
  `width()`, `outerWidth()` and the style width agree, and `position()` is the
  offset the style determines.  Likewise `image.width()` and
  `image.outerWidth()` are the same rendered width.
* A value that JavaScript would treat as absent (`undefined`) is `none`.
-/

namespace CropGeometry

/-! ## Numbers -/

/-- The function `Math.ceil`. -/
def jsCeil (x : ℚ) : ℚ := ((⌈x⌉ : ℤ) : ℚ)

/-- The function `Math.round`: the nearest integer, halves rounded up. -/
def jsRound (x : ℚ) : ℚ := ((⌊x + 1 / 2⌋ : ℤ) : ℚ)

/-- The test `x % 1 === 0`: the number is whole. -/
def isWhole (x : ℚ) : Bool := x.den == 1

/-- Truthiness of an optional number, as in `if (this.ratio)`: present and
not zero. -/
def truthy : Option ℚ → Option ℚ
  | some r => if r = 0 then none else some r
  | none => none

/-! ## Data model -/

/-- The default minimum crop width, in original-image pixels. -/
def MINIMUM_CROP_WIDTH : ℚ := 250

/-- The default minimum crop height, in original-image pixels. -/
def MINIMUM_CROP_HEIGHT : ℚ := 250

/-- A rectangle `{left, top, width, height}` in original-image pixels. -/
structure Coords where
  left : ℚ
  top : ℚ
  width : ℚ
  height : ℚ
  deriving DecidableEq, Repr

/-- The fields of a primed `CropTool` object that the geometry reads.
`fullWidth/fullHeight` are the original image size, `imageWidth/imageHeight`
the rendered size saved by `_createElements`. -/
structure CropTool where
  fullWidth : ℚ
  fullHeight : ℚ
  minWidth : ℚ
  minHeight : ℚ
  ratio : Option ℚ
  initialCoordinates : Option Coords
  imageWidth : ℚ
  imageHeight : ℚ
  deriving DecidableEq, Repr

/-- The scaled minimum width saved by `_createElements`. -/
def CropTool.imageMinWidth (c : CropTool) : ℚ :=
  jsCeil (c.imageWidth / c.fullWidth * c.minWidth)

/-- The scaled minimum height saved by `_createElements`. -/
def CropTool.imageMinHeight (c : CropTool) : ℚ :=
  jsCeil (c.imageHeight / c.fullHeight * c.minHeight)

/-- The inline style of the tracker element; `none` is `auto`. -/
structure Tracker where
  top : Option ℚ
  right : Option ℚ
  bottom : Option ℚ
  left : Option ℚ
  width : ℚ
  height : ℚ
  deriving DecidableEq, Repr

/-- The value `tracker.position().left`: the left offset inside the wrapper.  A set
`left` wins; otherwise the offset follows from `right` and the width. -/
def Tracker.positionLeft (c : CropTool) (t : Tracker) : ℚ :=
  match t.left with
  | some l => l
  | none =>
    match t.right with
    | some r => c.imageWidth - r - t.width
    | none => 0

/-- The value `tracker.position().top`: the top offset inside the wrapper. -/
def Tracker.positionTop (c : CropTool) (t : Tracker) : ℚ :=
  match t.top with
  | some y => y
  | none =>
    match t.bottom with
    | some b => c.imageHeight - b - t.height
    | none => 0

/-! ## Initial placement -/

/-- The method `_initiallyPositionTracker`: the style written by `tracker.css`. -/
def _initiallyPositionTracker (c : CropTool) : Tracker :=
  match c.initialCoordinates with
  | some ic =>
    let widthScale := c.fullWidth / c.imageWidth
    let heightScale := c.fullHeight / c.imageHeight
    { top := some (jsRound (ic.top / heightScale)), right := none, bottom := none,
      left := some (jsRound (ic.left / widthScale)),
      width := jsRound (ic.width / widthScale),
      height := jsRound (ic.height / heightScale) }
  | none =>
    match truthy c.ratio with
    | some ratio =>
      if c.imageWidth / c.imageHeight > ratio then
        let width := c.imageHeight * ratio
        { top := some 0, right := none, bottom := none,
          left := some ((c.imageWidth - width) / 2),
          width := width, height := c.imageHeight }
      else
        let height := c.imageWidth / ratio
        { top := some ((c.imageHeight - height) / 2), right := none, bottom := none,
          left := some 0,
          width := c.imageWidth, height := height }
    | none =>
      { top := some 0, right := none, bottom := none, left := some 0,
        width := c.imageWidth, height := c.imageHeight }

/-! ## Export -/

/-- The ratio loop of `getCoords`; the first argument is the number of
iterations still allowed (`4 - i`). -/
def snapLoop (ratio : ℚ) : Nat → ℚ → ℚ → ℚ × ℚ
  | 0, width, height => (width, height)
  | n + 1, width, height =>
    if width / ratio ≠ height ∨ height * ratio ≠ width then
      let newWidth := height * ratio
      let newHeight := width / ratio
      if isWhole newWidth then
        snapLoop ratio n newWidth (newWidth / ratio)
      else if isWhole newHeight then
        snapLoop ratio n (newHeight * ratio) newHeight
      else
        snapLoop ratio n (width - 1) (height - 1)
    else
      (width, height)

/-- One axis of `getCoords`, the size: the tracker size scaled and rounded up
(`Math.ceil`), raised to the minimum, then cut to the original size. -/
def exportSize (size scale min full : ℚ) : ℚ :=
  let v := jsCeil (size * scale)
  let v := if v < min then min else v
  if v ≥ full then full else v

/-- One axis of `getCoords`, the offset: the tracker offset scaled and rounded
(`Math.round`), set to zero when the size fills the original image and pulled
back when offset plus size reaches the far edge. -/
def exportOffset (size offset scale min full : ℚ) : ℚ :=
  let v := jsCeil (size * scale)
  let o := jsRound (offset * scale)
  let v := if v < min then min else v
  if v ≥ full then 0
  else if v + o ≥ full then full - v
  else o

/-- The method `getCoords`: the selection in original-image pixels.  Width/left and
height/top are computed by the same statements, one axis each; the ratio loop
then runs on the resulting width and height. -/
def getCoords (c : CropTool) (t : Tracker) : Coords :=
  let widthScale := c.fullWidth / c.imageWidth
  let heightScale := c.fullHeight / c.imageHeight
  let width := exportSize t.width widthScale c.minWidth c.fullWidth
  let height := exportSize t.height heightScale c.minHeight c.fullHeight
  let left := exportOffset t.width (t.positionLeft c) widthScale c.minWidth c.fullWidth
  let top := exportOffset t.height (t.positionTop c) heightScale c.minHeight c.fullHeight
  match truthy c.ratio with
  | some ratio =>
    let wh := snapLoop ratio 4 width height
    { left := left, top := top, width := wh.1, height := wh.2 }
  | none =>
    { left := left, top := top, width := width, height := height }

/-! ## Drag -/

/-- The values captured by the tracker's `mousedown` handler in
`_enableDragListener`. -/
structure DragSession where
  preOffsetX : ℚ
  preOffsetY : ℚ
  maxOffsetX : ℚ
  maxOffsetY : ℚ
  deriving DecidableEq, Repr

/-- The `mousedown` handler of `_enableDragListener` at pointer
`(clientX, clientY)`, away from the corner dots. -/
def dragStart (c : CropTool) (t : Tracker) (clientX clientY : ℚ) : DragSession :=
  { preOffsetX := clientX - t.positionLeft c,
    preOffsetY := clientY - t.positionTop c,
    maxOffsetX := c.imageWidth - t.width,
    maxOffsetY := c.imageHeight - t.height }

/-- The `mousemove` handler of a drag: it writes `style.top` and `style.left`
and nothing else. -/
def dragMove (s : DragSession) (t : Tracker) (clientX clientY : ℚ) : Tracker :=
  let newX := clientX - s.preOffsetX
  let newX := if newX < 0 then 0 else if newX > s.maxOffsetX then s.maxOffsetX else newX
  let newY := clientY - s.preOffsetY
  let newY := if newY < 0 then 0 else if newY > s.maxOffsetY then s.maxOffsetY else newY
  { t with top := some newY, left := some newX }

/-! ## Resize -/

/-- The four corner dots. -/
inductive Corner where
  | nw
  | ne
  | se
  | sw
  deriving DecidableEq, Repr

/-- The values captured by the corner's `mousedown` handler in
`_enableResizeListener`.  `preLeft/preTop` are `preOffset.left/top`;
`preRight/preBottom` are only read when a ratio is set. -/
structure ResizeSession where
  isNorth : Bool
  isWest : Bool
  preClientX : ℚ
  preClientY : ℚ
  preWidth : ℚ
  preHeight : ℚ
  preLeft : ℚ
  preTop : ℚ
  preOffsetX : ℚ
  preOffsetY : ℚ
  preOffsetWidth : ℚ
  preOffsetHeight : ℚ
  preRight : ℚ
  preBottom : ℚ
  deriving DecidableEq, Repr

/-- The `mousedown` handler of `_enableResizeListener` on the given corner. -/
def resizeStart (c : CropTool) (t : Tracker) (corner : Corner) (clientX clientY : ℚ) :
    ResizeSession :=
  { isNorth := corner = Corner.nw || corner = Corner.ne,
    isWest := corner = Corner.nw || corner = Corner.sw,
    preClientX := clientX,
    preClientY := clientY,
    preWidth := t.width,
    preHeight := t.height,
    preLeft := t.positionLeft c,
    preTop := t.positionTop c,
    preOffsetX := clientX - t.positionLeft c,
    preOffsetY := clientY - t.positionTop c,
    preOffsetWidth := clientX - t.width,
    preOffsetHeight := clientY - t.height,
    preRight := c.imageWidth - t.width - t.positionLeft c,
    preBottom := c.imageHeight - t.height - t.positionTop c }

/-- The ratio branch of the resize `mousemove` handler. -/
def resizeMoveRatio (c : CropTool) (s : ResizeSession) (ratio clientX : ℚ) : Tracker :=
  let maxHeight := if s.isNorth then c.imageHeight - s.preBottom else c.imageHeight - s.preTop
  let maxWidth := if s.isWest then c.imageWidth - s.preRight else c.imageWidth - s.preLeft
  let width := if s.isWest then s.preWidth - (clientX - s.preClientX)
    else clientX - s.preOffsetWidth
  let width := if width < c.imageMinWidth then c.imageMinWidth else width
  let width := if width > maxWidth then maxWidth else width
  let height := width / ratio
  let height := if height < c.imageMinHeight then c.imageMinHeight else height
  let height := if height > maxHeight then maxHeight else height
  let width := height * ratio
  { top := if s.isNorth then none else some s.preTop,
    right := if s.isWest then some s.preRight else none,
    bottom := if s.isNorth then some s.preBottom else none,
    left := if s.isWest then none else some s.preLeft,
    width := width,
    height := height }

/-- The unrestricted branch of the resize `mousemove` handler; `t` is the
tracker as it is when the sample arrives. -/
def resizeMoveFree (c : CropTool) (s : ResizeSession) (t : Tracker) (clientX clientY : ℚ) :
    Tracker :=
  let offsetLeft := t.positionLeft c
  let offsetTop := t.positionTop c
  let left := if s.isWest then
      (let left := clientX - s.preOffsetX
       if left < 0 then 0 else left)
    else s.preLeft
  let width := if s.isWest then t.width + (offsetLeft - left) else clientX - s.preOffsetWidth
  let maxWidth := if s.isWest then c.imageWidth - left else c.imageWidth - s.preLeft
  let left := if width < c.imageMinWidth ∧ s.isWest then left + (width - c.imageMinWidth)
    else left
  let width := if width < c.imageMinWidth then c.imageMinWidth else width
  let width := if width > maxWidth then maxWidth else width
  let top := if s.isNorth then
      (let top := clientY - s.preOffsetY
       if top < 0 then 0 else top)
    else s.preTop
  let height := if s.isNorth then t.height + (offsetTop - top) else clientY - s.preOffsetHeight
  let maxHeight := if s.isNorth then c.imageHeight - top else c.imageHeight - s.preTop
  let top := if height < c.imageMinHeight ∧ s.isNorth then top + (height - c.imageMinHeight)
    else top
  let height := if height < c.imageMinHeight then c.imageMinHeight else height
  let height := if height > maxHeight then maxHeight else height
  { top := some top, right := none, bottom := none, left := some left,
    width := width, height := height }

/-- The resize `mousemove` handler: the style it sets on the tracker. -/
def resizeMove (c : CropTool) (s : ResizeSession) (t : Tracker) (clientX clientY : ℚ) :
    Tracker :=
  match truthy c.ratio with
  | some ratio => resizeMoveRatio c s ratio clientX
  | none => resizeMoveFree c s t clientX clientY

/-- A resize gesture: the samples `(clientX, clientY)` handled in order. -/
def resizeGesture (c : CropTool) (s : ResizeSession) (t : Tracker) (samples : List (ℚ × ℚ)) :
    Tracker :=
  samples.foldl (fun t p => resizeMove c s t p.1 p.2) t

/-- A drag gesture: the samples `(clientX, clientY)` handled in order. -/
def dragGesture (s : DragSession) (t : Tracker) (samples : List (ℚ × ℚ)) : Tracker :=
  samples.foldl (fun t p => dragMove s t p.1 p.2) t

/-! ## Rectangle invariants -/

/-- The rectangle invariants of the tracker in display space. -/
def Invariant (c : CropTool) (t : Tracker) : Prop :=
  0 ≤ t.positionLeft c ∧ 0 ≤ t.positionTop c ∧
  t.positionLeft c + t.width ≤ c.imageWidth ∧
  t.positionTop c + t.height ≤ c.imageHeight ∧
  c.imageMinWidth ≤ t.width ∧ c.imageMinHeight ≤ t.height

instance (c : CropTool) (t : Tracker) : Decidable (Invariant c t) := by
  unfold Invariant
  infer_instance

/-! ## Construction -/

/-- The `initialCoordinates` option: each property is present (`some`) or
missing, as `hasOwnProperty` sees it. -/
structure InitialCoordinates where
  width : Option ℚ
  height : Option ℚ
  top : Option ℚ
  left : Option ℚ
  deriving DecidableEq, Repr

/-- The options object handed to the constructor.  A given `image` is a jQuery
object, modelled by the number of elements it holds; `context` tells whether a
`context` object is given; `found` is the number of elements the selector
matches in that context (in the document, when no context is given). -/
structure Options where
  image : Option Nat
  imageSelector : Option String
  context : Bool
  found : Nat
  imageWidth : Option ℚ
  imageHeight : Option ℚ
  minWidth : Option ℚ
  minHeight : Option ℚ
  initialCoordinates : Option InitialCoordinates
  ratio : Option ℚ
  deriving DecidableEq, Repr

/-- The value of `this.image`: a jQuery object, or the plain array of elements
that the static `$.find` (the selector engine) returns when no context is
given; either way with its number of elements. -/
inductive ImageRef where
  | jquery (length : Nat)
  | array (length : Nat)
  deriving DecidableEq, Repr

/-- The `length` of `this.image`. -/
def ImageRef.length : ImageRef → Nat
  | ImageRef.jquery n => n
  | ImageRef.array n => n

/-- The errors thrown by the constructor, one per `throw` statement. -/
inductive ConfigError where
  | imageRequired
  | dimensionsRequired
  | missingWidth
  | missingHeight
  | missingTop
  | missingLeft
  deriving DecidableEq, Repr

/-- What the constructor can throw: one of its configuration errors, or the
`TypeError` raised by calling `width()` on a plain array. -/
inductive Thrown where
  | config (e : ConfigError)
  | notAFunction
  deriving DecidableEq, Repr

/-- The object left by the constructor when it does not throw.  `primed` tells
whether `_doInitialize` is run (at once or when the image has loaded), which
needs `this.image` to hold exactly one element. -/
structure Constructed where
  image : ImageRef
  fullWidth : ℚ
  fullHeight : ℚ
  minWidth : ℚ
  minHeight : ℚ
  initialCoordinates : Option Coords
  ratio : Option ℚ
  primed : Bool
  deriving DecidableEq, Repr

/-- Truthiness of the `imageSelector` option: given and not the empty string. -/
def selectorGiven (o : Options) : Bool :=
  match o.imageSelector with
  | some sel => !sel.isEmpty
  | none => false

/-- The first step of the constructor: `this.image`.  With a selector the image
is `context.find(selector)`, where `context` is `options.context || $`: a
jQuery object when a context is given, the plain array of `$.find` otherwise. -/
def resolveImage (o : Options) : Except ConfigError ImageRef :=
  match o.image with
  | some n => Except.ok (ImageRef.jquery n)
  | none =>
    if selectorGiven o then
      (if o.context then Except.ok (ImageRef.jquery o.found)
       else Except.ok (ImageRef.array o.found))
    else Except.error ConfigError.imageRequired

/-- The check of `initialCoordinates` in the constructor. -/
def checkCoordinates : Option InitialCoordinates → Except ConfigError (Option Coords)
  | none => Except.ok none
  | some ic =>
    match ic.width with
    | none => Except.error ConfigError.missingWidth
    | some width =>
      match ic.height with
      | none => Except.error ConfigError.missingHeight
      | some height =>
        match ic.top with
        | none => Except.error ConfigError.missingTop
        | some top =>
          match ic.left with
          | none => Except.error ConfigError.missingLeft
          | some left =>
            Except.ok (some { left := left, top := top, width := width, height := height })

/-- The last step of the constructor, `if (this.image.length === 1)`: with one
element it calls `this.image.width()`, which a jQuery object answers and a
plain array does not have. -/
def findImage (k : Constructed) : Except Thrown Constructed :=
  if k.image.length = 1 then
    match k.image with
    | ImageRef.jquery _ => Except.ok { k with primed := true }
    | ImageRef.array _ => Except.error Thrown.notAFunction
  else Except.ok k

/-- The constructor (the method `initialize` of the source), up to the call of
`_doInitialize`. -/
def construct (o : Options) : Except Thrown Constructed :=
  match resolveImage o with
  | Except.error e => Except.error (Thrown.config e)
  | Except.ok image =>
    match truthy o.imageWidth, truthy o.imageHeight with
    | some fullWidth, some fullHeight =>
      match checkCoordinates o.initialCoordinates with
      | Except.error e => Except.error (Thrown.config e)
      | Except.ok ic =>
        findImage
          { image := image, fullWidth := fullWidth, fullHeight := fullHeight,
            minWidth := (truthy o.minWidth).getD MINIMUM_CROP_WIDTH,
            minHeight := (truthy o.minHeight).getD MINIMUM_CROP_HEIGHT,
            initialCoordinates := ic, ratio := truthy o.ratio,
            primed := false }
    | _, _ => Except.error (Thrown.config ConfigError.dimensionsRequired)

/-- Whether a construction threw. -/
def threw (r : Except Thrown Constructed) : Bool :=
  match r with
  | Except.error _ => true
  | Except.ok _ => false

/-- Whether a construction threw one of the configuration errors. -/
def threwConfig (r : Except Thrown Constructed) : Bool :=
  match r with
  | Except.error (Thrown.config _) => true
  | _ => false

/-! ## Listeners -/

/-- A `mousemove` handler bound on the body: the session it belongs to. -/
inductive Session where
  | drag
  | resize (corner : Corner)
  deriving DecidableEq, Repr

/-- The event handlers the tool has bound: the one-shot `mousedown` handlers on
the tracker and on each corner dot (`.one` binds one handler per element), the
`mousemove` handlers on the body, and the one-shot `mouseup` handlers on the
body. -/
structure Listeners where
  trackerDown : Nat
  cornerDown : Corner → Nat
  bodyMove : List Session
  bodyUp : Nat

/-- The events of a gesture: `mousedown` on the tracker away from the dots,
`mousedown` on a corner dot (it bubbles to the tracker), `mousemove` and
`mouseup`. -/
inductive MouseEvent where
  | mousedownTracker
  | mousedownCorner (corner : Corner)
  | mousemove
  | mouseup
  deriving DecidableEq, Repr

/-- The binding done by `_enableDragListener`: one more one-shot handler on the
tracker. -/
def _enableDragListener (l : Listeners) : Listeners :=
  { l with trackerDown := l.trackerDown + 1 }

/-- The binding done by `_enableResizeListener`: one more one-shot handler on
each corner dot. -/
def _enableResizeListener (l : Listeners) : Listeners :=
  { l with cornerDown := fun corner => l.cornerDown corner + 1 }

/-- The method `_disableDragListener`. -/
def _disableDragListener (l : Listeners) : Listeners :=
  { l with trackerDown := 0, bodyMove := [] }

/-- The method `_disableResizeListener`. -/
def _disableResizeListener (l : Listeners) : Listeners :=
  { l with cornerDown := fun _ => 0, bodyMove := [] }

/-- The method `_restartListeners`. -/
def _restartListeners (l : Listeners) : Listeners :=
  _enableResizeListener (_enableDragListener (_disableResizeListener (_disableDragListener l)))

/-- The tracker's `mousedown` handler when the target is not a dot: a drag
session starts. -/
def startDrag (l : Listeners) : Listeners :=
  { l with bodyMove := l.bodyMove ++ [Session.drag], bodyUp := l.bodyUp + 1 }

/-- A corner's `mousedown` handler: a resize session starts. -/
def startResize (corner : Corner) (l : Listeners) : Listeners :=
  { l with bodyMove := l.bodyMove ++ [Session.resize corner], bodyUp := l.bodyUp + 1 }

/-- The listeners after one event.  A one-shot handler is unbound when it
fires; every handler bound on the element when the event arrives runs. -/
def step (l : Listeners) : MouseEvent → Listeners
  | MouseEvent.mousedownTracker =>
    Nat.iterate startDrag l.trackerDown { l with trackerDown := 0 }
  | MouseEvent.mousedownCorner corner =>
    let l1 := Nat.iterate (startResize corner) (l.cornerDown corner)
      { l with cornerDown := fun k => if k = corner then 0 else l.cornerDown k }
    Nat.iterate _enableDragListener l1.trackerDown { l1 with trackerDown := 0 }
  | MouseEvent.mousemove => l
  | MouseEvent.mouseup =>
    Nat.iterate _restartListeners l.bodyUp { l with bodyUp := 0 }

/-- The listeners bound by `_doInitialize`. -/
def primedListeners : Listeners :=
  _enableResizeListener (_enableDragListener
    { trackerDown := 0, cornerDown := fun _ => 0, bodyMove := [], bodyUp := 0 })

/-- The listeners after a sequence of events. -/
def run (l : Listeners) (events : List MouseEvent) : Listeners :=
  events.foldl step l

/-! ## Calls of the export -/

/-- A primed tool: its fields and the tracker's style. -/
structure Widget where
  config : CropTool
  tracker : Tracker
  deriving DecidableEq, Repr

/-- A call of `getCoords` on the tool: the returned rectangle and the tool after
the call.  The method reads the fields and the tracker and assigns only its
local variables. -/
def Widget.getCoords (w : Widget) : Coords × Widget :=
  (CropGeometry.getCoords w.config w.tracker, w)

/-- The value of the counter `i` when the ratio loop of `getCoords` ends; the
first argument is the number of iterations still allowed. -/
def snapLoopCount (ratio : ℚ) : Nat → ℚ → ℚ → Nat
  | 0, _, _ => 0
  | n + 1, width, height =>
    if width / ratio ≠ height ∨ height * ratio ≠ width then
      let newWidth := height * ratio
      let newHeight := width / ratio
      if isWhole newWidth then
        snapLoopCount ratio n newWidth (newWidth / ratio) + 1
      else if isWhole newHeight then
        snapLoopCount ratio n (newHeight * ratio) newHeight + 1
      else
        snapLoopCount ratio n (width - 1) (height - 1) + 1
    else
      0

/-! ## Double precision -/

/-- The power of two `2 ^ e` for an integer exponent. -/
def pow2 (e : ℤ) : ℚ :=
  if 0 ≤ e then ((2 ^ e.toNat : ℕ) : ℚ) else 1 / ((2 ^ (-e).toNat : ℕ) : ℚ)

/-- The binary logarithm of a natural number, rounded down; the first argument
bounds the number of halvings. -/
def ilog2 : ℕ → ℕ → ℕ
  | 0, _ => 0
  | fuel + 1, n => if n < 2 then 0 else ilog2 fuel (n / 2) + 1

/-- The binary exponent of a non-zero number: `2 ^ e ≤ |x| < 2 ^ (e + 1)`. -/
def exponent (x : ℚ) : ℤ :=
  let e0 : ℤ := (ilog2 x.num.natAbs x.num.natAbs : ℤ) - (ilog2 x.den x.den : ℤ)
  if pow2 e0 ≤ |x| then e0 else e0 - 1

/-- The nearest integer, halves going to the even neighbour. -/
def roundEven (y : ℚ) : ℤ :=
  if y - ⌊y⌋ < 1 / 2 then ⌊y⌋
  else if y - ⌊y⌋ > 1 / 2 then ⌊y⌋ + 1
  else if ⌊y⌋ % 2 = 0 then ⌊y⌋ else ⌊y⌋ + 1

/-- The double-precision number nearest to `x` (IEEE 754 binary64, round to
nearest, ties to even): `x` is scaled so that its significand has 53 bits and
rounded there.  The exponent range is taken to be unbounded: no overflow and no
subnormal numbers, which pixel geometry does not reach. -/
def round64 (x : ℚ) : ℚ :=
  if x = 0 then 0
  else (roundEven (x / pow2 (exponent x - 52)) : ℚ) * pow2 (exponent x - 52)

/-! ## The source with every operation rounded

The definitions of this section repeat the placement, the ratio branch of the
resize and the export with the result of every arithmetic operation of the
source passed through a rounding function `rnd`: with `rnd = id` they are the
definitions above, with `rnd = round64` they are the source as it runs on
JavaScript's double-precision numbers.  The numbers held by a `CropTool` and a
`Tracker` are then double-precision numbers themselves (a ratio written `7/3` in
the options is `round64 (7 / 3)`).  `Math.ceil`, `Math.round` and `% 1` are
exact on double-precision numbers.  `position()` stays the offset the style
determines. -/

namespace Rounded

/-- The scaled minimum width saved by `_createElements`. -/
def imageMinWidth (rnd : ℚ → ℚ) (c : CropTool) : ℚ :=
  jsCeil (rnd (rnd (c.imageWidth / c.fullWidth) * c.minWidth))

/-- The scaled minimum height saved by `_createElements`. -/
def imageMinHeight (rnd : ℚ → ℚ) (c : CropTool) : ℚ :=
  jsCeil (rnd (rnd (c.imageHeight / c.fullHeight) * c.minHeight))

/-- The method `_initiallyPositionTracker`. -/
def _initiallyPositionTracker (rnd : ℚ → ℚ) (c : CropTool) : Tracker :=
  match c.initialCoordinates with
  | some ic =>
    let widthScale := rnd (c.fullWidth / c.imageWidth)
    let heightScale := rnd (c.fullHeight / c.imageHeight)
    { top := some (jsRound (rnd (ic.top / heightScale))), right := none, bottom := none,
      left := some (jsRound (rnd (ic.left / widthScale))),
      width := jsRound (rnd (ic.width / widthScale)),
      height := jsRound (rnd (ic.height / heightScale)) }
  | none =>
    match truthy c.ratio with
    | some ratio =>
      if rnd (c.imageWidth / c.imageHeight) > ratio then
        let width := rnd (c.imageHeight * ratio)
        { top := some 0, right := none, bottom := none,
          left := some (rnd (rnd (c.imageWidth - width) / 2)),
          width := width, height := c.imageHeight }
      else
        let height := rnd (c.imageWidth / ratio)
        { top := some (rnd (rnd (c.imageHeight - height) / 2)), right := none,
          bottom := none, left := some 0,
          width := c.imageWidth, height := height }
    | none =>
      { top := some 0, right := none, bottom := none, left := some 0,
        width := c.imageWidth, height := c.imageHeight }

/-- The ratio loop of `getCoords`; the natural number is the number of
iterations still allowed (`4 - i`). -/
def snapLoop (rnd : ℚ → ℚ) (ratio : ℚ) : Nat → ℚ → ℚ → ℚ × ℚ
  | 0, width, height => (width, height)
  | n + 1, width, height =>
    if rnd (width / ratio) ≠ height ∨ rnd (height * ratio) ≠ width then
      let newWidth := rnd (height * ratio)
      let newHeight := rnd (width / ratio)
      if isWhole newWidth then
        snapLoop rnd ratio n newWidth (rnd (newWidth / ratio))
      else if isWhole newHeight then
        snapLoop rnd ratio n (rnd (newHeight * ratio)) newHeight
      else
        snapLoop rnd ratio n (rnd (width - 1)) (rnd (height - 1))
    else
      (width, height)

/-- One axis of `getCoords`, the size; `scale` is the scale as computed. -/
def exportSize (rnd : ℚ → ℚ) (size scale min full : ℚ) : ℚ :=
  let v := jsCeil (rnd (size * scale))
  let v := if v < min then min else v
  if v ≥ full then full else v

/-- One axis of `getCoords`, the offset; `scale` is the scale as computed. -/
def exportOffset (rnd : ℚ → ℚ) (size offset scale min full : ℚ) : ℚ :=
  let v := jsCeil (rnd (size * scale))
  let o := jsRound (rnd (offset * scale))
  let v := if v < min then min else v
  if v ≥ full then 0
  else if rnd (v + o) ≥ full then rnd (full - v)
  else o

/-- The method `getCoords`. -/
def getCoords (rnd : ℚ → ℚ) (c : CropTool) (t : Tracker) : Coords :=
  let widthScale := rnd (c.fullWidth / c.imageWidth)
  let heightScale := rnd (c.fullHeight / c.imageHeight)
  let width := exportSize rnd t.width widthScale c.minWidth c.fullWidth
  let height := exportSize rnd t.height heightScale c.minHeight c.fullHeight
  let left := exportOffset rnd t.width (t.positionLeft c) widthScale c.minWidth c.fullWidth
  let top := exportOffset rnd t.height (t.positionTop c) heightScale c.minHeight c.fullHeight
  match truthy c.ratio with
  | some ratio =>
    let wh := snapLoop rnd ratio 4 width height
    { left := left, top := top, width := wh.1, height := wh.2 }
  | none =>
    { left := left, top := top, width := width, height := height }

/-- The `mousedown` handler of `_enableResizeListener` on the given corner. -/
def resizeStart (rnd : ℚ → ℚ) (c : CropTool) (t : Tracker) (corner : Corner)
    (clientX clientY : ℚ) : ResizeSession :=
  { isNorth := corner = Corner.nw || corner = Corner.ne,
    isWest := corner = Corner.nw || corner = Corner.sw,
    preClientX := clientX,
    preClientY := clientY,
    preWidth := t.width,
    preHeight := t.height,
    preLeft := t.positionLeft c,
    preTop := t.positionTop c,
    preOffsetX := rnd (clientX - t.positionLeft c),
    preOffsetY := rnd (clientY - t.positionTop c),
    preOffsetWidth := rnd (clientX - t.width),
    preOffsetHeight := rnd (clientY - t.height),
    preRight := rnd (rnd (c.imageWidth - t.width) - t.positionLeft c),
    preBottom := rnd (rnd (c.imageHeight - t.height) - t.positionTop c) }

/-- The ratio branch of the resize `mousemove` handler. -/
def resizeMoveRatio (rnd : ℚ → ℚ) (c : CropTool) (s : ResizeSession) (ratio clientX : ℚ) :
    Tracker :=
  let maxHeight := if s.isNorth then rnd (c.imageHeight - s.preBottom)
    else rnd (c.imageHeight - s.preTop)
  let maxWidth := if s.isWest then rnd (c.imageWidth - s.preRight)
    else rnd (c.imageWidth - s.preLeft)
  let width := if s.isWest then rnd (s.preWidth - rnd (clientX - s.preClientX))
    else rnd (clientX - s.preOffsetWidth)
  let width := if width < imageMinWidth rnd c then imageMinWidth rnd c else width
  let width := if width > maxWidth then maxWidth else width
  let height := rnd (width / ratio)
  let height := if height < imageMinHeight rnd c then imageMinHeight rnd c else height
  let height := if height > maxHeight then maxHeight else height
  let width := rnd (height * ratio)
  { top := if s.isNorth then none else some s.preTop,
    right := if s.isWest then some s.preRight else none,
    bottom := if s.isNorth then some s.preBottom else none,
    left := if s.isWest then none else some s.preLeft,
    width := width,
    height := height }

/-- The unrestricted branch of the resize `mousemove` handler; `t` is the
tracker as it is when the sample arrives. -/
def resizeMoveFree (rnd : ℚ → ℚ) (c : CropTool) (s : ResizeSession) (t : Tracker)
    (clientX clientY : ℚ) : Tracker :=
  let offsetLeft := t.positionLeft c
  let offsetTop := t.positionTop c
  let left := if s.isWest then
      (let left := rnd (clientX - s.preOffsetX)
       if left < 0 then 0 else left)
    else s.preLeft
  let width := if s.isWest then rnd (t.width + rnd (offsetLeft - left))
    else rnd (clientX - s.preOffsetWidth)
  let maxWidth := if s.isWest then rnd (c.imageWidth - left) else rnd (c.imageWidth - s.preLeft)
  let left := if width < imageMinWidth rnd c ∧ s.isWest
    then rnd (left + rnd (width - imageMinWidth rnd c))
    else left
  let width := if width < imageMinWidth rnd c then imageMinWidth rnd c else width
  let width := if width > maxWidth then maxWidth else width
  let top := if s.isNorth then
      (let top := rnd (clientY - s.preOffsetY)
       if top < 0 then 0 else top)
    else s.preTop
  let height := if s.isNorth then rnd (t.height + rnd (offsetTop - top))
    else rnd (clientY - s.preOffsetHeight)
  let maxHeight := if s.isNorth then rnd (c.imageHeight - top)
    else rnd (c.imageHeight - s.preTop)
  let top := if height < imageMinHeight rnd c ∧ s.isNorth
    then rnd (top + rnd (height - imageMinHeight rnd c))
    else top
  let height := if height < imageMinHeight rnd c then imageMinHeight rnd c else height
  let height := if height > maxHeight then maxHeight else height
  { top := some top, right := none, bottom := none, left := some left,
    width := width, height := height }

/-- The resize `mousemove` handler: the style it sets on the tracker. -/
def resizeMove (rnd : ℚ → ℚ) (c : CropTool) (s : ResizeSession) (t : Tracker)
    (clientX clientY : ℚ) : Tracker :=
  match truthy c.ratio with
  | some ratio => resizeMoveRatio rnd c s ratio clientX
  | none => resizeMoveFree rnd c s t clientX clientY

/-- A resize gesture: the samples `(clientX, clientY)` handled in order. -/
def resizeGesture (rnd : ℚ → ℚ) (c : CropTool) (s : ResizeSession) (t : Tracker)
    (samples : List (ℚ × ℚ)) : Tracker :=
  samples.foldl (fun t p => resizeMove rnd c s t p.1 p.2) t

/-- The rectangle invariants of the tracker in display space, with the display
minimums as `_createElements` computes them. -/
def Invariant (rnd : ℚ → ℚ) (c : CropTool) (t : Tracker) : Prop :=
  0 ≤ t.positionLeft c ∧ 0 ≤ t.positionTop c ∧
  t.positionLeft c + t.width ≤ c.imageWidth ∧
  t.positionTop c + t.height ≤ c.imageHeight ∧
  imageMinWidth rnd c ≤ t.width ∧ imageMinHeight rnd c ≤ t.height

instance (rnd : ℚ → ℚ) (c : CropTool) (t : Tracker) : Decidable (Invariant rnd c t) := by
  unfold Invariant
  infer_instance

end Rounded

/-! ## Configurations used in the scenarios -/

/-- A 2000×1000 image rendered at 1000×500 with the default minimums. -/
def scenario (ratio : Option ℚ) : CropTool :=
  { fullWidth := 2000, fullHeight := 1000,
    minWidth := MINIMUM_CROP_WIDTH, minHeight := MINIMUM_CROP_HEIGHT,
    ratio := ratio, initialCoordinates := none, imageWidth := 1000, imageHeight := 500 }

/-- A 200×200 image rendered at 100×100 with the default minimums: the image
is smaller than the minimum crop. -/
def smallImage : CropTool :=
  { fullWidth := 200, fullHeight := 200,
    minWidth := MINIMUM_CROP_WIDTH, minHeight := MINIMUM_CROP_HEIGHT,
    ratio := none, initialCoordinates := none, imageWidth := 100, imageHeight := 100 }

/-- A 1000×500 image rendered at its own size with ratio 2 and the default
minimums. -/
def wideImage : CropTool :=
  { fullWidth := 1000, fullHeight := 500,
    minWidth := MINIMUM_CROP_WIDTH, minHeight := MINIMUM_CROP_HEIGHT,
    ratio := some 2, initialCoordinates := none, imageWidth := 1000, imageHeight := 500 }

/-- The tracker of `wideImage` after one resize sample: the north-west corner
grabbed at `(0, 0)` and moved to `(499, 0)`. -/
def wideImageResized : Tracker :=
  resizeMove wideImage
    (resizeStart wideImage (_initiallyPositionTracker wideImage) Corner.nw 0 0)
    (_initiallyPositionTracker wideImage) 499 0

/-- A 1000×1000 image rendered at its own size with ratio 16/9 and the default
minimums. -/
def squareImage : CropTool :=
  { fullWidth := 1000, fullHeight := 1000,
    minWidth := MINIMUM_CROP_WIDTH, minHeight := MINIMUM_CROP_HEIGHT,
    ratio := some (16 / 9), initialCoordinates := none,
    imageWidth := 1000, imageHeight := 1000 }

/-- The 1000×500 tracker of the 2000×1000 image rendered at 1000×500 after one
free resize sample: the north-west corner grabbed at `(0, 0)` and moved to
`(950, 0)`. -/
def pushedWest : Tracker :=
  resizeMove (scenario none)
    (resizeStart (scenario none) (_initiallyPositionTracker (scenario none)) Corner.nw 0 0)
    (_initiallyPositionTracker (scenario none)) 950 0

/-- The same tracker after one free resize sample with the north-east corner
grabbed at `(1000, 0)` and moved to `(1000, 450)`. -/
def pushedNorth : Tracker :=
  resizeMove (scenario none)
    (resizeStart (scenario none) (_initiallyPositionTracker (scenario none)) Corner.ne 1000 0)
    (_initiallyPositionTracker (scenario none)) 1000 450

/-- A 200×200 tracker at `x = 800, y = 0`. -/
def offRatioTracker : Tracker :=
  { top := some 0, right := none, bottom := none, left := some 800,
    width := 200, height := 200 }

/-- The tracker `offRatioTracker` of the 2000×1000 image rendered at 1000×500 with ratio 2
after one resize sample: the south-east corner grabbed at `(1000, 200)` and
not moved. -/
def offRatioResized : Tracker :=
  resizeMove (scenario (some 2))
    (resizeStart (scenario (some 2)) offRatioTracker Corner.se 1000 200)
    offRatioTracker 1000 200

/-- Options naming an empty jQuery object as the image of a 2000×1000
original. -/
def emptyImageOptions : Options :=
  { image := some 0, imageSelector := none, context := false, found := 0,
    imageWidth := some 2000, imageHeight := some 1000,
    minWidth := none, minHeight := none, initialCoordinates := none, ratio := none }

/-- The 2000×1000 image rendered at 1000×500 with initial coordinates that
reach past the right edge of the original. -/
def pastEdgeStart : CropTool :=
  { fullWidth := 2000, fullHeight := 1000,
    minWidth := MINIMUM_CROP_WIDTH, minHeight := MINIMUM_CROP_HEIGHT,
    ratio := none,
    initialCoordinates := some { left := 1900, top := 0, width := 500, height := 500 },
    imageWidth := 1000, imageHeight := 500 }

/-- A 3000×3000 image rendered at 1000×1000 with initial coordinates of the
minimum size at the origin. -/
def roundedStart : CropTool :=
  { fullWidth := 3000, fullHeight := 3000,
    minWidth := MINIMUM_CROP_WIDTH, minHeight := MINIMUM_CROP_HEIGHT,
    ratio := none,
    initialCoordinates := some { left := 0, top := 0, width := 250, height := 250 },
    imageWidth := 1000, imageHeight := 1000 }

/-- The 2000×1000 image rendered at 1000×500 with initial coordinates that
scale without rounding. -/
def exactStart : CropTool :=
  { fullWidth := 2000, fullHeight := 1000,
    minWidth := MINIMUM_CROP_WIDTH, minHeight := MINIMUM_CROP_HEIGHT,
    ratio := none,
    initialCoordinates := some { left := 600, top := 100, width := 800, height := 400 },
    imageWidth := 1000, imageHeight := 500 }

/-- A 1000×500 image rendered at its own size with the ratio written `7/3`,
minimum crop 50×25. -/
def thirdsImage : CropTool :=
  { fullWidth := 1000, fullHeight := 500, minWidth := 50, minHeight := 25,
    ratio := some (round64 (7 / 3)), initialCoordinates := none,
    imageWidth := 1000, imageHeight := 500 }

/-- A 70×30 tracker at `x = 881`, `y = 0`: the width is the product of the
height and the ratio written `7/3`, as the program computes it. -/
def thirdsTracker : Tracker :=
  { top := some 0, right := none, bottom := none, left := some 881,
    width := 70, height := 30 }

/-- A 700×700 image rendered at 450×450 with minimum crop 350×350 and the
initial coordinates `{left: 0, top: 0, width: 350, height: 350}`. -/
def scaledMinimumStart : CropTool :=
  { fullWidth := 700, fullHeight := 700, minWidth := 350, minHeight := 350,
    ratio := none,
    initialCoordinates := some { left := 0, top := 0, width := 350, height := 350 },
    imageWidth := 450, imageHeight := 450 }

/-- A 1020×1000 image rendered at 102×100 with the ratio written `7/3`. -/
def thirdsPlacement : CropTool :=
  { fullWidth := 1020, fullHeight := 1000, minWidth := 250, minHeight := 250,
    ratio := some (round64 (7 / 3)), initialCoordinates := none,
    imageWidth := 102, imageHeight := 100 }

/-- A 260×255 image rendered at its own size, the ratio being the image's own
proportions, written `260/255`. -/
def ownRatioImage : CropTool :=
  { fullWidth := 260, fullHeight := 255, minWidth := 250, minHeight := 250,
    ratio := some (round64 (260 / 255)), initialCoordinates := none,
    imageWidth := 260, imageHeight := 255 }

/-- A 1000×1000 image rendered at its own size with the ratio written `7/3`. -/
def thirdsExport : CropTool :=
  { fullWidth := 1000, fullHeight := 1000, minWidth := 250, minHeight := 250,
    ratio := some (round64 (7 / 3)), initialCoordinates := none,
    imageWidth := 1000, imageHeight := 1000 }

/-- A 250×250 tracker in the top left corner. -/
def cornerTracker : Tracker :=
  { top := some 0, right := none, bottom := none, left := some 0,
    width := 250, height := 250 }

/-- A 700×700 image rendered at 300×300 with no ratio and the initial
coordinates `{left: 0, top: 0, width: 252, height: 252}`. -/
def inexactScaleStart : CropTool :=
  { fullWidth := 700, fullHeight := 700, minWidth := 250, minHeight := 250,
    ratio := none,
    initialCoordinates := some { left := 0, top := 0, width := 252, height := 252 },
    imageWidth := 300, imageHeight := 300 }

/-! ## Rounding lemmas -/

theorem isWhole_intCast (n : ℤ) : isWhole (n : ℚ) = true := by
  simp [isWhole]

theorem isWhole_iff {x : ℚ} : isWhole x = true ↔ ∃ n : ℤ, x = n := by
  constructor
  · intro h
    have hd : x.den = 1 := by simpa [isWhole] using h
    exact ⟨x.num, ((Rat.den_eq_one_iff x).mp hd).symm⟩
  · rintro ⟨n, rfl⟩
    exact isWhole_intCast n

theorem isWhole_jsCeil (x : ℚ) : isWhole (jsCeil x) = true :=
  isWhole_intCast _

theorem isWhole_sub_one {x : ℚ} (h : isWhole x = true) : isWhole (x - 1) = true := by
  obtain ⟨n, rfl⟩ := isWhole_iff.mp h
  exact isWhole_iff.mpr ⟨n - 1, by push_cast; ring⟩

theorem jsRound_of_whole {x : ℚ} (h : isWhole x = true) : jsRound x = x := by
  obtain ⟨n, rfl⟩ := isWhole_iff.mp h
  unfold jsRound
  have : ⌊(n : ℚ) + 1 / 2⌋ = n := by
    rw [Int.floor_eq_iff]
    constructor <;> norm_num
  rw [this]


theorem le_jsCeil (x : ℚ) : x ≤ jsCeil x := by
  unfold jsCeil
  exact Int.le_ceil x

theorem jsCeil_lt_add_one (x : ℚ) : jsCeil x < x + 1 := by
  unfold jsCeil
  exact Int.ceil_lt_add_one x

theorem jsRound_zero : jsRound 0 = 0 := by
  unfold jsRound
  norm_num

theorem jsRound_nonneg {x : ℚ} (hx : 0 ≤ x) : 0 ≤ jsRound x := by
  unfold jsRound
  have h : (0 : ℤ) ≤ ⌊x + 1 / 2⌋ := Int.floor_nonneg.mpr (by linarith)
  exact_mod_cast h

/-! ## The export, one axis -/

theorem exportSize_of_full_le {size scale full : ℚ} (min : ℚ) (h : full ≤ size * scale) :
    exportSize size scale min full = full := by
  have hc := le_jsCeil (size * scale)
  simp only [exportSize]
  split_ifs with h1 h2 h3 <;> first | rfl | (exfalso; linarith)

theorem exportOffset_of_full_le {size scale full : ℚ} (offset min : ℚ)
    (h : full ≤ size * scale) : exportOffset size offset scale min full = 0 := by
  have hc := le_jsCeil (size * scale)
  simp only [exportOffset]
  split_ifs with h1 h2 h3 h4 h5 <;> first | rfl | (exfalso; linarith)

theorem exportSize_le_full (size scale min full : ℚ) :
    exportSize size scale min full ≤ full := by
  simp only [exportSize]
  split_ifs with h1 h2 h3 <;> linarith

theorem min_le_exportSize {min full : ℚ} (size scale : ℚ) (h : min ≤ full) :
    min ≤ exportSize size scale min full := by
  simp only [exportSize]
  split_ifs with h1 h2 h3 <;> linarith

theorem exportOffset_add_exportSize_le (size offset scale min full : ℚ) :
    exportOffset size offset scale min full + exportSize size scale min full ≤ full := by
  simp only [exportOffset, exportSize]
  split_ifs with h1 h2 h3 h4 h5 <;> linarith

theorem exportOffset_nonneg {offset scale : ℚ} (size min full : ℚ) (h : 0 ≤ offset * scale) :
    0 ≤ exportOffset size offset scale min full := by
  have ho := jsRound_nonneg h
  simp only [exportOffset]
  split_ifs with h1 h2 h3 h4 h5 <;> linarith

theorem isWhole_exportSize {min full : ℚ} (size scale : ℚ) (hmin : isWhole min = true)
    (hfull : isWhole full = true) : isWhole (exportSize size scale min full) = true := by
  have hc := isWhole_jsCeil (size * scale)
  simp only [exportSize]
  split_ifs with h1 h2 h3 <;> assumption

/-! ## The ratio loop -/

theorem snapLoop_of_exact {ratio width height : ℚ} (n : Nat) (h1 : width / ratio = height)
    (h2 : height * ratio = width) : snapLoop ratio n width height = (width, height) := by
  cases n with
  | zero => rfl
  | succ n => simp [snapLoop, h1, h2]

/-- If within the allowed iterations the loop meets a height whose ratio width
is whole, or a width whose ratio height is whole, it ends on the exact ratio,
with a whole width. -/
theorem snapLoop_exact {ratio : ℚ} (hr : ratio ≠ 0) :
    ∀ (n : Nat) (width height : ℚ), isWhole width = true →
      (∃ k : Nat, k < n ∧ (isWhole ((height - k) * ratio) = true ∨
        isWhole ((width - k) / ratio) = true)) →
      (snapLoop ratio n width height).2 * ratio = (snapLoop ratio n width height).1 ∧
        isWhole (snapLoop ratio n width height).1 = true := by
  intro n
  induction n with
  | zero =>
    rintro width height _ ⟨k, hk, _⟩
    exact absurd hk (Nat.not_lt_zero k)
  | succ n ih =>
    rintro width height hw ⟨k, hk, hex⟩
    by_cases hc : width / ratio ≠ height ∨ height * ratio ≠ width
    · by_cases hW : isWhole (height * ratio) = true
      · have e : snapLoop ratio (n + 1) width height
            = (height * ratio, height * ratio / ratio) := by
          rw [snapLoop, if_pos hc]
          simp only [hW, if_true]
          exact snapLoop_of_exact n rfl (by field_simp)
        rw [e]
        exact ⟨by field_simp, hW⟩
      · by_cases hH : isWhole (width / ratio) = true
        · have e : snapLoop ratio (n + 1) width height
              = (width / ratio * ratio, width / ratio) := by
            rw [snapLoop, if_pos hc]
            simp only [hW, hH, if_true]
            exact snapLoop_of_exact n (by field_simp) rfl
          rw [e]
          refine ⟨rfl, ?_⟩
          have : width / ratio * ratio = width := by field_simp
          simpa [this] using hw
        · have e : snapLoop ratio (n + 1) width height
              = snapLoop ratio n (width - 1) (height - 1) := by
            rw [snapLoop, if_pos hc]
            simp only [hW, hH]
            simp
          rw [e]
          apply ih (width - 1) (height - 1) (isWhole_sub_one hw)
          cases k with
          | zero =>
            simp only [Nat.cast_zero, sub_zero] at hex
            rcases hex with h | h
            · exact absurd h hW
            · exact absurd h hH
          | succ k =>
            refine ⟨k, Nat.lt_of_succ_lt_succ hk, ?_⟩
            have e1 : height - 1 - (k : ℚ) = height - ((k + 1 : ℕ) : ℚ) := by
              push_cast; ring
            have e2 : width - 1 - (k : ℚ) = width - ((k + 1 : ℕ) : ℚ) := by
              push_cast; ring
            rw [e1, e2]
            exact hex
    · have e : snapLoop ratio (n + 1) width height = (width, height) := by
        rw [snapLoop, if_neg hc]
      rw [e]
      push_neg at hc
      exact ⟨hc.2, hw⟩

/-- Among `q` consecutive integers going down from `b` one is a multiple of
`q`, and its product with a fraction over `q` is whole. -/
theorem exists_whole_mul (p : ℤ) (q : ℕ) (hq : 0 < q) (b : ℤ) :
    ∃ k : Nat, k < q ∧ isWhole (((b : ℚ) - k) * ((p : ℚ) / q)) = true := by
  have hq0 : (0 : ℤ) < q := by exact_mod_cast hq
  have hnn : 0 ≤ b % (q : ℤ) := Int.emod_nonneg b (ne_of_gt hq0)
  have hlt : b % (q : ℤ) < q := Int.emod_lt_of_pos b hq0
  refine ⟨(b % (q : ℤ)).toNat, ?_, ?_⟩
  · have : ((b % (q : ℤ)).toNat : ℤ) < q := by rw [Int.toNat_of_nonneg hnn]; exact hlt
    exact_mod_cast this
  · have hk : (((b % (q : ℤ)).toNat : ℕ) : ℚ) = ((b % (q : ℤ) : ℤ) : ℚ) := by
      have : (((b % (q : ℤ)).toNat : ℕ) : ℤ) = b % (q : ℤ) := Int.toNat_of_nonneg hnn
      exact_mod_cast this
    have hdiv : b - b % (q : ℤ) = (q : ℤ) * (b / (q : ℤ)) := by
      have := Int.emod_add_ediv b (q : ℤ)
      linarith
    have hqq : (q : ℚ) ≠ 0 := by exact_mod_cast (ne_of_gt hq)
    apply isWhole_iff.mpr
    refine ⟨b / (q : ℤ) * p, ?_⟩
    have hdivq : (b : ℚ) - ((b % (q : ℤ) : ℤ) : ℚ) = (q : ℚ) * ((b / (q : ℤ) : ℤ) : ℚ) := by
      exact_mod_cast hdiv
    rw [hk, hdivq]
    push_cast
    field_simp
    ring

/-! ## Initial placement and export without gestures -/

/-- C3: with no ratio and no initial coordinates the initial tracker is the
whole rendered image, and the export is the whole original image; for the
2000×1000 image rendered at 1000×500 the export is `{0, 0, 2000, 1000}`. -/
theorem initial_noRatio_exports_full (c : CropTool)
    (hiw : 0 < c.imageWidth) (hih : 0 < c.imageHeight)
    (hr : truthy c.ratio = none) (hic : c.initialCoordinates = none) :
    _initiallyPositionTracker c
        = { top := some 0, right := none, bottom := none, left := some 0,
            width := c.imageWidth, height := c.imageHeight } ∧
      getCoords c (_initiallyPositionTracker c)
        = { left := 0, top := 0, width := c.fullWidth, height := c.fullHeight } ∧
      getCoords (scenario none) (_initiallyPositionTracker (scenario none))
        = { left := 0, top := 0, width := 2000, height := 1000 } := by
  have hinit : _initiallyPositionTracker c
        = { top := some 0, right := none, bottom := none, left := some 0,
            width := c.imageWidth, height := c.imageHeight } := by
    simp [_initiallyPositionTracker, hic, hr]
  have hscen : getCoords (scenario none) (_initiallyPositionTracker (scenario none))
        = { left := 0, top := 0, width := 2000, height := 1000 } := by decide!
  refine ⟨hinit, ?_, hscen⟩
  rw [hinit]
  have hw : c.imageWidth * (c.fullWidth / c.imageWidth) = c.fullWidth := by
    field_simp
  have hh : c.imageHeight * (c.fullHeight / c.imageHeight) = c.fullHeight := by
    field_simp
  simp only [getCoords, hr, hw, hh, Tracker.positionLeft, Tracker.positionTop,
    exportSize_of_full_le, exportOffset_of_full_le, le_refl]

/-- C3 (instance): the 2000×1000 image rendered at 1000×500. -/
theorem initial_noRatio_exports_full_witness :
    getCoords (scenario none) (_initiallyPositionTracker (scenario none))
        = { left := 0, top := 0, width := (scenario none).fullWidth,
            height := (scenario none).fullHeight } :=
  (initial_noRatio_exports_full (scenario none) (by decide!) (by decide!) (by decide!)
    (by decide!)).2.1

/-- C4 (as stated, refuted): for the 2000×1000 image rendered at 1000×500 with
ratio 1 the export before any gesture is not `{250, 0, 500, 500}`. -/
theorem initial_ratio_one_export_not_display :
    getCoords (scenario (some 1)) (_initiallyPositionTracker (scenario (some 1)))
      ≠ { left := 250, top := 0, width := 500, height := 500 } := by
  decide!

/-- C4 (amended): for the 2000×1000 image rendered at 1000×500 with ratio 1
the initial tracker is at `x = 250, y = 0` with `width = height = 500`, and the
export before any gesture is `{left: 500, top: 0, width: 1000, height: 1000}`. -/
theorem initial_ratio_one_export :
    _initiallyPositionTracker (scenario (some 1))
        = { top := some 0, right := none, bottom := none, left := some 250,
            width := 500, height := 500 } ∧
      getCoords (scenario (some 1)) (_initiallyPositionTracker (scenario (some 1)))
        = { left := 500, top := 0, width := 1000, height := 1000 } := by
  decide!

/-! ## Bounds of the export -/

/-- C1 (as stated, refuted): the export leaves the claimed bounds in two
reachable states.  For a 200×200 image (smaller than the 250×250 minimum) the
initial tracker lies at `x = 0, y = 0` and exports width 200, below the minimum.
For a 1000×500 image with ratio 2, after one resize sample from the initial
tracker, the tracker lies at `x ≥ 0, y ≥ 0` and the export has
`left + width = 1001`, beyond the original width. -/
theorem getCoords_bounds_counterexample :
    (0 ≤ (_initiallyPositionTracker smallImage).positionLeft smallImage ∧
      0 ≤ (_initiallyPositionTracker smallImage).positionTop smallImage ∧
      (getCoords smallImage (_initiallyPositionTracker smallImage)).width
        < smallImage.minWidth) ∧
    (0 ≤ wideImageResized.positionLeft wideImage ∧
      0 ≤ wideImageResized.positionTop wideImage ∧
      wideImage.fullWidth
        < (getCoords wideImage wideImageResized).left
          + (getCoords wideImage wideImageResized).width) := by
  decide!

/-- C1 (amended): for positive sizes and every tracker with `x ≥ 0`, `y ≥ 0`
the export has `left ≥ 0` and `top ≥ 0`; with no ratio configured it also has
`left + width ≤ originalWidth`, `top + height ≤ originalHeight`, and, when the
minimums do not exceed the original size, `width ≥ minOriginalWidth` and
`height ≥ minOriginalHeight`. -/
theorem getCoords_bounds (c : CropTool) (t : Tracker)
    (hfw : 0 < c.fullWidth) (hfh : 0 < c.fullHeight)
    (hiw : 0 < c.imageWidth) (hih : 0 < c.imageHeight)
    (hx : 0 ≤ t.positionLeft c) (hy : 0 ≤ t.positionTop c)
    (hmw : c.minWidth ≤ c.fullWidth) (hmh : c.minHeight ≤ c.fullHeight) :
    0 ≤ (getCoords c t).left ∧ 0 ≤ (getCoords c t).top ∧
      (truthy c.ratio = none →
        (getCoords c t).left + (getCoords c t).width ≤ c.fullWidth ∧
        (getCoords c t).top + (getCoords c t).height ≤ c.fullHeight ∧
        c.minWidth ≤ (getCoords c t).width ∧ c.minHeight ≤ (getCoords c t).height) := by
  have hsx : 0 ≤ t.positionLeft c * (c.fullWidth / c.imageWidth) :=
    mul_nonneg hx (le_of_lt (div_pos hfw hiw))
  have hsy : 0 ≤ t.positionTop c * (c.fullHeight / c.imageHeight) :=
    mul_nonneg hy (le_of_lt (div_pos hfh hih))
  have hl := exportOffset_nonneg t.width c.minWidth c.fullWidth hsx
  have ht := exportOffset_nonneg t.height c.minHeight c.fullHeight hsy
  refine ⟨?_, ?_, ?_⟩
  · unfold getCoords
    cases truthy c.ratio <;> exact hl
  · unfold getCoords
    cases truthy c.ratio <;> exact ht
  · intro hr
    simp only [getCoords, hr]
    exact ⟨exportOffset_add_exportSize_le _ _ _ _ _, exportOffset_add_exportSize_le _ _ _ _ _,
      min_le_exportSize _ _ hmw, min_le_exportSize _ _ hmh⟩

/-- C1 (instance): the initial tracker of the 2000×1000 image rendered at
1000×500 with no ratio exports a rectangle inside all six bounds. -/
theorem getCoords_bounds_witness :
    0 ≤ (getCoords (scenario none) (_initiallyPositionTracker (scenario none))).left ∧
    0 ≤ (getCoords (scenario none) (_initiallyPositionTracker (scenario none))).top ∧
    (getCoords (scenario none) (_initiallyPositionTracker (scenario none))).left
      + (getCoords (scenario none) (_initiallyPositionTracker (scenario none))).width
      ≤ (scenario none).fullWidth ∧
    (getCoords (scenario none) (_initiallyPositionTracker (scenario none))).top
      + (getCoords (scenario none) (_initiallyPositionTracker (scenario none))).height
      ≤ (scenario none).fullHeight ∧
    (scenario none).minWidth
      ≤ (getCoords (scenario none) (_initiallyPositionTracker (scenario none))).width ∧
    (scenario none).minHeight
      ≤ (getCoords (scenario none) (_initiallyPositionTracker (scenario none))).height :=
  have h := getCoords_bounds (scenario none) (_initiallyPositionTracker (scenario none))
    (by decide!) (by decide!) (by decide!) (by decide!) (by decide!) (by decide!)
    (by decide!) (by decide!)
  ⟨h.1, h.2.1, h.2.2 (by decide!)⟩

/-! ## The ratio of the export -/

/-- With a ratio `p / q` whose denominator is at most 4 and whole original
sizes and minimums, the export ends on the exact ratio with a whole width. -/
theorem getCoords_exact_of_small_den (c : CropTool) (t : Tracker) (p : ℤ) (q : ℕ)
    (hp : p ≠ 0) (hq : 0 < q) (hq4 : q ≤ 4) (hr : c.ratio = some ((p : ℚ) / q))
    (hfw : isWhole c.fullWidth = true) (hfh : isWhole c.fullHeight = true)
    (hmw : isWhole c.minWidth = true) (hmh : isWhole c.minHeight = true) :
    (getCoords c t).height * ((p : ℚ) / q) = (getCoords c t).width ∧
      isWhole (getCoords c t).width = true := by
  have hq0 : (q : ℚ) ≠ 0 := by exact_mod_cast (ne_of_gt hq)
  have hp0 : (p : ℚ) ≠ 0 := by exact_mod_cast hp
  have hr0 : (p : ℚ) / q ≠ 0 := div_ne_zero hp0 hq0
  have htr : truthy c.ratio = some ((p : ℚ) / q) := by
    rw [hr]
    simp [truthy, hr0]
  have hW := isWhole_exportSize t.width (c.fullWidth / c.imageWidth) hmw hfw
  have hH := isWhole_exportSize t.height (c.fullHeight / c.imageHeight) hmh hfh
  obtain ⟨b, hb⟩ := isWhole_iff.mp hH
  obtain ⟨k, hk, hwhole⟩ := exists_whole_mul p q hq b
  have hloop := snapLoop_exact hr0 4
    (exportSize t.width (c.fullWidth / c.imageWidth) c.minWidth c.fullWidth)
    (exportSize t.height (c.fullHeight / c.imageHeight) c.minHeight c.fullHeight) hW
    ⟨k, lt_of_lt_of_le hk hq4, Or.inl (by rw [hb]; exact hwhole)⟩
  simp only [getCoords, htr]
  exact hloop

/-- C2 (as stated, refuted): for the 1000×1000 image with ratio 16/9 the
initial tracker exports `{0, 219, 996, 559}`, and 996 is not
`round(559 × 16/9) = 994`. -/
theorem getCoords_ratio_round_counterexample :
    getCoords squareImage (_initiallyPositionTracker squareImage)
        = { left := 0, top := 219, width := 996, height := 559 } ∧
      (getCoords squareImage (_initiallyPositionTracker squareImage)).width
        ≠ jsRound ((getCoords squareImage (_initiallyPositionTracker squareImage)).height
            * (16 / 9)) := by
  decide!

/-- C2 (amended): for the ratios 4/3 and 1, whole original sizes and minimums
and every tracker, the export satisfies `width = round(height × ratio)`. -/
theorem getCoords_ratio_round (c : CropTool) (t : Tracker) (ratio : ℚ)
    (hr : c.ratio = some ratio) (hv : ratio = 4 / 3 ∨ ratio = 1)
    (hfw : isWhole c.fullWidth = true) (hfh : isWhole c.fullHeight = true)
    (hmw : isWhole c.minWidth = true) (hmh : isWhole c.minHeight = true) :
    (getCoords c t).width = jsRound ((getCoords c t).height * ratio) := by
  rcases hv with hv | hv
  · have e : ratio = ((4 : ℤ) : ℚ) / ((3 : ℕ) : ℚ) := by rw [hv]; norm_num
    rw [e] at hr ⊢
    obtain ⟨h1, h2⟩ := getCoords_exact_of_small_den c t 4 3 (by decide) (by decide)
      (by decide) hr hfw hfh hmw hmh
    rw [h1, jsRound_of_whole h2]
  · have e : ratio = ((1 : ℤ) : ℚ) / ((1 : ℕ) : ℚ) := by rw [hv]; norm_num
    rw [e] at hr ⊢
    obtain ⟨h1, h2⟩ := getCoords_exact_of_small_den c t 1 1 (by decide) (by decide)
      (by decide) hr hfw hfh hmw hmh
    rw [h1, jsRound_of_whole h2]

/-- C2 (instance): the initial tracker of the 2000×1000 image rendered at
1000×500 with ratio 1. -/
theorem getCoords_ratio_round_witness :
    (getCoords (scenario (some 1)) (_initiallyPositionTracker (scenario (some 1)))).width
      = jsRound ((getCoords (scenario (some 1))
          (_initiallyPositionTracker (scenario (some 1)))).height * 1) :=
  getCoords_ratio_round (scenario (some 1)) (_initiallyPositionTracker (scenario (some 1))) 1
    rfl (Or.inr rfl) (by decide!) (by decide!) (by decide!) (by decide!)

/-! ## Drag -/

theorem dragMove_positionLeft (c : CropTool) (s : DragSession) (t : Tracker) (px py : ℚ) :
    (dragMove s t px py).positionLeft c
      = if px - s.preOffsetX < 0 then 0
        else if px - s.preOffsetX > s.maxOffsetX then s.maxOffsetX
        else px - s.preOffsetX := by
  simp only [dragMove, Tracker.positionLeft]

theorem dragMove_positionTop (c : CropTool) (s : DragSession) (t : Tracker) (px py : ℚ) :
    (dragMove s t px py).positionTop c
      = if py - s.preOffsetY < 0 then 0
        else if py - s.preOffsetY > s.maxOffsetY then s.maxOffsetY
        else py - s.preOffsetY := by
  simp only [dragMove, Tracker.positionTop]

theorem clamp_eq_max_min {v hi : ℚ} (hhi : 0 ≤ hi) :
    (if v < 0 then 0 else if v > hi then hi else v) = max 0 (min v hi) := by
  split_ifs with h1 h2
  · rw [max_eq_left]
    exact le_trans (min_le_left v hi) (le_of_lt h1)
  · rw [min_eq_right (le_of_lt h2), max_eq_right hhi]
  · rw [min_eq_left (not_lt.mp h2), max_eq_right (not_lt.mp h1)]

/-- C5: in a drag started at pointer `(sx, sy)` over a tracker no larger than
the rendered image, every move sample `(px, py)`, whatever samples came before
it, places the tracker at
`x = clamp(px − (sx − x0), 0, renderedWidth − w)` and
`y = clamp(py − (sy − y0), 0, renderedHeight − h)`, so `x` lies in
`[0, renderedWidth − w]` and `y` in `[0, renderedHeight − h]`; and dragging the
tracker at `x = 250` of the 2000×1000 image rendered at 1000×500 by `dx = 50`
gives `x = 300` and exported left 600. -/
theorem dragMove_clamped (c : CropTool) (t : Tracker) (sx sy px py : ℚ)
    (earlier : List (ℚ × ℚ))
    (hw : t.width ≤ c.imageWidth) (hh : t.height ≤ c.imageHeight) :
    ((dragMove (dragStart c t sx sy) (dragGesture (dragStart c t sx sy) t earlier)
          px py).positionLeft c
        = max 0 (min (px - (sx - t.positionLeft c)) (c.imageWidth - t.width)) ∧
      (dragMove (dragStart c t sx sy) (dragGesture (dragStart c t sx sy) t earlier)
          px py).positionTop c
        = max 0 (min (py - (sy - t.positionTop c)) (c.imageHeight - t.height)) ∧
      0 ≤ (dragMove (dragStart c t sx sy) (dragGesture (dragStart c t sx sy) t earlier)
          px py).positionLeft c ∧
      (dragMove (dragStart c t sx sy) (dragGesture (dragStart c t sx sy) t earlier)
          px py).positionLeft c ≤ c.imageWidth - t.width ∧
      0 ≤ (dragMove (dragStart c t sx sy) (dragGesture (dragStart c t sx sy) t earlier)
          px py).positionTop c ∧
      (dragMove (dragStart c t sx sy) (dragGesture (dragStart c t sx sy) t earlier)
          px py).positionTop c ≤ c.imageHeight - t.height) ∧
    ((dragMove (dragStart (scenario (some 1)) (_initiallyPositionTracker (scenario (some 1)))
          sx sy) (_initiallyPositionTracker (scenario (some 1))) (sx + 50) sy).positionLeft
          (scenario (some 1)) = 300 ∧
      (getCoords (scenario (some 1))
        (dragMove (dragStart (scenario (some 1))
          (_initiallyPositionTracker (scenario (some 1))) sx sy)
          (_initiallyPositionTracker (scenario (some 1))) (sx + 50) sy)).left = 600) := by
  have hx : (0 : ℚ) ≤ c.imageWidth - t.width := by linarith
  have hy : (0 : ℚ) ≤ c.imageHeight - t.height := by linarith
  have ex : (dragMove (dragStart c t sx sy) (dragGesture (dragStart c t sx sy) t earlier)
      px py).positionLeft c
      = max 0 (min (px - (sx - t.positionLeft c)) (c.imageWidth - t.width)) := by
    rw [dragMove_positionLeft]
    exact clamp_eq_max_min hx
  have ey : (dragMove (dragStart c t sx sy) (dragGesture (dragStart c t sx sy) t earlier)
      px py).positionTop c
      = max 0 (min (py - (sy - t.positionTop c)) (c.imageHeight - t.height)) := by
    rw [dragMove_positionTop]
    exact clamp_eq_max_min hy
  have hinit : _initiallyPositionTracker (scenario (some 1))
      = { top := some 0, right := none, bottom := none, left := some 250,
          width := 500, height := 500 } := by decide!
  have hmoved : dragMove (dragStart (scenario (some 1))
        (_initiallyPositionTracker (scenario (some 1))) sx sy)
        (_initiallyPositionTracker (scenario (some 1))) (sx + 50) sy
      = { top := some 0, right := none, bottom := none, left := some 300,
          width := 500, height := 500 } := by
    rw [hinit]
    have e1 : sx + 50 - (sx - 250) = (300 : ℚ) := by ring
    have e2 : sy - (sy - 0) = (0 : ℚ) := by ring
    simp only [dragMove, dragStart, Tracker.positionLeft, Tracker.positionTop, scenario, e1, e2]
    norm_num
  refine ⟨⟨ex, ey, ?_, ?_, ?_, ?_⟩, ?_, ?_⟩
  · rw [ex]; exact le_max_left _ _
  · rw [ex]; exact max_le hx (min_le_right _ _)
  · rw [ey]; exact le_max_left _ _
  · rw [ey]; exact max_le hy (min_le_right _ _)
  · rw [hmoved]; rfl
  · rw [hmoved]; decide!

/-- C5 (instance): the scenario drag, pointer from `(400, 200)` to `(450, 200)`:
the tracker fits the rendered image, lands on the clamped position, and the
exported left is 600. -/
theorem dragMove_clamped_witness :
    (_initiallyPositionTracker (scenario (some 1))).width ≤ (scenario (some 1)).imageWidth ∧
    (_initiallyPositionTracker (scenario (some 1))).height ≤ (scenario (some 1)).imageHeight ∧
    (dragMove (dragStart (scenario (some 1)) (_initiallyPositionTracker (scenario (some 1)))
        400 200) (dragGesture (dragStart (scenario (some 1))
          (_initiallyPositionTracker (scenario (some 1))) 400 200)
          (_initiallyPositionTracker (scenario (some 1))) []) 450 200).positionLeft
        (scenario (some 1))
      = max 0 (min (450 - (400 - (_initiallyPositionTracker (scenario (some 1))).positionLeft
          (scenario (some 1))))
          ((scenario (some 1)).imageWidth
            - (_initiallyPositionTracker (scenario (some 1))).width)) ∧
    (getCoords (scenario (some 1))
      (dragMove (dragStart (scenario (some 1))
        (_initiallyPositionTracker (scenario (some 1))) 400 200)
        (_initiallyPositionTracker (scenario (some 1))) (400 + 50) 200)).left = 600 :=
  have h := dragMove_clamped (scenario (some 1)) (_initiallyPositionTracker (scenario (some 1)))
    400 200 450 200 [] (by decide!) (by decide!)
  ⟨by decide!, by decide!, h.1.1, h.2.2⟩

/-- C6: a drag move sample leaves the tracker's width and height (and its
`right` and `bottom` style) as they were, and the exported width and height
are the same before and after it. -/
theorem dragMove_keeps_size (c : CropTool) (s : DragSession) (t : Tracker) (px py : ℚ) :
    (dragMove s t px py).width = t.width ∧ (dragMove s t px py).height = t.height ∧
      (dragMove s t px py).right = t.right ∧ (dragMove s t px py).bottom = t.bottom ∧
      (getCoords c (dragMove s t px py)).width = (getCoords c t).width ∧
      (getCoords c (dragMove s t px py)).height = (getCoords c t).height := by
  refine ⟨rfl, rfl, rfl, rfl, ?_, ?_⟩
  · cases h : truthy c.ratio <;> simp [getCoords, h, dragMove]
  · cases h : truthy c.ratio <;> simp [getCoords, h, dragMove]

/-! ## Free resize -/

/-- C7 (evaluation at the failing input): in free mode, from the full-image
tracker (which satisfies the invariants), grabbing the north-west corner and
moving the pointer to `x = 950` puts the tracker at `x = 875` with width 50:
the right edge, at 1000 when the gesture started, is now at 925. -/
theorem resize_free_west_moves_right_edge :
    Invariant (scenario none) (_initiallyPositionTracker (scenario none)) ∧
      (_initiallyPositionTracker (scenario none)).positionLeft (scenario none)
        + (_initiallyPositionTracker (scenario none)).width = 1000 ∧
      pushedWest = { top := some 0, right := none, bottom := none, left := some 875,
                     width := 50, height := 500 } ∧
      pushedWest.positionLeft (scenario none) + pushedWest.width = 925 := by
  decide!

/-- C8 (evaluation at the failing input): in free mode, from the full-image
tracker (which satisfies the invariants), grabbing the north-east corner and
moving the pointer down to `y = 450` leaves a tracker of height 50, below the
display minimum 125, so the invariants no longer hold. -/
theorem resize_free_north_below_minimum :
    Invariant (scenario none) (_initiallyPositionTracker (scenario none)) ∧
      (scenario none).imageMinHeight = 125 ∧
      pushedNorth = { top := some 375, right := none, bottom := none, left := some 0,
                      width := 1000, height := 50 } ∧
      ¬ Invariant (scenario none) pushedNorth := by
  decide!

theorem clampUp_eq_max_min {v lo hi : ℚ} (h : lo ≤ hi) :
    (if (if v < lo then lo else v) > hi then hi else if v < lo then lo else v)
      = max lo (min v hi) := by
  by_cases h1 : v < lo
  · rw [if_pos h1, if_neg (not_lt.mpr h), max_eq_left]
    exact le_trans (min_le_left v hi) (le_of_lt h1)
  · rw [if_neg h1]
    by_cases h2 : v > hi
    · rw [if_pos h2, min_eq_right (le_of_lt h2), max_eq_right h]
    · rw [if_neg h2, min_eq_left (not_lt.mp h2), max_eq_right (not_lt.mp h1)]

/-- The free resize sample for the south-east corner, written out. -/
theorem resizeMove_free_se (c : CropTool) (t u : Tracker) (sx sy px py : ℚ)
    (hr : truthy c.ratio = none) :
    resizeMove c (resizeStart c t Corner.se sx sy) u px py
      = { top := some (t.positionTop c), right := none, bottom := none,
          left := some (t.positionLeft c),
          width :=
            if (if px - (sx - t.width) < c.imageMinWidth then c.imageMinWidth
                else px - (sx - t.width)) > c.imageWidth - t.positionLeft c
            then c.imageWidth - t.positionLeft c
            else if px - (sx - t.width) < c.imageMinWidth then c.imageMinWidth
              else px - (sx - t.width),
          height :=
            if (if py - (sy - t.height) < c.imageMinHeight then c.imageMinHeight
                else py - (sy - t.height)) > c.imageHeight - t.positionTop c
            then c.imageHeight - t.positionTop c
            else if py - (sy - t.height) < c.imageMinHeight then c.imageMinHeight
              else py - (sy - t.height) } := by
  simp [resizeMove, hr, resizeMoveFree, resizeStart]

/-- C9: in free mode with the south-east corner active, starting from a
tracker that satisfies the invariants, every move sample `(px, py)`, whatever
samples came before it, leaves `x` and `y` unchanged and sets
`width = clamp(initialWidth + (px − sx), minDisplayWidth, renderedWidth − x)` and
`height = clamp(initialHeight + (py − sy), minDisplayHeight, renderedHeight − y)`;
so a pointer that would shrink the rectangle to or below the minimum on both
axes yields exactly `(minDisplayWidth, minDisplayHeight)`, which is `(125, 125)`
for the default minimums at 2× scale. -/
theorem resize_free_se_clamped (c : CropTool) (t : Tracker) (sx sy px py : ℚ)
    (earlier : List (ℚ × ℚ)) (hr : truthy c.ratio = none) (hinv : Invariant c t) :
    ((resizeMove c (resizeStart c t Corner.se sx sy)
          (resizeGesture c (resizeStart c t Corner.se sx sy) t earlier) px py).positionLeft c
        = t.positionLeft c ∧
      (resizeMove c (resizeStart c t Corner.se sx sy)
          (resizeGesture c (resizeStart c t Corner.se sx sy) t earlier) px py).positionTop c
        = t.positionTop c ∧
      (resizeMove c (resizeStart c t Corner.se sx sy)
          (resizeGesture c (resizeStart c t Corner.se sx sy) t earlier) px py).width
        = max c.imageMinWidth (min (t.width + (px - sx)) (c.imageWidth - t.positionLeft c)) ∧
      (resizeMove c (resizeStart c t Corner.se sx sy)
          (resizeGesture c (resizeStart c t Corner.se sx sy) t earlier) px py).height
        = max c.imageMinHeight
            (min (t.height + (py - sy)) (c.imageHeight - t.positionTop c))) ∧
    (t.width + (px - sx) ≤ c.imageMinWidth → t.height + (py - sy) ≤ c.imageMinHeight →
      (resizeMove c (resizeStart c t Corner.se sx sy)
          (resizeGesture c (resizeStart c t Corner.se sx sy) t earlier) px py).width
        = c.imageMinWidth ∧
      (resizeMove c (resizeStart c t Corner.se sx sy)
          (resizeGesture c (resizeStart c t Corner.se sx sy) t earlier) px py).height
        = c.imageMinHeight) ∧
    ((scenario none).imageMinWidth = 125 ∧ (scenario none).imageMinHeight = 125) := by
  obtain ⟨_, _, hxw, hyh, hmw, hmh⟩ := hinv
  have hlow : c.imageMinWidth ≤ c.imageWidth - t.positionLeft c := by linarith
  have hloh : c.imageMinHeight ≤ c.imageHeight - t.positionTop c := by linarith
  have ew : px - (sx - t.width) = t.width + (px - sx) := by ring
  have eh : py - (sy - t.height) = t.height + (py - sy) := by ring
  have hsc : (scenario none).imageMinWidth = 125 ∧ (scenario none).imageMinHeight = 125 := by
    decide!
  rw [resizeMove_free_se c t _ sx sy px py hr]
  generalize t.positionLeft c = x0 at *
  generalize t.positionTop c = y0 at *
  simp only [Tracker.positionLeft, Tracker.positionTop, ew, eh, clampUp_eq_max_min hlow,
    clampUp_eq_max_min hloh, true_and]
  refine ⟨?_, hsc⟩
  intro h1 h2
  constructor
  · exact max_eq_left (le_trans (min_le_left _ _) h1)
  · exact max_eq_left (le_trans (min_le_left _ _) h2)

/-- C9 (instance): for the 2000×1000 image rendered at 1000×500 with no ratio,
grabbing the south-east corner of the full-image tracker at `(1000, 500)` and
moving the pointer to `(0, 0)` gives a 125×125 tracker. -/
theorem resize_free_se_clamped_witness :
    Invariant (scenario none) (_initiallyPositionTracker (scenario none)) ∧
    (resizeMove (scenario none)
        (resizeStart (scenario none) (_initiallyPositionTracker (scenario none))
          Corner.se 1000 500)
        (resizeGesture (scenario none)
          (resizeStart (scenario none) (_initiallyPositionTracker (scenario none))
            Corner.se 1000 500)
          (_initiallyPositionTracker (scenario none)) []) 0 0).width
      = (scenario none).imageMinWidth ∧
    (resizeMove (scenario none)
        (resizeStart (scenario none) (_initiallyPositionTracker (scenario none))
          Corner.se 1000 500)
        (resizeGesture (scenario none)
          (resizeStart (scenario none) (_initiallyPositionTracker (scenario none))
            Corner.se 1000 500)
          (_initiallyPositionTracker (scenario none)) []) 0 0).height
      = (scenario none).imageMinHeight :=
  ⟨by decide!,
   (resize_free_se_clamped (scenario none) (_initiallyPositionTracker (scenario none))
      1000 500 0 0 [] (by decide!) (by decide!)).2.1 (by decide!) (by decide!)⟩

/-! ## Ratio-locked resize -/

theorem clampUp_mem {v lo hi : ℚ} (h : lo ≤ hi) :
    lo ≤ (if (if v < lo then lo else v) > hi then hi else if v < lo then lo else v) ∧
      (if (if v < lo then lo else v) > hi then hi else if v < lo then lo else v) ≤ hi := by
  rw [clampUp_eq_max_min h]
  exact ⟨le_max_left _ _, max_le h (min_le_right _ _)⟩

/-- The height pass of the ratio branch: from a width inside its range, on a
gesture that started on the ratio, the clamped height is inside its range and
so is the width derived from it. -/
theorem ratio_height_pass {ratio w h0 minW maxW minH maxH : ℚ} (hr : 0 < ratio)
    (hw1 : minW ≤ w) (hw2 : w ≤ maxW)
    (h1 : minW ≤ h0 * ratio) (h2 : h0 * ratio ≤ maxW) (h3 : minH ≤ h0) (h4 : h0 ≤ maxH) :
    minW ≤ (max minH (min (w / ratio) maxH)) * ratio ∧
      (max minH (min (w / ratio) maxH)) * ratio ≤ maxW := by
  have hne : ratio ≠ 0 := ne_of_gt hr
  have e : w / ratio * ratio = w := by field_simp
  have hmin1 : minH * ratio ≤ maxW :=
    le_trans (mul_le_mul_of_nonneg_right h3 (le_of_lt hr)) h2
  have hmax1 : minW ≤ maxH * ratio :=
    le_trans h1 (mul_le_mul_of_nonneg_right h4 (le_of_lt hr))
  constructor
  · have hmin : minW ≤ (min (w / ratio) maxH) * ratio := by
      rcases min_choice (w / ratio) maxH with hc | hc
      · rw [hc, e]; exact hw1
      · rw [hc]; exact hmax1
    exact le_trans hmin (mul_le_mul_of_nonneg_right (le_max_right _ _) (le_of_lt hr))
  · rcases max_choice minH (min (w / ratio) maxH) with hc | hc
    · rw [hc]; exact hmin1
    · rw [hc]
      have : (min (w / ratio) maxH) * ratio ≤ w / ratio * ratio :=
        mul_le_mul_of_nonneg_right (min_le_left _ _) (le_of_lt hr)
      rw [e] at this
      exact le_trans this hw2

/-- The ratio branch keeps a gesture that started on the ratio and inside the
invariants within its width and height ranges and inside the image. -/
theorem resizeMoveRatio_bounds (c : CropTool) (s : ResizeSession) (ratio px : ℚ)
    (hr : 0 < ratio) (hw : s.preWidth = s.preHeight * ratio)
    (hR : s.preRight = c.imageWidth - s.preWidth - s.preLeft)
    (hB : s.preBottom = c.imageHeight - s.preHeight - s.preTop)
    (hx : 0 ≤ s.preLeft) (hy : 0 ≤ s.preTop)
    (hxw : s.preLeft + s.preWidth ≤ c.imageWidth)
    (hyh : s.preTop + s.preHeight ≤ c.imageHeight)
    (hmw : c.imageMinWidth ≤ s.preWidth) (hmh : c.imageMinHeight ≤ s.preHeight) :
    (c.imageMinWidth ≤ (resizeMoveRatio c s ratio px).width ∧
      (resizeMoveRatio c s ratio px).width
        ≤ (if s.isWest then c.imageWidth - s.preRight else c.imageWidth - s.preLeft) ∧
      c.imageMinHeight ≤ (resizeMoveRatio c s ratio px).height ∧
      (resizeMoveRatio c s ratio px).height
        ≤ (if s.isNorth then c.imageHeight - s.preBottom else c.imageHeight - s.preTop)) ∧
    (0 ≤ (resizeMoveRatio c s ratio px).positionLeft c ∧
      0 ≤ (resizeMoveRatio c s ratio px).positionTop c ∧
      (resizeMoveRatio c s ratio px).positionLeft c + (resizeMoveRatio c s ratio px).width
        ≤ c.imageWidth ∧
      (resizeMoveRatio c s ratio px).positionTop c + (resizeMoveRatio c s ratio px).height
        ≤ c.imageHeight) := by
  -- the two ranges are not empty
  have hmaxW : c.imageMinWidth
      ≤ (if s.isWest then c.imageWidth - s.preRight else c.imageWidth - s.preLeft) := by
    split_ifs <;> linarith
  have hmaxH : c.imageMinHeight
      ≤ (if s.isNorth then c.imageHeight - s.preBottom else c.imageHeight - s.preTop) := by
    split_ifs <;> linarith
  have hpreW : s.preHeight * ratio
      ≤ (if s.isWest then c.imageWidth - s.preRight else c.imageWidth - s.preLeft) := by
    rw [← hw]
    split_ifs <;> linarith
  have hpreH : s.preHeight
      ≤ (if s.isNorth then c.imageHeight - s.preBottom else c.imageHeight - s.preTop) := by
    split_ifs <;> linarith
  generalize hMW : (if s.isWest then c.imageWidth - s.preRight
    else c.imageWidth - s.preLeft) = maxW at *
  generalize hMH : (if s.isNorth then c.imageHeight - s.preBottom
    else c.imageHeight - s.preTop) = maxH at *
  generalize hcand : (if s.isWest then s.preWidth - (px - s.preClientX)
    else px - s.preOffsetWidth) = cand
  have hwd : (resizeMoveRatio c s ratio px).height
      = max c.imageMinHeight (min ((max c.imageMinWidth (min cand maxW)) / ratio) maxH) := by
    simp only [resizeMoveRatio, hMW, hMH, hcand]
    rw [clampUp_eq_max_min hmaxW, clampUp_eq_max_min hmaxH]
  have hww : (resizeMoveRatio c s ratio px).width
      = (resizeMoveRatio c s ratio px).height * ratio := by
    simp only [resizeMoveRatio]
  have hc1 : c.imageMinWidth ≤ max c.imageMinWidth (min cand maxW) := le_max_left _ _
  have hc2 : max c.imageMinWidth (min cand maxW) ≤ maxW := max_le hmaxW (min_le_right _ _)
  obtain ⟨hW1, hW2⟩ := ratio_height_pass hr hc1 hc2 (by rw [← hw]; exact hmw) hpreW hmh hpreH
  have hH1 : c.imageMinHeight ≤ (resizeMoveRatio c s ratio px).height := by
    rw [hwd]; exact le_max_left _ _
  have hH2 : (resizeMoveRatio c s ratio px).height ≤ maxH := by
    rw [hwd]; exact max_le hmaxH (min_le_right _ _)
  rw [← hwd] at hW1 hW2
  rw [← hww] at hW1 hW2
  refine ⟨⟨hW1, hW2, hH1, hH2⟩, ?_⟩
  have hpl : (resizeMoveRatio c s ratio px).positionLeft c
      = if s.isWest then c.imageWidth - s.preRight - (resizeMoveRatio c s ratio px).width
        else s.preLeft := by
    cases hwest : s.isWest <;> simp [resizeMoveRatio, Tracker.positionLeft, hwest]
  have hpt : (resizeMoveRatio c s ratio px).positionTop c
      = if s.isNorth then c.imageHeight - s.preBottom - (resizeMoveRatio c s ratio px).height
        else s.preTop := by
    cases hnorth : s.isNorth <;> simp [resizeMoveRatio, Tracker.positionTop, hnorth]
  rw [hpl, hpt]
  generalize (resizeMoveRatio c s ratio px).width = w1 at *
  generalize (resizeMoveRatio c s ratio px).height = h1 at *
  refine ⟨?_, ?_, ?_, ?_⟩
  · split_ifs at hMW ⊢ <;> linarith
  · split_ifs at hMH ⊢ <;> linarith
  · split_ifs at hMW ⊢ <;> linarith
  · split_ifs at hMH ⊢ <;> linarith

/-- C10 (as stated, refuted): for the 2000×1000 image rendered at 1000×500 with
ratio 2, the 200×200 tracker at `x = 800` satisfies the invariants, and one
resize sample from the south-east corner gives width 250, above
`maxWidth = 1000 − 800 = 200`, so that `x + width = 1050` passes the rendered
width 1000. -/
theorem resize_ratio_bounds_counterexample :
    truthy (scenario (some 2)).ratio = some 2 ∧
      Invariant (scenario (some 2)) offRatioTracker ∧
      offRatioResized.width = 250 ∧
      offRatioResized.width
        > (scenario (some 2)).imageWidth
          - (resizeStart (scenario (some 2)) offRatioTracker Corner.se 1000 200).preLeft ∧
      offRatioResized.positionLeft (scenario (some 2)) + offRatioResized.width
        > (scenario (some 2)).imageWidth := by
  decide!

/-- In exact arithmetic, with a ratio `r > 0` configured, starting from a tracker that
satisfies the invariants and lies on the ratio (`width = height × r`), after
every resize move sample from any corner, whatever samples came before it,
`minDisplayWidth ≤ width ≤ maxWidth` (`maxWidth = renderedWidth − rightMargin`
for west corners, `renderedWidth − initialLeft` otherwise),
`minDisplayHeight ≤ height ≤ maxHeight`, and `x ≥ 0`, `y ≥ 0`,
`x + width ≤ renderedWidth`, `y + height ≤ renderedHeight`. -/
theorem resize_ratio_bounds_exact (c : CropTool) (t : Tracker) (corner : Corner)
    (sx sy px py ratio : ℚ) (earlier : List (ℚ × ℚ))
    (hr : truthy c.ratio = some ratio) (hpos : 0 < ratio)
    (hinv : Invariant c t) (hon : t.width = t.height * ratio) :
    (c.imageMinWidth
        ≤ (resizeMove c (resizeStart c t corner sx sy)
            (resizeGesture c (resizeStart c t corner sx sy) t earlier) px py).width ∧
      (resizeMove c (resizeStart c t corner sx sy)
            (resizeGesture c (resizeStart c t corner sx sy) t earlier) px py).width
        ≤ (if (resizeStart c t corner sx sy).isWest
            then c.imageWidth - (resizeStart c t corner sx sy).preRight
            else c.imageWidth - (resizeStart c t corner sx sy).preLeft) ∧
      c.imageMinHeight
        ≤ (resizeMove c (resizeStart c t corner sx sy)
            (resizeGesture c (resizeStart c t corner sx sy) t earlier) px py).height ∧
      (resizeMove c (resizeStart c t corner sx sy)
            (resizeGesture c (resizeStart c t corner sx sy) t earlier) px py).height
        ≤ (if (resizeStart c t corner sx sy).isNorth
            then c.imageHeight - (resizeStart c t corner sx sy).preBottom
            else c.imageHeight - (resizeStart c t corner sx sy).preTop)) ∧
    (0 ≤ (resizeMove c (resizeStart c t corner sx sy)
            (resizeGesture c (resizeStart c t corner sx sy) t earlier) px py).positionLeft c ∧
      0 ≤ (resizeMove c (resizeStart c t corner sx sy)
            (resizeGesture c (resizeStart c t corner sx sy) t earlier) px py).positionTop c ∧
      (resizeMove c (resizeStart c t corner sx sy)
            (resizeGesture c (resizeStart c t corner sx sy) t earlier) px py).positionLeft c
        + (resizeMove c (resizeStart c t corner sx sy)
            (resizeGesture c (resizeStart c t corner sx sy) t earlier) px py).width
        ≤ c.imageWidth ∧
      (resizeMove c (resizeStart c t corner sx sy)
            (resizeGesture c (resizeStart c t corner sx sy) t earlier) px py).positionTop c
        + (resizeMove c (resizeStart c t corner sx sy)
            (resizeGesture c (resizeStart c t corner sx sy) t earlier) px py).height
        ≤ c.imageHeight) := by
  obtain ⟨hx, hy, hxw, hyh, hmw, hmh⟩ := hinv
  have e : ∀ u : Tracker, resizeMove c (resizeStart c t corner sx sy) u px py
      = resizeMoveRatio c (resizeStart c t corner sx sy) ratio px := by
    intro u
    simp only [resizeMove, hr]
  rw [e]
  exact resizeMoveRatio_bounds c (resizeStart c t corner sx sy) ratio px hpos hon rfl rfl
    hx hy hxw hyh hmw hmh

/-! ## Construction -/

theorem threw_checkCoordinates_iff (oc : Option InitialCoordinates) :
    (∃ e, checkCoordinates oc = Except.error e) ↔
      ∃ ic, oc = some ic ∧
        (ic.width = none ∨ ic.height = none ∨ ic.top = none ∨ ic.left = none) := by
  cases oc with
  | none => simp [checkCoordinates]
  | some ic =>
    obtain ⟨w, h, t, l⟩ := ic
    cases w <;> cases h <;> cases t <;> cases l <;> simp [checkCoordinates]

/-- C11 (as stated, refuted): with an `image` option that holds no element and
a 2000×1000 original, the reference resolves to no element and the constructor
does not throw; the tool is left unprimed. -/
theorem construct_unresolved_image_counterexample :
    emptyImageOptions.image = some 0 ∧
      threw (construct emptyImageOptions) = false ∧
      (construct emptyImageOptions).toOption
        = some { image := ImageRef.jquery 0, fullWidth := 2000, fullHeight := 1000,
                 minWidth := 250, minHeight := 250, initialCoordinates := none,
                 ratio := none, primed := false } := by
  decide!

/-- The selector without a context: `context.find` is then the static `$.find`,
whose result is a plain array; when it holds one element the constructor calls
`width()` on it and a `TypeError` is thrown, although the options are valid. -/
theorem construct_selector_without_context :
    (construct { emptyImageOptions with
        image := none, imageSelector := some (String.singleton 'i'), found := 1 }).toOption
      = none ∧
    threwConfig (construct { emptyImageOptions with
        image := none, imageSelector := some (String.singleton 'i'), found := 1 }) = false ∧
    threw (construct { emptyImageOptions with
        image := none, imageSelector := some (String.singleton 'i'), found := 1,
        context := true }) = false := by
  decide

/-- C11 (amended): the constructor throws a configuration error exactly when
neither `image` nor a non-empty `imageSelector` is given, or `imageWidth` or
`imageHeight` is missing or zero, or `initialCoordinates` is supplied without
one of the properties width, height, top, left; when `image` is given, or
`imageSelector` together with a `context`, it throws nothing else, so it throws
exactly then; and whenever it does not throw, the tool is primed exactly when
the image reference holds one element. -/
theorem construct_throws_iff (o : Options) :
    (threwConfig (construct o) = true ↔
      ((o.image = none ∧ selectorGiven o = false) ∨
        truthy o.imageWidth = none ∨ truthy o.imageHeight = none ∨
        ∃ ic, o.initialCoordinates = some ic ∧
          (ic.width = none ∨ ic.height = none ∨ ic.top = none ∨ ic.left = none))) ∧
    ((o.image ≠ none ∨ o.context = true) →
      (threw (construct o) = true ↔
        ((o.image = none ∧ selectorGiven o = false) ∨
          truthy o.imageWidth = none ∨ truthy o.imageHeight = none ∨
          ∃ ic, o.initialCoordinates = some ic ∧
            (ic.width = none ∨ ic.height = none ∨ ic.top = none ∨ ic.left = none)))) ∧
    (∀ k, construct o = Except.ok k → (k.primed = true ↔ k.image.length = 1)) := by
  have hc := threw_checkCoordinates_iff o.initialCoordinates
  refine ⟨?_, ?_, ?_⟩
  · rw [← hc]
    unfold construct resolveImage findImage
    cases hi : o.image <;> cases hs : selectorGiven o <;> cases hx : o.context <;>
      cases hw : truthy o.imageWidth <;> cases hh : truthy o.imageHeight <;>
      cases hk : checkCoordinates o.initialCoordinates <;>
      simp [threwConfig, ImageRef.length] <;>
      split_ifs <;> simp
  · intro hgiven
    rw [← hc]
    unfold construct resolveImage findImage
    cases hi : o.image <;> cases hs : selectorGiven o <;> cases hx : o.context <;>
      cases hw : truthy o.imageWidth <;> cases hh : truthy o.imageHeight <;>
      cases hk : checkCoordinates o.initialCoordinates <;>
      simp [hi, hx] at hgiven <;>
      simp [threw, ImageRef.length] <;>
      split_ifs <;> simp
  · intro k hk
    unfold construct resolveImage findImage at hk
    cases hi : o.image <;> cases hs : selectorGiven o <;> cases hx : o.context <;>
      cases hw : truthy o.imageWidth <;> cases hh : truthy o.imageHeight <;>
      cases hc2 : checkCoordinates o.initialCoordinates <;>
      simp [hi, hs, hx, hw, hh, hc2, ImageRef.length] at hk <;>
      split_ifs at hk with h1 <;>
      simp [ImageRef.length] at hk <;>
      (try (subst hk; simp [ImageRef.length, h1]))

/-- C11 (instance): options with neither `image` nor `imageSelector` make the
constructor throw a configuration error. -/
theorem construct_throws_iff_witness :
    threwConfig (construct { emptyImageOptions with image := none }) = true :=
  (construct_throws_iff { emptyImageOptions with image := none }).1.mpr
    (Or.inl ⟨rfl, rfl⟩)

/-! ## Initial placement from supplied coordinates -/

theorem jsCeil_le_of_whole {x y : ℚ} (hy : isWhole y = true) (h : x ≤ y) : jsCeil x ≤ y := by
  obtain ⟨n, rfl⟩ := isWhole_iff.mp hy
  unfold jsCeil
  have : ⌈x⌉ ≤ n := Int.ceil_le.mpr h
  exact_mod_cast this

/-- C12 (as stated, refuted): supplied coordinates are not clamped.  For the
2000×1000 image rendered at 1000×500, `{left: 1900, top: 0, width: 500,
height: 500}` gives the tracker `x = 950`, width 250, past the rendered width
1000.  For a 3000×3000 image rendered at 1000×1000, the in-bounds coordinates
`{0, 0, 250, 250}` give width 83, below the display minimum 84. -/
theorem initial_coordinates_counterexample :
    (_initiallyPositionTracker pastEdgeStart
        = { top := some 0, right := none, bottom := none, left := some 950,
            width := 250, height := 250 } ∧
      ¬ Invariant pastEdgeStart (_initiallyPositionTracker pastEdgeStart)) ∧
    ((_initiallyPositionTracker roundedStart).width = 83 ∧
      roundedStart.imageMinWidth = 84 ∧
      ¬ Invariant roundedStart (_initiallyPositionTracker roundedStart)) := by
  decide!

/-- In exact arithmetic, when initial coordinates are supplied the initial tracker is
their display-space conversion, each value divided by its scale and rounded,
with no clamping; if the supplied rectangle lies inside the original image, is
not smaller than the original-space minimums, and each value divided by its
scale is whole, the initial tracker satisfies the rectangle invariants. -/
theorem initial_coordinates_invariant_exact (c : CropTool) (ic : Coords)
    (hic : c.initialCoordinates = some ic)
    (hfw : 0 < c.fullWidth) (hfh : 0 < c.fullHeight)
    (hiw : 0 < c.imageWidth) (hih : 0 < c.imageHeight)
    (hl : 0 ≤ ic.left) (ht : 0 ≤ ic.top)
    (hlw : ic.left + ic.width ≤ c.fullWidth) (hth : ic.top + ic.height ≤ c.fullHeight)
    (hmw : c.minWidth ≤ ic.width) (hmh : c.minHeight ≤ ic.height)
    (wl : isWhole (ic.left / (c.fullWidth / c.imageWidth)) = true)
    (wt : isWhole (ic.top / (c.fullHeight / c.imageHeight)) = true)
    (ww : isWhole (ic.width / (c.fullWidth / c.imageWidth)) = true)
    (wh : isWhole (ic.height / (c.fullHeight / c.imageHeight)) = true) :
    _initiallyPositionTracker c
        = { top := some (jsRound (ic.top / (c.fullHeight / c.imageHeight))),
            right := none, bottom := none,
            left := some (jsRound (ic.left / (c.fullWidth / c.imageWidth))),
            width := jsRound (ic.width / (c.fullWidth / c.imageWidth)),
            height := jsRound (ic.height / (c.fullHeight / c.imageHeight)) } ∧
      Invariant c (_initiallyPositionTracker c) := by
  have hinit : _initiallyPositionTracker c
        = { top := some (jsRound (ic.top / (c.fullHeight / c.imageHeight))),
            right := none, bottom := none,
            left := some (jsRound (ic.left / (c.fullWidth / c.imageWidth))),
            width := jsRound (ic.width / (c.fullWidth / c.imageWidth)),
            height := jsRound (ic.height / (c.fullHeight / c.imageHeight)) } := by
    simp only [_initiallyPositionTracker, hic]
  refine ⟨hinit, ?_⟩
  rw [hinit]
  have hws : 0 < c.fullWidth / c.imageWidth := div_pos hfw hiw
  have hhs : 0 < c.fullHeight / c.imageHeight := div_pos hfh hih
  have ew : c.fullWidth / (c.fullWidth / c.imageWidth) = c.imageWidth := by field_simp
  have eh : c.fullHeight / (c.fullHeight / c.imageHeight) = c.imageHeight := by field_simp
  have emw : c.imageWidth / c.fullWidth * c.minWidth
      = c.minWidth / (c.fullWidth / c.imageWidth) := by
    field_simp
    ring
  have emh : c.imageHeight / c.fullHeight * c.minHeight
      = c.minHeight / (c.fullHeight / c.imageHeight) := by
    field_simp
    ring
  have hxw := div_le_div_of_nonneg_right hlw (le_of_lt hws)
  have hyh := div_le_div_of_nonneg_right hth (le_of_lt hhs)
  rw [ew, add_div] at hxw
  rw [eh, add_div] at hyh
  simp only [Invariant, Tracker.positionLeft, Tracker.positionTop, jsRound_of_whole wl,
    jsRound_of_whole wt, jsRound_of_whole ww, jsRound_of_whole wh,
    CropTool.imageMinWidth, CropTool.imageMinHeight]
  refine ⟨div_nonneg hl (le_of_lt hws), div_nonneg ht (le_of_lt hhs), hxw, hyh, ?_, ?_⟩
  · apply jsCeil_le_of_whole ww
    rw [emw]
    exact div_le_div_of_nonneg_right hmw (le_of_lt hws)
  · apply jsCeil_le_of_whole wh
    rw [emh]
    exact div_le_div_of_nonneg_right hmh (le_of_lt hhs)

/-! ## Initial placement on a ratio -/

/-- In exact arithmetic, for positive rendered sizes and a ratio `r > 0` with no initial
coordinates, the initial tracker is
`(x = (W − H×r)/2, y = 0, width = H×r, height = H)` when `W/H > r` and
`(x = 0, y = (H − W/r)/2, width = W, height = W/r)` otherwise; in both cases
`width = r × height`, `x ≥ 0`, `y ≥ 0`, `x + width ≤ W`, `y + height ≤ H`, and
the rectangle is centred on both axes. -/
theorem initial_ratio_placement_exact (c : CropTool) (ratio : ℚ) (hih : 0 < c.imageHeight)
    (hr : truthy c.ratio = some ratio) (hpos : 0 < ratio)
    (hic : c.initialCoordinates = none) :
    (c.imageWidth / c.imageHeight > ratio →
      _initiallyPositionTracker c
        = { top := some 0, right := none, bottom := none,
            left := some ((c.imageWidth - c.imageHeight * ratio) / 2),
            width := c.imageHeight * ratio, height := c.imageHeight }) ∧
    (¬ c.imageWidth / c.imageHeight > ratio →
      _initiallyPositionTracker c
        = { top := some ((c.imageHeight - c.imageWidth / ratio) / 2), right := none,
            bottom := none, left := some 0,
            width := c.imageWidth, height := c.imageWidth / ratio }) ∧
    ((_initiallyPositionTracker c).width = ratio * (_initiallyPositionTracker c).height ∧
      0 ≤ (_initiallyPositionTracker c).positionLeft c ∧
      0 ≤ (_initiallyPositionTracker c).positionTop c ∧
      (_initiallyPositionTracker c).positionLeft c + (_initiallyPositionTracker c).width
        ≤ c.imageWidth ∧
      (_initiallyPositionTracker c).positionTop c + (_initiallyPositionTracker c).height
        ≤ c.imageHeight ∧
      (_initiallyPositionTracker c).positionLeft c + (_initiallyPositionTracker c).width / 2
        = c.imageWidth / 2 ∧
      (_initiallyPositionTracker c).positionTop c + (_initiallyPositionTracker c).height / 2
        = c.imageHeight / 2) := by
  have hne : ratio ≠ 0 := ne_of_gt hpos
  have h1 : c.imageWidth / c.imageHeight > ratio →
      _initiallyPositionTracker c
        = { top := some 0, right := none, bottom := none,
            left := some ((c.imageWidth - c.imageHeight * ratio) / 2),
            width := c.imageHeight * ratio, height := c.imageHeight } := by
    intro h
    simp only [_initiallyPositionTracker, hic, hr]
    rw [if_pos h]
  have h2 : ¬ c.imageWidth / c.imageHeight > ratio →
      _initiallyPositionTracker c
        = { top := some ((c.imageHeight - c.imageWidth / ratio) / 2), right := none,
            bottom := none, left := some 0,
            width := c.imageWidth, height := c.imageWidth / ratio } := by
    intro h
    simp only [_initiallyPositionTracker, hic, hr]
    rw [if_neg h]
  refine ⟨h1, h2, ?_⟩
  by_cases h : c.imageWidth / c.imageHeight > ratio
  · rw [h1 h]
    have hlt : c.imageHeight * ratio < c.imageWidth := by
      have := (lt_div_iff₀ hih).mp h
      linarith
    simp only [Tracker.positionLeft, Tracker.positionTop]
    refine ⟨by ring, by linarith, le_refl _, by linarith, by linarith, by ring, by ring⟩
  · rw [h2 h]
    have hle : c.imageWidth / ratio ≤ c.imageHeight := by
      have h3 : c.imageWidth / c.imageHeight ≤ ratio := not_lt.mp h
      have h4 : c.imageWidth ≤ ratio * c.imageHeight := (div_le_iff₀ hih).mp h3
      rw [div_le_iff₀ hpos]
      linarith
    simp only [Tracker.positionLeft, Tracker.positionTop]
    refine ⟨by field_simp, le_refl _, by linarith, by linarith, by linarith, by ring, by ring⟩

/-! ## Gesture sessions -/

theorem iterate_startResize_bodyMove (corner : Corner) (n : Nat) (l : Listeners) :
    (Nat.iterate (startResize corner) n l).bodyMove
      = l.bodyMove ++ List.replicate n (Session.resize corner) := by
  induction n generalizing l with
  | zero => simp
  | succ n ih =>
    rw [Function.iterate_succ_apply, ih]
    simp [startResize, List.replicate_succ]

theorem iterate_enableDrag_bodyMove (n : Nat) (l : Listeners) :
    (Nat.iterate _enableDragListener n l).bodyMove = l.bodyMove := by
  induction n generalizing l with
  | zero => rfl
  | succ n ih =>
    rw [Function.iterate_succ_apply, ih]
    rfl

/-- A `mousedown` on a corner dot binds only resize handlers on the body: it
never starts a drag session. -/
theorem mousedownCorner_bodyMove (l : Listeners) (corner : Corner) :
    (step l (MouseEvent.mousedownCorner corner)).bodyMove
      = l.bodyMove ++ List.replicate (l.cornerDown corner) (Session.resize corner) := by
  simp only [step]
  rw [iterate_enableDrag_bodyMove, iterate_startResize_bodyMove]

/-- C14 (evaluation at the failing input): from the listeners bound at priming,
a `mousedown` on the tracker starts a drag session, and a `mousedown` on the
south-east corner arriving before any `mouseup` starts a resize session next to
it: the body then carries two `mousemove` handlers.  The same happens for a
`mousedown` on the tracker, or on another corner, during a resize session. -/
theorem second_session_starts :
    (run primedListeners [MouseEvent.mousedownTracker]).bodyMove = [Session.drag] ∧
    (run primedListeners
        [MouseEvent.mousedownTracker, MouseEvent.mousedownCorner Corner.se]).bodyMove
      = [Session.drag, Session.resize Corner.se] ∧
    (run primedListeners
        [MouseEvent.mousedownCorner Corner.nw, MouseEvent.mousedownTracker]).bodyMove
      = [Session.resize Corner.nw, Session.drag] ∧
    (run primedListeners
        [MouseEvent.mousedownCorner Corner.nw, MouseEvent.mousemove,
          MouseEvent.mousedownCorner Corner.se]).bodyMove
      = [Session.resize Corner.nw, Session.resize Corner.se] := by
  decide

/-! ## Calls of the export -/

/-- C15: a call of `getCoords` leaves the tool (its fields and the tracker) as
it was, so a second call with no gesture in between returns the same
rectangle. -/
theorem getCoords_twice (w : Widget) :
    w.getCoords.2 = w ∧ w.getCoords.2.getCoords.1 = w.getCoords.1 :=
  ⟨rfl, rfl⟩

/-! ## Ratio-locked resize: the height pass and the anchored edges -/

theorem resizeMove_ratio (c : CropTool) (s : ResizeSession) (u : Tracker) (ratio px py : ℚ)
    (hr : truthy c.ratio = some ratio) :
    resizeMove c s u px py = resizeMoveRatio c s ratio px := by
  simp only [resizeMove, hr]

theorem resizeMoveRatio_height (c : CropTool) (s : ResizeSession) (ratio px : ℚ)
    (h : c.imageMinHeight
      ≤ (if s.isNorth then c.imageHeight - s.preBottom else c.imageHeight - s.preTop)) :
    c.imageMinHeight ≤ (resizeMoveRatio c s ratio px).height ∧
      (resizeMoveRatio c s ratio px).height
        ≤ (if s.isNorth then c.imageHeight - s.preBottom else c.imageHeight - s.preTop) ∧
      (resizeMoveRatio c s ratio px).width = (resizeMoveRatio c s ratio px).height * ratio := by
  refine ⟨?_, ?_, ?_⟩
  · simp only [resizeMoveRatio]
    exact (clampUp_mem h).1
  · simp only [resizeMoveRatio]
    exact (clampUp_mem h).2
  · simp only [resizeMoveRatio]

/-- C16: in ratio-locked resize, for every corner and sample with
`minDisplayHeight ≤ maxHeight` (`maxHeight = renderedHeight − bottomMargin` for
north corners, `renderedHeight − initialTop` otherwise), the resulting height
lies in `[minDisplayHeight, maxHeight]` and the resulting width is
`height × ratio`, whatever the width range is; and the width does leave its
range: from the 200×200 tracker at `x = 800` with ratio 2 the sample gives
height 125 and width 250, above `maxWidth = 200`. -/
theorem resize_ratio_height_wins (c : CropTool) (t : Tracker) (corner : Corner)
    (sx sy px py ratio : ℚ) (earlier : List (ℚ × ℚ))
    (hr : truthy c.ratio = some ratio)
    (h : c.imageMinHeight
      ≤ (if (resizeStart c t corner sx sy).isNorth
          then c.imageHeight - (resizeStart c t corner sx sy).preBottom
          else c.imageHeight - (resizeStart c t corner sx sy).preTop)) :
    (c.imageMinHeight
        ≤ (resizeMove c (resizeStart c t corner sx sy)
            (resizeGesture c (resizeStart c t corner sx sy) t earlier) px py).height ∧
      (resizeMove c (resizeStart c t corner sx sy)
            (resizeGesture c (resizeStart c t corner sx sy) t earlier) px py).height
        ≤ (if (resizeStart c t corner sx sy).isNorth
            then c.imageHeight - (resizeStart c t corner sx sy).preBottom
            else c.imageHeight - (resizeStart c t corner sx sy).preTop) ∧
      (resizeMove c (resizeStart c t corner sx sy)
            (resizeGesture c (resizeStart c t corner sx sy) t earlier) px py).width
        = (resizeMove c (resizeStart c t corner sx sy)
            (resizeGesture c (resizeStart c t corner sx sy) t earlier) px py).height
          * ratio) ∧
    (offRatioResized.height = 125 ∧ offRatioResized.width = 125 * 2 ∧
      (scenario (some 2)).imageWidth
          - (resizeStart (scenario (some 2)) offRatioTracker Corner.se 1000 200).preLeft
        < offRatioResized.width) := by
  rw [resizeMove_ratio c _ _ ratio px py hr]
  exact ⟨resizeMoveRatio_height c _ ratio px h, by decide!⟩

/-- C16 (instance): the 1000×500 image with ratio 2, north-west corner of the
initial tracker grabbed at `(0, 0)` and moved to `(499, 0)`: the height range is
not empty and the resulting width is the resulting height times 2. -/
theorem resize_ratio_height_wins_witness :
    wideImage.imageMinHeight
      ≤ (if (resizeStart wideImage (_initiallyPositionTracker wideImage)
            Corner.nw 0 0).isNorth
          then wideImage.imageHeight
            - (resizeStart wideImage (_initiallyPositionTracker wideImage)
                Corner.nw 0 0).preBottom
          else wideImage.imageHeight
            - (resizeStart wideImage (_initiallyPositionTracker wideImage)
                Corner.nw 0 0).preTop) ∧
    (resizeMove wideImage
        (resizeStart wideImage (_initiallyPositionTracker wideImage) Corner.nw 0 0)
        (resizeGesture wideImage
          (resizeStart wideImage (_initiallyPositionTracker wideImage) Corner.nw 0 0)
          (_initiallyPositionTracker wideImage) []) 499 0).width
      = (resizeMove wideImage
          (resizeStart wideImage (_initiallyPositionTracker wideImage) Corner.nw 0 0)
          (resizeGesture wideImage
            (resizeStart wideImage (_initiallyPositionTracker wideImage) Corner.nw 0 0)
            (_initiallyPositionTracker wideImage) []) 499 0).height * 2 :=
  ⟨by decide!,
   (resize_ratio_height_wins wideImage (_initiallyPositionTracker wideImage) Corner.nw
      0 0 499 0 2 [] (by decide!) (by decide!)).1.2.2⟩

theorem resizeMoveRatio_west (c : CropTool) (s : ResizeSession) (ratio px : ℚ)
    (h : s.isWest = true) :
    (resizeMoveRatio c s ratio px).right = some s.preRight ∧
      c.imageWidth - ((resizeMoveRatio c s ratio px).positionLeft c
        + (resizeMoveRatio c s ratio px).width) = s.preRight := by
  simp [resizeMoveRatio, Tracker.positionLeft, h]

theorem resizeMoveRatio_north (c : CropTool) (s : ResizeSession) (ratio px : ℚ)
    (h : s.isNorth = true) :
    (resizeMoveRatio c s ratio px).bottom = some s.preBottom ∧
      c.imageHeight - ((resizeMoveRatio c s ratio px).positionTop c
        + (resizeMoveRatio c s ratio px).height) = s.preBottom := by
  simp [resizeMoveRatio, Tracker.positionTop, h]

theorem resizeMoveRatio_east (c : CropTool) (s : ResizeSession) (ratio px : ℚ)
    (h : s.isWest = false) :
    (resizeMoveRatio c s ratio px).positionLeft c = s.preLeft := by
  simp [resizeMoveRatio, Tracker.positionLeft, h]

theorem resizeMoveRatio_south (c : CropTool) (s : ResizeSession) (ratio px : ℚ)
    (h : s.isNorth = false) :
    (resizeMoveRatio c s ratio px).positionTop c = s.preTop := by
  simp [resizeMoveRatio, Tracker.positionTop, h]

/-- C17: in ratio-locked resize, for every sample of a gesture: with a west
corner the tracker's `right` style is `rightMargin = renderedWidth −
initialWidth − initialX`, so its right edge is exactly `rightMargin` from the
image's right boundary; with a north corner its `bottom` style is
`bottomMargin = renderedHeight − initialHeight − initialY`, so its bottom edge
is exactly `bottomMargin` from the bottom boundary; for the other corners the
left, respectively top, edge is where it was when the gesture started. -/
theorem resize_ratio_anchored (c : CropTool) (t : Tracker) (corner : Corner)
    (sx sy px py ratio : ℚ) (earlier : List (ℚ × ℚ))
    (hr : truthy c.ratio = some ratio) :
    ((corner = Corner.nw ∨ corner = Corner.sw) →
      (resizeMove c (resizeStart c t corner sx sy)
          (resizeGesture c (resizeStart c t corner sx sy) t earlier) px py).right
        = some (c.imageWidth - t.width - t.positionLeft c) ∧
      c.imageWidth
        - ((resizeMove c (resizeStart c t corner sx sy)
            (resizeGesture c (resizeStart c t corner sx sy) t earlier) px py).positionLeft c
          + (resizeMove c (resizeStart c t corner sx sy)
            (resizeGesture c (resizeStart c t corner sx sy) t earlier) px py).width)
        = c.imageWidth - t.width - t.positionLeft c) ∧
    ((corner = Corner.nw ∨ corner = Corner.ne) →
      (resizeMove c (resizeStart c t corner sx sy)
          (resizeGesture c (resizeStart c t corner sx sy) t earlier) px py).bottom
        = some (c.imageHeight - t.height - t.positionTop c) ∧
      c.imageHeight
        - ((resizeMove c (resizeStart c t corner sx sy)
            (resizeGesture c (resizeStart c t corner sx sy) t earlier) px py).positionTop c
          + (resizeMove c (resizeStart c t corner sx sy)
            (resizeGesture c (resizeStart c t corner sx sy) t earlier) px py).height)
        = c.imageHeight - t.height - t.positionTop c) ∧
    ((corner = Corner.ne ∨ corner = Corner.se) →
      (resizeMove c (resizeStart c t corner sx sy)
          (resizeGesture c (resizeStart c t corner sx sy) t earlier) px py).positionLeft c
        = t.positionLeft c) ∧
    ((corner = Corner.se ∨ corner = Corner.sw) →
      (resizeMove c (resizeStart c t corner sx sy)
          (resizeGesture c (resizeStart c t corner sx sy) t earlier) px py).positionTop c
        = t.positionTop c) := by
  rw [resizeMove_ratio c _ _ ratio px py hr]
  refine ⟨?_, ?_, ?_, ?_⟩
  · rintro (h | h) <;> subst h <;>
      exact resizeMoveRatio_west c (resizeStart c t _ sx sy) ratio px rfl
  · rintro (h | h) <;> subst h <;>
      exact resizeMoveRatio_north c (resizeStart c t _ sx sy) ratio px rfl
  · rintro (h | h) <;> subst h <;>
      exact resizeMoveRatio_east c (resizeStart c t _ sx sy) ratio px rfl
  · rintro (h | h) <;> subst h <;>
      exact resizeMoveRatio_south c (resizeStart c t _ sx sy) ratio px rfl

/-- C17 (instance): the 1000×500 image with ratio 2, north-west corner of the
initial tracker grabbed at `(0, 0)` and moved to `(499, 0)`: the `right` style
is the right margin of the gesture start. -/
theorem resize_ratio_anchored_witness :
    (resizeMove wideImage
        (resizeStart wideImage (_initiallyPositionTracker wideImage) Corner.nw 0 0)
        (resizeGesture wideImage
          (resizeStart wideImage (_initiallyPositionTracker wideImage) Corner.nw 0 0)
          (_initiallyPositionTracker wideImage) []) 499 0).right
      = some (wideImage.imageWidth - (_initiallyPositionTracker wideImage).width
          - (_initiallyPositionTracker wideImage).positionLeft wideImage) :=
  ((resize_ratio_anchored wideImage (_initiallyPositionTracker wideImage) Corner.nw
      0 0 499 0 2 [] (by decide!)).1 (Or.inl rfl)).1

/-! ## The ratio loop is best-effort -/

theorem snapLoopCount_le (ratio : ℚ) :
    ∀ (n : Nat) (width height : ℚ), snapLoopCount ratio n width height ≤ n := by
  intro n
  induction n with
  | zero => intro width height; simp [snapLoopCount]
  | succ n ih =>
    intro width height
    simp only [snapLoopCount]
    split_ifs
    · exact Nat.succ_le_succ (ih _ _)
    · exact Nat.succ_le_succ (ih _ _)
    · exact Nat.succ_le_succ (ih _ _)
    · exact Nat.zero_le _

/-- C18: the ratio loop of `getCoords` runs at most 4 iterations, and it is
best-effort: for the 1000×1000 image with ratio 16/9 and the default minimums
(all whole), the initial tracker makes the loop run 4 times from 1000×563 and
the export 996×559 does not satisfy `width / ratio = height`. -/
theorem snapLoop_best_effort :
    (∀ ratio width height : ℚ, snapLoopCount ratio 4 width height ≤ 4) ∧
    (truthy squareImage.ratio = some (16 / 9) ∧
      isWhole squareImage.fullWidth = true ∧ isWhole squareImage.fullHeight = true ∧
      isWhole squareImage.minWidth = true ∧ isWhole squareImage.minHeight = true ∧
      snapLoopCount (16 / 9) 4 1000 563 = 4 ∧
      snapLoop (16 / 9) 4 1000 563 = (996, 559) ∧
      (getCoords squareImage (_initiallyPositionTracker squareImage)).width / (16 / 9)
        ≠ (getCoords squareImage (_initiallyPositionTracker squareImage)).height) :=
  ⟨fun ratio width height => snapLoopCount_le ratio 4 width height, by decide!⟩

/-! ## The minimum in display space and in original space -/

theorem min_le_jsCeil_scaled {image full lo size : ℚ} (hf : 0 < full) (hi : 0 < image)
    (h : jsCeil (image / full * lo) ≤ size) : lo ≤ jsCeil (size * (full / image)) := by
  have h1 : image / full * lo ≤ size := le_trans (le_jsCeil _) h
  have h2 : 0 < full / image := div_pos hf hi
  have h3 : image / full * lo * (full / image) ≤ size * (full / image) :=
    mul_le_mul_of_nonneg_right h1 (le_of_lt h2)
  have h4 : image / full * lo * (full / image) = lo := by
    field_simp
  rw [h4] at h3
  exact le_trans h3 (le_jsCeil _)

/-- C19: with `minDisplayWidth = ceil(renderedWidth/originalWidth ×
minOriginalWidth)`, every display width `≥ minDisplayWidth` converts to
`ceil(width × originalWidth/renderedWidth) ≥ minOriginalWidth`, and likewise
for the height; so for a tracker that satisfies the invariants the minimum
clamp of `getCoords` leaves the converted size as it is. -/
theorem display_minimum_transfers (c : CropTool)
    (hfw : 0 < c.fullWidth) (hfh : 0 < c.fullHeight)
    (hiw : 0 < c.imageWidth) (hih : 0 < c.imageHeight) :
    (∀ width : ℚ, c.imageMinWidth ≤ width →
      c.minWidth ≤ jsCeil (width * (c.fullWidth / c.imageWidth))) ∧
    (∀ height : ℚ, c.imageMinHeight ≤ height →
      c.minHeight ≤ jsCeil (height * (c.fullHeight / c.imageHeight))) ∧
    (∀ t : Tracker, Invariant c t →
      (if jsCeil (t.width * (c.fullWidth / c.imageWidth)) < c.minWidth then c.minWidth
        else jsCeil (t.width * (c.fullWidth / c.imageWidth)))
        = jsCeil (t.width * (c.fullWidth / c.imageWidth)) ∧
      (if jsCeil (t.height * (c.fullHeight / c.imageHeight)) < c.minHeight then c.minHeight
        else jsCeil (t.height * (c.fullHeight / c.imageHeight)))
        = jsCeil (t.height * (c.fullHeight / c.imageHeight))) := by
  have hW : ∀ width : ℚ, c.imageMinWidth ≤ width →
      c.minWidth ≤ jsCeil (width * (c.fullWidth / c.imageWidth)) :=
    fun width h => min_le_jsCeil_scaled hfw hiw h
  have hH : ∀ height : ℚ, c.imageMinHeight ≤ height →
      c.minHeight ≤ jsCeil (height * (c.fullHeight / c.imageHeight)) :=
    fun height h => min_le_jsCeil_scaled hfh hih h
  refine ⟨hW, hH, ?_⟩
  rintro t ⟨_, _, _, _, hmw, hmh⟩
  exact ⟨if_neg (not_lt.mpr (hW _ hmw)), if_neg (not_lt.mpr (hH _ hmh))⟩

/-- C19 (instance): for the 2000×1000 image rendered at 1000×500 the display
minimum is 125, and the display width 125 converts to 250, the original-space
minimum. -/
theorem display_minimum_transfers_witness :
    (scenario none).imageMinWidth = 125 ∧
      (scenario none).minWidth
        ≤ jsCeil (125 * ((scenario none).fullWidth / (scenario none).imageWidth)) :=
  ⟨by decide!,
   (display_minimum_transfers (scenario none) (by decide!) (by decide!) (by decide!)
      (by decide!)).1 125 (by decide!)⟩

/-! ## The export without a ratio -/

theorem exportAxis_of_full_le_max {size scale lo full : ℚ} (offset : ℚ)
    (h : full ≤ max (jsCeil (size * scale)) lo) :
    exportSize size scale lo full = full ∧ exportOffset size offset scale lo full = 0 := by
  have hv : (if jsCeil (size * scale) < lo then lo else jsCeil (size * scale)) ≥ full := by
    by_cases h1 : jsCeil (size * scale) < lo
    · rw [if_pos h1]
      rw [max_eq_right (le_of_lt h1)] at h
      exact h
    · rw [if_neg h1]
      rw [max_eq_left (not_lt.mp h1)] at h
      exact h
  constructor
  · simp only [exportSize]
    rw [if_pos hv]
  · simp only [exportOffset]
    rw [if_pos hv]

theorem exportOffset_eq_min {size offset scale lo full : ℚ}
    (ho : 0 ≤ offset * scale) (h : jsCeil (size * scale) < full) :
    exportOffset size offset scale lo full
      = min (jsRound (offset * scale)) (full - exportSize size scale lo full) := by
  have hr := jsRound_nonneg ho
  simp only [exportOffset, exportSize]
  by_cases h1 : jsCeil (size * scale) < lo
  · simp only [if_pos h1]
    by_cases h2 : lo ≥ full
    · rw [if_pos h2, if_pos h2, sub_self, min_eq_right hr]
    · rw [if_neg h2, if_neg h2]
      by_cases h3 : lo + jsRound (offset * scale) ≥ full
      · rw [if_pos h3, min_eq_right]
        linarith
      · rw [if_neg h3, min_eq_left]
        linarith [not_le.mp h3]
  · simp only [if_neg h1]
    have h2 : ¬ jsCeil (size * scale) ≥ full := not_le.mpr h
    rw [if_neg h2, if_neg h2]
    by_cases h3 : jsCeil (size * scale) + jsRound (offset * scale) ≥ full
    · rw [if_pos h3, min_eq_right]
      linarith
    · rw [if_neg h3, min_eq_left]
      linarith [not_le.mp h3]

/-- C20: with no ratio, positive sizes and minimums not above the original
size, for every tracker with `x ≥ 0` and `y ≥ 0`: when the converted width
(raised to the minimum) reaches the original width, `getCoords` returns
`width = originalWidth` and `left = 0`; when the converted width is below the
original width it returns `left = min(round(x × scaleX), originalWidth − width)`;
the same holds for height and top; hence `left ≥ 0`, `top ≥ 0`,
`left + width ≤ originalWidth`, `top + height ≤ originalHeight`,
`width ≥ minOriginalWidth` and `height ≥ minOriginalHeight`. -/
theorem getCoords_noRatio_axis (c : CropTool) (t : Tracker)
    (hr : truthy c.ratio = none)
    (hfw : 0 < c.fullWidth) (hfh : 0 < c.fullHeight)
    (hiw : 0 < c.imageWidth) (hih : 0 < c.imageHeight)
    (hmw : c.minWidth ≤ c.fullWidth) (hmh : c.minHeight ≤ c.fullHeight)
    (hx : 0 ≤ t.positionLeft c) (hy : 0 ≤ t.positionTop c) :
    ((c.fullWidth ≤ max (jsCeil (t.width * (c.fullWidth / c.imageWidth))) c.minWidth →
        (getCoords c t).width = c.fullWidth ∧ (getCoords c t).left = 0) ∧
      (jsCeil (t.width * (c.fullWidth / c.imageWidth)) < c.fullWidth →
        (getCoords c t).left
          = min (jsRound (t.positionLeft c * (c.fullWidth / c.imageWidth)))
              (c.fullWidth - (getCoords c t).width)) ∧
      (c.fullHeight ≤ max (jsCeil (t.height * (c.fullHeight / c.imageHeight))) c.minHeight →
        (getCoords c t).height = c.fullHeight ∧ (getCoords c t).top = 0) ∧
      (jsCeil (t.height * (c.fullHeight / c.imageHeight)) < c.fullHeight →
        (getCoords c t).top
          = min (jsRound (t.positionTop c * (c.fullHeight / c.imageHeight)))
              (c.fullHeight - (getCoords c t).height))) ∧
    (0 ≤ (getCoords c t).left ∧ 0 ≤ (getCoords c t).top ∧
      (getCoords c t).left + (getCoords c t).width ≤ c.fullWidth ∧
      (getCoords c t).top + (getCoords c t).height ≤ c.fullHeight ∧
      c.minWidth ≤ (getCoords c t).width ∧ c.minHeight ≤ (getCoords c t).height) := by
  have hsx : 0 ≤ t.positionLeft c * (c.fullWidth / c.imageWidth) :=
    mul_nonneg hx (le_of_lt (div_pos hfw hiw))
  have hsy : 0 ≤ t.positionTop c * (c.fullHeight / c.imageHeight) :=
    mul_nonneg hy (le_of_lt (div_pos hfh hih))
  simp only [getCoords, hr]
  refine ⟨⟨?_, ?_, ?_, ?_⟩, ?_⟩
  · exact fun h => exportAxis_of_full_le_max _ h
  · exact fun h => exportOffset_eq_min hsx h
  · exact fun h => exportAxis_of_full_le_max _ h
  · exact fun h => exportOffset_eq_min hsy h
  · exact ⟨exportOffset_nonneg _ _ _ hsx, exportOffset_nonneg _ _ _ hsy,
      exportOffset_add_exportSize_le _ _ _ _ _, exportOffset_add_exportSize_le _ _ _ _ _,
      min_le_exportSize _ _ hmw, min_le_exportSize _ _ hmh⟩

/-- C20 (instance): the 2000×1000 image rendered at 1000×500 with no ratio and
the 500×500 tracker at `x = 800, y = 0`: the converted width 1000 is below 2000
and the exported left is `min(1600, 2000 − 1000) = 1000`. -/
theorem getCoords_noRatio_axis_witness :
    (getCoords (scenario none)
        { top := some 0, right := none, bottom := none, left := some 800,
          width := 500, height := 500 }).left
      = min (jsRound ((Tracker.mk (some 0) none none (some 800) 500 500).positionLeft
            (scenario none)
          * ((scenario none).fullWidth / (scenario none).imageWidth)))
          ((scenario none).fullWidth
            - (getCoords (scenario none)
                { top := some 0, right := none, bottom := none, left := some 800,
                  width := 500, height := 500 }).width) :=
  (getCoords_noRatio_axis (scenario none)
    { top := some 0, right := none, bottom := none, left := some 800,
      width := 500, height := 500 }
    (by decide!) (by decide!) (by decide!) (by decide!) (by decide!) (by decide!)
    (by decide!) (by decide!) (by decide!)).1.2.1 (by decide!)

/-! ## Ratio-locked resize reads the pointer's X only -/

/-- C21: in ratio-locked resize the resulting rectangle depends only on the
pointer's X coordinate: for any gesture-start snapshot and corner, two move
samples with the same `pointerX` and any `pointerY`, whatever the tracker is
when each arrives, set the same style (top, right, bottom, left, width,
height), hence the same offsets. -/
theorem resize_ratio_ignores_pointerY (c : CropTool) (t u1 u2 : Tracker) (corner : Corner)
    (sx sy px py1 py2 ratio : ℚ) (hr : truthy c.ratio = some ratio) :
    resizeMove c (resizeStart c t corner sx sy) u1 px py1
        = resizeMove c (resizeStart c t corner sx sy) u2 px py2 ∧
      (resizeMove c (resizeStart c t corner sx sy) u1 px py1).positionLeft c
        = (resizeMove c (resizeStart c t corner sx sy) u2 px py2).positionLeft c ∧
      (resizeMove c (resizeStart c t corner sx sy) u1 px py1).positionTop c
        = (resizeMove c (resizeStart c t corner sx sy) u2 px py2).positionTop c := by
  rw [resizeMove_ratio c _ u1 ratio px py1 hr, resizeMove_ratio c _ u2 ratio px py2 hr]
  exact ⟨rfl, rfl, rfl⟩

/-- C21 (instance): the 1000×500 image with ratio 2, north-west corner of the
initial tracker grabbed at `(0, 0)`: the samples `(499, 0)` and `(499, 300)`
give the same tracker. -/
theorem resize_ratio_ignores_pointerY_witness :
    resizeMove wideImage
        (resizeStart wideImage (_initiallyPositionTracker wideImage) Corner.nw 0 0)
        (_initiallyPositionTracker wideImage) 499 0
      = resizeMove wideImage
          (resizeStart wideImage (_initiallyPositionTracker wideImage) Corner.nw 0 0)
          (_initiallyPositionTracker wideImage) 499 300 :=
  (resize_ratio_ignores_pointerY wideImage (_initiallyPositionTracker wideImage)
    (_initiallyPositionTracker wideImage) (_initiallyPositionTracker wideImage)
    Corner.nw 0 0 499 0 300 2 (by decide!)).1

/-! ## Ratios with a small numerator or denominator -/

/-- Among `p` consecutive integers going down from `a` one is a multiple of
`p`, and its quotient by a fraction with numerator `p` is whole. -/
theorem exists_whole_div (p : ℕ) (q : ℤ) (hp : 0 < p) (a : ℤ) :
    ∃ k : Nat, k < p ∧ isWhole (((a : ℚ) - k) / ((p : ℚ) / q)) = true := by
  obtain ⟨k, hk, hw⟩ := exists_whole_mul q p hp a
  refine ⟨k, hk, ?_⟩
  have e : ((a : ℚ) - k) / ((p : ℚ) / q) = ((a : ℚ) - k) * ((q : ℚ) / p) := by
    rw [div_eq_mul_inv, inv_div]
  rw [e]
  exact hw

/-- With whole original sizes and minimums, if from every whole width and
height the loop meets within 4 iterations a height whose ratio width is whole
or a width whose ratio height is whole, the export ends on the exact ratio. -/
theorem getCoords_exact_of_reach (c : CropTool) (t : Tracker) (ratio : ℚ)
    (hr0 : ratio ≠ 0) (hr : c.ratio = some ratio)
    (hfw : isWhole c.fullWidth = true) (hfh : isWhole c.fullHeight = true)
    (hmw : isWhole c.minWidth = true) (hmh : isWhole c.minHeight = true)
    (hex : ∀ a b : ℤ, ∃ k : Nat, k < 4 ∧
      (isWhole (((b : ℚ) - k) * ratio) = true ∨ isWhole (((a : ℚ) - k) / ratio) = true)) :
    (getCoords c t).height * ratio = (getCoords c t).width := by
  have htr : truthy c.ratio = some ratio := by
    rw [hr]
    simp [truthy, hr0]
  have hW := isWhole_exportSize t.width (c.fullWidth / c.imageWidth) hmw hfw
  have hH := isWhole_exportSize t.height (c.fullHeight / c.imageHeight) hmh hfh
  obtain ⟨a, ha⟩ := isWhole_iff.mp hW
  obtain ⟨b, hb⟩ := isWhole_iff.mp hH
  obtain ⟨k, hk, hwhole⟩ := hex a b
  have hloop := snapLoop_exact hr0 4
    (exportSize t.width (c.fullWidth / c.imageWidth) c.minWidth c.fullWidth)
    (exportSize t.height (c.fullHeight / c.imageHeight) c.minHeight c.fullHeight) hW
    ⟨k, hk, by rw [ha, hb]; exact hwhole⟩
  simp only [getCoords, htr]
  exact hloop.1

/-- In exact arithmetic, for every ratio `p / q` with `p, q > 0` and `q ≤ 4` or `p ≤ 4`, whole
original sizes and minimums, and every tracker, the ratio loop of `getCoords`
reaches the exact ratio within its 4 iterations: the export satisfies
`width × q = height × p`. -/
theorem getCoords_small_ratio_exact (c : CropTool) (t : Tracker) (p q : ℕ)
    (hp : 0 < p) (hq : 0 < q) (h4 : q ≤ 4 ∨ p ≤ 4)
    (hr : c.ratio = some ((p : ℚ) / q))
    (hfw : isWhole c.fullWidth = true) (hfh : isWhole c.fullHeight = true)
    (hmw : isWhole c.minWidth = true) (hmh : isWhole c.minHeight = true) :
    (getCoords c t).width * q = (getCoords c t).height * p := by
  have hq0 : (q : ℚ) ≠ 0 := by exact_mod_cast (ne_of_gt hq)
  have hp0 : (p : ℚ) ≠ 0 := by exact_mod_cast (ne_of_gt hp)
  have hr0 : (p : ℚ) / q ≠ 0 := div_ne_zero hp0 hq0
  have hex : ∀ a b : ℤ, ∃ k : Nat, k < 4 ∧
      (isWhole (((b : ℚ) - k) * ((p : ℚ) / q)) = true ∨
        isWhole (((a : ℚ) - k) / ((p : ℚ) / q)) = true) := by
    intro a b
    rcases h4 with h | h
    · obtain ⟨k, hk, hw⟩ := exists_whole_mul (p : ℤ) q hq b
      exact ⟨k, lt_of_lt_of_le hk h, Or.inl (by exact_mod_cast hw)⟩
    · obtain ⟨k, hk, hw⟩ := exists_whole_div p (q : ℤ) hp a
      exact ⟨k, lt_of_lt_of_le hk h, Or.inr (by exact_mod_cast hw)⟩
  have hexact := getCoords_exact_of_reach c t ((p : ℚ) / q) hr0 hr hfw hfh hmw hmh hex
  rw [← hexact]
  field_simp

/-! ## Free resize from a west or north corner, away from the far edge -/

theorem resizeMove_free (c : CropTool) (s : ResizeSession) (u : Tracker) (px py : ℚ)
    (hr : truthy c.ratio = none) :
    resizeMove c s u px py = resizeMoveFree c s u px py := by
  simp only [resizeMove, hr]

/-- The horizontal axis of a free sample for a west corner whose candidate left
edge leaves room for the minimum width. -/
theorem resizeMoveFree_west (c : CropTool) (s : ResizeSession) (u : Tracker) (px py : ℚ)
    (hwest : s.isWest = true)
    (hx : 0 ≤ u.positionLeft c) (hxw : u.positionLeft c + u.width ≤ c.imageWidth)
    (hmw : c.imageMinWidth ≤ u.width)
    (hcand : px - s.preOffsetX ≤ c.imageWidth - c.imageMinWidth) :
    (resizeMoveFree c s u px py).positionLeft c + (resizeMoveFree c s u px py).width
        = u.positionLeft c + u.width ∧
      0 ≤ (resizeMoveFree c s u px py).positionLeft c ∧
      c.imageMinWidth ≤ (resizeMoveFree c s u px py).width := by
  simp only [resizeMoveFree, hwest, if_true, and_true]
  generalize u.positionLeft c = x0 at *
  simp only [Tracker.positionLeft]
  split_ifs <;> refine ⟨?_, ?_, ?_⟩ <;> linarith

/-- The vertical axis of a free sample for a north corner whose candidate top
edge leaves room for the minimum height. -/
theorem resizeMoveFree_north (c : CropTool) (s : ResizeSession) (u : Tracker) (px py : ℚ)
    (hnorth : s.isNorth = true)
    (hy : 0 ≤ u.positionTop c) (hyh : u.positionTop c + u.height ≤ c.imageHeight)
    (hmh : c.imageMinHeight ≤ u.height)
    (hcand : py - s.preOffsetY ≤ c.imageHeight - c.imageMinHeight) :
    (resizeMoveFree c s u px py).positionTop c + (resizeMoveFree c s u px py).height
        = u.positionTop c + u.height ∧
      0 ≤ (resizeMoveFree c s u px py).positionTop c ∧
      c.imageMinHeight ≤ (resizeMoveFree c s u px py).height := by
  simp only [resizeMoveFree, hnorth, if_true, and_true]
  generalize u.positionTop c = y0 at *
  simp only [Tracker.positionTop]
  split_ifs <;> refine ⟨?_, ?_, ?_⟩ <;> linarith

/-- C23: in free mode, for a tracker `u` that satisfies the invariants when the
sample arrives (the gesture-start tracker, for the first sample of a gesture
started on `t0`): with a west corner, if the candidate left edge
`pointerX − (initialPointerX − initialX)` is at most
`renderedWidth − minDisplayWidth`, then after the sample the right edge
`x + width` is unchanged, `x ≥ 0` and `width ≥ minDisplayWidth`; with a north
corner, if the candidate top edge `pointerY − (initialPointerY − initialY)` is at
most `renderedHeight − minDisplayHeight`, then the bottom edge `y + height` is
unchanged, `y ≥ 0` and `height ≥ minDisplayHeight`. -/
theorem resize_free_west_north_safe (c : CropTool) (t0 u : Tracker) (corner : Corner)
    (sx sy px py : ℚ) (hr : truthy c.ratio = none) (hinv : Invariant c u) :
    ((corner = Corner.nw ∨ corner = Corner.sw) →
      px - (sx - t0.positionLeft c) ≤ c.imageWidth - c.imageMinWidth →
      (resizeMove c (resizeStart c t0 corner sx sy) u px py).positionLeft c
          + (resizeMove c (resizeStart c t0 corner sx sy) u px py).width
        = u.positionLeft c + u.width ∧
      0 ≤ (resizeMove c (resizeStart c t0 corner sx sy) u px py).positionLeft c ∧
      c.imageMinWidth ≤ (resizeMove c (resizeStart c t0 corner sx sy) u px py).width) ∧
    ((corner = Corner.nw ∨ corner = Corner.ne) →
      py - (sy - t0.positionTop c) ≤ c.imageHeight - c.imageMinHeight →
      (resizeMove c (resizeStart c t0 corner sx sy) u px py).positionTop c
          + (resizeMove c (resizeStart c t0 corner sx sy) u px py).height
        = u.positionTop c + u.height ∧
      0 ≤ (resizeMove c (resizeStart c t0 corner sx sy) u px py).positionTop c ∧
      c.imageMinHeight ≤ (resizeMove c (resizeStart c t0 corner sx sy) u px py).height) := by
  obtain ⟨hx, hy, hxw, hyh, hmw, hmh⟩ := hinv
  rw [resizeMove_free c _ u px py hr]
  constructor
  · rintro (h | h) hcand <;> subst h <;>
      exact resizeMoveFree_west c (resizeStart c t0 _ sx sy) u px py rfl hx hxw hmw hcand
  · rintro (h | h) hcand <;> subst h <;>
      exact resizeMoveFree_north c (resizeStart c t0 _ sx sy) u px py rfl hy hyh hmh hcand

/-- C23 (instance): the 2000×1000 image rendered at 1000×500 with no ratio,
north-west corner of the full-image tracker grabbed at `(0, 0)` and moved to
`(100, 50)`: the candidate left edge 100 is at most `1000 − 125`, and the right
edge stays where it was. -/
theorem resize_free_west_north_safe_witness :
    Invariant (scenario none) (_initiallyPositionTracker (scenario none)) ∧
    (100 : ℚ) - (0 - (_initiallyPositionTracker (scenario none)).positionLeft (scenario none))
      ≤ (scenario none).imageWidth - (scenario none).imageMinWidth ∧
    (resizeMove (scenario none)
        (resizeStart (scenario none) (_initiallyPositionTracker (scenario none)) Corner.nw 0 0)
        (_initiallyPositionTracker (scenario none)) 100 50).positionLeft (scenario none)
      + (resizeMove (scenario none)
        (resizeStart (scenario none) (_initiallyPositionTracker (scenario none)) Corner.nw 0 0)
        (_initiallyPositionTracker (scenario none)) 100 50).width
      = (_initiallyPositionTracker (scenario none)).positionLeft (scenario none)
        + (_initiallyPositionTracker (scenario none)).width :=
  ⟨by decide!, by decide!,
   ((resize_free_west_north_safe (scenario none) (_initiallyPositionTracker (scenario none))
      (_initiallyPositionTracker (scenario none)) Corner.nw 0 0 100 50
      (by decide!) (by decide!)).1 (Or.inl rfl) (by decide!)).1⟩

/-! ## Round trip of supplied coordinates -/

theorem jsCeil_of_whole {x : ℚ} (h : isWhole x = true) : jsCeil x = x := by
  obtain ⟨n, rfl⟩ := isWhole_iff.mp h
  unfold jsCeil
  rw [Int.ceil_intCast]

/-- One axis of the export of a tracker whose scaled size and offset are whole
and lie inside the original image, the size not below the minimum: the export
is the scaled size and offset. -/
theorem exportAxis_of_whole (size offset scale lo full : ℚ)
    (hs : isWhole (size * scale) = true) (ho : isWhole (offset * scale) = true)
    (hlo : lo ≤ size * scale) (h0 : 0 ≤ offset * scale)
    (hb : offset * scale + size * scale ≤ full) :
    exportSize size scale lo full = size * scale ∧
      exportOffset size offset scale lo full = offset * scale := by
  constructor
  · simp only [exportSize]
    rw [jsCeil_of_whole hs]
    split_ifs <;> linarith
  · simp only [exportOffset]
    rw [jsCeil_of_whole hs, jsRound_of_whole ho]
    split_ifs <;> linarith

/-- In exact arithmetic, with no ratio and positive sizes, if the supplied whole
`{left, top, width, height}` satisfy `left ≥ 0`, `top ≥ 0`,
`left + width ≤ originalWidth`, `top + height ≤ originalHeight`,
`width ≥ minOriginalWidth`, `height ≥ minOriginalHeight`, and each value divided
by its scale is whole, then `getCoords` called before any gesture returns
exactly the supplied coordinates. -/
theorem initial_coordinates_roundtrip_exact (c : CropTool) (ic : Coords)
    (hic : c.initialCoordinates = some ic) (hr : truthy c.ratio = none)
    (hfw : 0 < c.fullWidth) (hfh : 0 < c.fullHeight)
    (hiw : 0 < c.imageWidth) (hih : 0 < c.imageHeight)
    (hl : 0 ≤ ic.left) (ht : 0 ≤ ic.top)
    (hlw : ic.left + ic.width ≤ c.fullWidth) (hth : ic.top + ic.height ≤ c.fullHeight)
    (hmw : c.minWidth ≤ ic.width) (hmh : c.minHeight ≤ ic.height)
    (il : isWhole ic.left = true) (it : isWhole ic.top = true)
    (iw : isWhole ic.width = true) (ih : isWhole ic.height = true)
    (wl : isWhole (ic.left / (c.fullWidth / c.imageWidth)) = true)
    (wt : isWhole (ic.top / (c.fullHeight / c.imageHeight)) = true)
    (ww : isWhole (ic.width / (c.fullWidth / c.imageWidth)) = true)
    (wh : isWhole (ic.height / (c.fullHeight / c.imageHeight)) = true) :
    getCoords c (_initiallyPositionTracker c) = ic := by
  have hws : c.fullWidth / c.imageWidth ≠ 0 := ne_of_gt (div_pos hfw hiw)
  have hhs : c.fullHeight / c.imageHeight ≠ 0 := ne_of_gt (div_pos hfh hih)
  have el : ic.left / (c.fullWidth / c.imageWidth) * (c.fullWidth / c.imageWidth)
      = ic.left := div_mul_cancel₀ _ hws
  have ew : ic.width / (c.fullWidth / c.imageWidth) * (c.fullWidth / c.imageWidth)
      = ic.width := div_mul_cancel₀ _ hws
  have et : ic.top / (c.fullHeight / c.imageHeight) * (c.fullHeight / c.imageHeight)
      = ic.top := div_mul_cancel₀ _ hhs
  have eh : ic.height / (c.fullHeight / c.imageHeight) * (c.fullHeight / c.imageHeight)
      = ic.height := div_mul_cancel₀ _ hhs
  obtain ⟨hW, hL⟩ := exportAxis_of_whole (ic.width / (c.fullWidth / c.imageWidth))
    (ic.left / (c.fullWidth / c.imageWidth)) (c.fullWidth / c.imageWidth)
    c.minWidth c.fullWidth
    (by rw [ew]; exact iw) (by rw [el]; exact il) (by rw [ew]; exact hmw)
    (by rw [el]; exact hl) (by rw [el, ew]; exact hlw)
  obtain ⟨hH, hT⟩ := exportAxis_of_whole (ic.height / (c.fullHeight / c.imageHeight))
    (ic.top / (c.fullHeight / c.imageHeight)) (c.fullHeight / c.imageHeight)
    c.minHeight c.fullHeight
    (by rw [eh]; exact ih) (by rw [et]; exact it) (by rw [eh]; exact hmh)
    (by rw [et]; exact ht) (by rw [et, eh]; exact hth)
  rw [ew] at hW
  rw [el] at hL
  rw [eh] at hH
  rw [et] at hT
  simp only [getCoords, hr, _initiallyPositionTracker, hic, Tracker.positionLeft,
    Tracker.positionTop, jsRound_of_whole wl, jsRound_of_whole wt, jsRound_of_whole ww,
    jsRound_of_whole wh, hW, hL, hH, hT]

/-! ## Double precision: powers of two and the exponent -/

theorem pow2_eq_zpow (e : ℤ) : pow2 e = (2 : ℚ) ^ e := by
  unfold pow2
  split_ifs with h
  · have : e = (e.toNat : ℤ) := (Int.toNat_of_nonneg h).symm
    conv_rhs => rw [this]
    rw [zpow_natCast]
    push_cast
    rfl
  · have hneg : 0 ≤ -e := by omega
    have : e = -((-e).toNat : ℤ) := by rw [Int.toNat_of_nonneg hneg]; ring
    conv_rhs => rw [this]
    rw [zpow_neg, zpow_natCast]
    push_cast
    rw [one_div]

theorem pow2_pos (e : ℤ) : 0 < pow2 e := by
  rw [pow2_eq_zpow]
  positivity

theorem pow2_add (a b : ℤ) : pow2 (a + b) = pow2 a * pow2 b := by
  simp only [pow2_eq_zpow]
  exact zpow_add₀ (by norm_num) a b

theorem pow2_le_pow2 {a b : ℤ} (h : a ≤ b) : pow2 a ≤ pow2 b := by
  simp only [pow2_eq_zpow]
  exact zpow_le_zpow_right₀ (by norm_num) h

theorem pow2_lt_pow2 {a b : ℤ} (h : a < b) : pow2 a < pow2 b := by
  simp only [pow2_eq_zpow]
  exact zpow_lt_zpow_right₀ (by norm_num) h

theorem lt_of_pow2_lt_pow2 {a b : ℤ} (h : pow2 a < pow2 b) : a < b := by
  by_contra hc
  exact absurd (pow2_le_pow2 (not_lt.mp hc)) (not_le.mpr h)

theorem pow2_natCast (n : ℕ) : pow2 (n : ℤ) = (2 : ℚ) ^ n := by
  rw [pow2_eq_zpow, zpow_natCast]

theorem ilog2_spec : ∀ (fuel n : ℕ), 1 ≤ n → n ≤ fuel →
    2 ^ ilog2 fuel n ≤ n ∧ n < 2 ^ (ilog2 fuel n + 1) := by
  intro fuel
  induction fuel with
  | zero => intro n h1 h2; omega
  | succ fuel ih =>
    intro n h1 h2
    unfold ilog2
    split_ifs with h
    · have : n = 1 := by omega
      subst this
      simp
    · obtain ⟨ha, hb⟩ := ih (n / 2) (by omega) (by omega)
      rw [pow_succ, pow_succ]
      rw [pow_succ] at hb
      constructor <;> omega

theorem exponent_spec {x : ℚ} (hx : x ≠ 0) :
    pow2 (exponent x) ≤ |x| ∧ |x| < pow2 (exponent x + 1) := by
  have hN : 1 ≤ x.num.natAbs := by
    have : x.num ≠ 0 := Rat.num_ne_zero.mpr hx
    omega
  have hD : 1 ≤ x.den := x.den_pos
  obtain ⟨a1, a2⟩ := ilog2_spec x.num.natAbs x.num.natAbs hN le_rfl
  obtain ⟨b1, b2⟩ := ilog2_spec x.den x.den hD le_rfl
  have habs : |x| = (x.num.natAbs : ℚ) / (x.den : ℚ) := by
    conv_lhs => rw [← Rat.num_div_den x]
    rw [abs_div, Nat.abs_cast]
    congr 1
    rw [Nat.cast_natAbs, Int.cast_abs]
  have hDq : (0 : ℚ) < x.den := by exact_mod_cast hD
  simp only [exponent]
  generalize ilog2 x.num.natAbs x.num.natAbs = a at *
  generalize ilog2 x.den x.den = b at *
  have a1q : (2 : ℚ) ^ a ≤ x.num.natAbs := by exact_mod_cast a1
  have a2q : (x.num.natAbs : ℚ) < 2 ^ (a + 1) := by exact_mod_cast a2
  have b1q : (2 : ℚ) ^ b ≤ x.den := by exact_mod_cast b1
  have b2q : (x.den : ℚ) < 2 ^ (b + 1) := by exact_mod_cast b2
  have e1 : pow2 ((a : ℤ) - b - 1) * 2 ^ (b + 1) = 2 ^ a := by
    rw [pow2_eq_zpow, ← zpow_natCast, ← zpow_natCast, ← zpow_add₀ (by norm_num)]
    congr 1
    push_cast
    ring
  have e2 : pow2 ((a : ℤ) - b + 1) * 2 ^ b = 2 ^ (a + 1) := by
    rw [pow2_eq_zpow, ← zpow_natCast, ← zpow_natCast, ← zpow_add₀ (by norm_num)]
    congr 1
    push_cast
    ring
  have hlow : pow2 ((a : ℤ) - b - 1) ≤ |x| := by
    rw [habs, le_div_iff₀ hDq]
    have hp := pow2_pos ((a : ℤ) - b - 1)
    calc pow2 ((a : ℤ) - b - 1) * x.den ≤ pow2 ((a : ℤ) - b - 1) * 2 ^ (b + 1) :=
          mul_le_mul_of_nonneg_left (le_of_lt b2q) (le_of_lt hp)
      _ = 2 ^ a := e1
      _ ≤ x.num.natAbs := a1q
  have hup : |x| < pow2 ((a : ℤ) - b + 1) := by
    rw [habs, div_lt_iff₀ hDq]
    have hp := pow2_pos ((a : ℤ) - b + 1)
    calc (x.num.natAbs : ℚ) < 2 ^ (a + 1) := a2q
      _ = pow2 ((a : ℤ) - b + 1) * 2 ^ b := e2.symm
      _ ≤ pow2 ((a : ℤ) - b + 1) * x.den := mul_le_mul_of_nonneg_left b1q (le_of_lt hp)
  split_ifs with h
  · exact ⟨h, hup⟩
  · refine ⟨hlow, ?_⟩
    have : (a : ℤ) - b - 1 + 1 = (a : ℤ) - b := by ring
    rw [this]
    exact not_le.mp h

/-! ## Double precision: rounding -/

theorem roundEven_intCast (n : ℤ) : roundEven (n : ℚ) = n := by
  unfold roundEven
  rw [Int.floor_intCast]
  simp

theorem floor_le_roundEven (y : ℚ) : ⌊y⌋ ≤ roundEven y := by
  unfold roundEven
  split_ifs <;> omega

theorem roundEven_le_floor_add_one (y : ℚ) : roundEven y ≤ ⌊y⌋ + 1 := by
  unfold roundEven
  split_ifs <;> omega

theorem abs_roundEven_sub_le (y : ℚ) : |(roundEven y : ℚ) - y| ≤ 1 / 2 := by
  have h1 : (⌊y⌋ : ℚ) ≤ y := Int.floor_le y
  have h2 : y < ⌊y⌋ + 1 := Int.lt_floor_add_one y
  unfold roundEven
  rw [abs_le]
  split_ifs with a b c <;> push_cast <;> constructor <;> linarith

theorem roundEven_mono {y z : ℚ} (h : y ≤ z) : roundEven y ≤ roundEven z := by
  have hf : ⌊y⌋ ≤ ⌊z⌋ := Int.floor_le_floor h
  rcases lt_or_eq_of_le hf with hlt | heq
  · have h1 := roundEven_le_floor_add_one y
    have h2 := floor_le_roundEven z
    omega
  · unfold roundEven
    rw [heq]
    split_ifs <;> first | omega | (exfalso; linarith)

theorem roundEven_nonneg {y : ℚ} (h : 0 ≤ y) : 0 ≤ roundEven y :=
  le_trans (Int.floor_nonneg.mpr h) (floor_le_roundEven y)

theorem round64_zero : round64 0 = 0 := by
  simp [round64]

theorem round64_nonneg {x : ℚ} (h : 0 ≤ x) : 0 ≤ round64 x := by
  unfold round64
  split_ifs with h0
  · exact le_refl _
  · have hp := pow2_pos (exponent x - 52)
    have : (0 : ℚ) ≤ (roundEven (x / pow2 (exponent x - 52)) : ℚ) := by
      exact_mod_cast roundEven_nonneg (div_nonneg h (le_of_lt hp))
    exact mul_nonneg this (le_of_lt hp)

/-- Values of `round64` that can be compared with any implementation of IEEE
754 double precision: `0.1`, `1/3` and `7/3` as stored, the ties `2^53 + 1`
(to the even `2^53`) and `2^53 + 3` (to the even `2^53 + 4`), a tie at the end
of a binade, and a negative number. -/
theorem round64_examples :
    round64 (1 / 10) = 3602879701896397 / 36028797018963968 ∧
    round64 (1 / 3) = 6004799503160661 / 18014398509481984 ∧
    round64 (7 / 3) = 5254199565265579 / 2251799813685248 ∧
    round64 (2 ^ 53 + 1) = 2 ^ 53 ∧
    round64 (2 ^ 53 + 3) = 2 ^ 53 + 4 ∧
    round64 (2 ^ 53 - 1 / 2) = 2 ^ 53 ∧
    round64 (-(1 / 10)) = -(3602879701896397 / 36028797018963968) ∧
    round64 (581 / round64 (7 / 3)) = 8760908650119167 / 35184372088832 := by
  decide!

/-- The rounding error is at most half a unit of the last of the 53 bits. -/
theorem abs_round64_sub_le (x : ℚ) : |round64 x - x| ≤ |x| / 2 ^ 53 := by
  unfold round64
  split_ifs with h0
  · simp [h0]
  · have hp := pow2_pos (exponent x - 52)
    have hne : pow2 (exponent x - 52) ≠ 0 := ne_of_gt hp
    have hr := abs_roundEven_sub_le (x / pow2 (exponent x - 52))
    have e : (roundEven (x / pow2 (exponent x - 52)) : ℚ) * pow2 (exponent x - 52) - x
        = ((roundEven (x / pow2 (exponent x - 52)) : ℚ) - x / pow2 (exponent x - 52))
          * pow2 (exponent x - 52) := by
      field_simp
    rw [e, abs_mul, abs_of_pos hp]
    have hlow := (exponent_spec h0).1
    have e2 : pow2 (exponent x - 52) = pow2 (exponent x) / 2 ^ 52 := by
      have : exponent x - 52 = exponent x + (-52) := by ring
      rw [this, pow2_add]
      have : pow2 (-52) = 1 / 2 ^ 52 := by
        rw [pow2_eq_zpow]
        norm_num
      rw [this]
      ring
    calc |(roundEven (x / pow2 (exponent x - 52)) : ℚ) - x / pow2 (exponent x - 52)|
          * pow2 (exponent x - 52)
        ≤ 1 / 2 * pow2 (exponent x - 52) := mul_le_mul_of_nonneg_right hr (le_of_lt hp)
      _ = pow2 (exponent x) / 2 ^ 53 := by rw [e2]; ring
      _ ≤ |x| / 2 ^ 53 := div_le_div_of_nonneg_right hlow (by positivity)

/-- A number with a significand of at most 53 bits is a double-precision
number: rounding leaves it as it is. -/
theorem round64_exact (m k : ℤ) (hm : |m| ≤ 2 ^ 53) :
    round64 ((m : ℚ) * pow2 k) = (m : ℚ) * pow2 k := by
  by_cases h0 : (m : ℚ) * pow2 k = 0
  · rw [h0, round64_zero]
  · have hk := pow2_pos k
    have hm0 : m ≠ 0 := by
      rintro rfl
      simp at h0
    obtain ⟨hlow, -⟩ := exponent_spec h0
    generalize hE : exponent ((m : ℚ) * pow2 k) = e at hlow
    have habs : |(m : ℚ) * pow2 k| = |(m : ℚ)| * pow2 k := by
      rw [abs_mul, abs_of_pos hk]
    have hmq : |(m : ℚ)| ≤ 2 ^ 53 := by
      have : ((|m| : ℤ) : ℚ) ≤ ((2 ^ 53 : ℤ) : ℚ) := Int.cast_le.mpr hm
      simpa using this
    have hle : pow2 e ≤ pow2 (53 + k) := by
      rw [pow2_add]
      calc pow2 e ≤ |(m : ℚ)| * pow2 k := by rw [← habs]; exact hlow
        _ ≤ 2 ^ 53 * pow2 k := mul_le_mul_of_nonneg_right hmq (le_of_lt hk)
        _ = pow2 53 * pow2 k := by rw [pow2_eq_zpow 53]; norm_num
    have hek : e ≤ 53 + k := by
      by_contra hc
      exact absurd (pow2_lt_pow2 (not_le.mp hc)) (not_lt.mpr hle)
    have hp := pow2_pos (e - 52)
    unfold round64
    rw [if_neg h0, hE]
    -- the scaled value is an integer
    have hint : ∃ n : ℤ, (m : ℚ) * pow2 k / pow2 (e - 52) = n := by
      rcases lt_or_eq_of_le hek with hlt | heq
      · have hge : 0 ≤ k - (e - 52) := by omega
        refine ⟨m * 2 ^ (k - (e - 52)).toNat, ?_⟩
        have : pow2 k = pow2 (k - (e - 52)) * pow2 (e - 52) := by
          rw [← pow2_add]
          congr 1
          ring
        rw [this]
        have e3 : pow2 (k - (e - 52)) = ((2 ^ (k - (e - 52)).toNat : ℤ) : ℚ) := by
          unfold pow2
          rw [if_pos hge]
          push_cast
          rfl
        rw [e3]
        field_simp
        ring
      · -- the significand is `± 2 ^ 53`
        have hmabs : |(m : ℚ)| = 2 ^ 53 := by
          apply le_antisymm hmq
          have h1 : pow2 (53 + k) ≤ |(m : ℚ)| * pow2 k := by
            rw [← heq, ← habs]
            exact hlow
          rw [pow2_add] at h1
          have h2 : pow2 53 ≤ |(m : ℚ)| := le_of_mul_le_mul_right h1 hk
          rw [pow2_eq_zpow 53] at h2
          norm_num at h2
          exact h2
        have hk2 : pow2 k = pow2 (e - 52) / 2 := by
          have : e - 52 = k + 1 := by omega
          rw [this, pow2_add]
          have : pow2 1 = 2 := by rw [pow2_eq_zpow]; norm_num
          rw [this]
          ring
        rcases abs_choice (m : ℚ) with hc | hc
        · refine ⟨2 ^ 52, ?_⟩
          rw [hc] at hmabs
          rw [hmabs, hk2]
          field_simp
          ring
        · refine ⟨-2 ^ 52, ?_⟩
          rw [hc] at hmabs
          have : (m : ℚ) = -2 ^ 53 := by linarith
          rw [this, hk2]
          field_simp
          ring
    obtain ⟨n, hn⟩ := hint
    rw [hn, roundEven_intCast, ← hn]
    field_simp

theorem round64_intCast (n : ℤ) (hn : |n| ≤ 2 ^ 53) : round64 (n : ℚ) = n := by
  have h := round64_exact n 0 hn
  have e : pow2 0 = 1 := by rw [pow2_eq_zpow]; norm_num
  rw [e, mul_one] at h
  exact h

theorem pow2_sub_52 (e : ℤ) : pow2 e = 2 ^ 52 * pow2 (e - 52) := by
  have : e = 52 + (e - 52) := by ring
  conv_lhs => rw [this]
  rw [pow2_add, pow2_eq_zpow 52]
  norm_num

/-- Rounding of a positive number stays inside its binade, ends included. -/
theorem round64_binade {x : ℚ} (hx : 0 < x) :
    pow2 (exponent x) ≤ round64 x ∧ round64 x ≤ pow2 (exponent x + 1) := by
  have h0 : x ≠ 0 := ne_of_gt hx
  obtain ⟨hlow, hup⟩ := exponent_spec h0
  rw [abs_of_pos hx] at hlow hup
  have hp := pow2_pos (exponent x - 52)
  unfold round64
  rw [if_neg h0]
  constructor
  · have h1 : ((2 ^ 52 : ℤ) : ℚ) ≤ x / pow2 (exponent x - 52) := by
      rw [le_div_iff₀ hp]
      have := pow2_sub_52 (exponent x)
      push_cast
      linarith
    have h2 := roundEven_mono h1
    rw [roundEven_intCast] at h2
    have h3 : ((2 ^ 52 : ℤ) : ℚ) ≤ (roundEven (x / pow2 (exponent x - 52)) : ℚ) :=
      Int.cast_le.mpr h2
    calc pow2 (exponent x) = ((2 ^ 52 : ℤ) : ℚ) * pow2 (exponent x - 52) := by
          rw [pow2_sub_52 (exponent x)]
          norm_num
      _ ≤ _ := mul_le_mul_of_nonneg_right h3 (le_of_lt hp)
  · have e1 : pow2 (exponent x + 1) = ((2 ^ 53 : ℤ) : ℚ) * pow2 (exponent x - 52) := by
      have : exponent x + 1 = 53 + (exponent x - 52) := by ring
      rw [this, pow2_add, pow2_eq_zpow 53]
      norm_num
    have h1 : x / pow2 (exponent x - 52) ≤ ((2 ^ 53 : ℤ) : ℚ) := by
      rw [div_le_iff₀ hp, ← e1]
      exact le_of_lt hup
    have h2 := roundEven_mono h1
    rw [roundEven_intCast] at h2
    have h3 : (roundEven (x / pow2 (exponent x - 52)) : ℚ) ≤ ((2 ^ 53 : ℤ) : ℚ) :=
      Int.cast_le.mpr h2
    rw [e1]
    exact mul_le_mul_of_nonneg_right h3 (le_of_lt hp)

/-- Rounding is monotone on the non-negative numbers. -/
theorem round64_mono {x y : ℚ} (hx : 0 ≤ x) (h : x ≤ y) : round64 x ≤ round64 y := by
  rcases eq_or_lt_of_le hx with hx0 | hxpos
  · rw [← hx0, round64_zero]
    exact round64_nonneg (le_trans hx h)
  · have hypos : 0 < y := lt_of_lt_of_le hxpos h
    have sx := exponent_spec (ne_of_gt hxpos)
    have sy := exponent_spec (ne_of_gt hypos)
    rw [abs_of_pos hxpos] at sx
    rw [abs_of_pos hypos] at sy
    have hlt : exponent x < exponent y + 1 :=
      lt_of_pow2_lt_pow2 (lt_of_le_of_lt (le_trans sx.1 h) sy.2)
    rcases lt_or_eq_of_le (Int.lt_add_one_iff.mp hlt) with hl | he
    · calc round64 x ≤ pow2 (exponent x + 1) := (round64_binade hxpos).2
        _ ≤ pow2 (exponent y) := pow2_le_pow2 (by omega)
        _ ≤ round64 y := (round64_binade hypos).1
    · have hp := pow2_pos (exponent y - 52)
      unfold round64
      rw [if_neg (ne_of_gt hxpos), if_neg (ne_of_gt hypos), he]
      apply mul_le_mul_of_nonneg_right _ (le_of_lt hp)
      exact Int.cast_le.mpr (roundEven_mono (div_le_div_of_nonneg_right h (le_of_lt hp)))

theorem round64_le_mul {x : ℚ} (hx : 0 ≤ x) : round64 x ≤ x * (1 + 1 / 2 ^ 53) := by
  have h := abs_round64_sub_le x
  rw [abs_of_nonneg hx] at h
  have := (abs_le.mp h).2
  linarith

theorem mul_le_round64 {x : ℚ} (hx : 0 ≤ x) : x * (1 - 1 / 2 ^ 53) ≤ round64 x := by
  have h := abs_round64_sub_le x
  rw [abs_of_nonneg hx] at h
  have := (abs_le.mp h).1
  linarith

theorem round64_pos {x : ℚ} (hx : 0 < x) : 0 < round64 x :=
  lt_of_lt_of_le (mul_pos hx (by norm_num)) (mul_le_round64 (le_of_lt hx))

/-! ## The rounded source with exact arithmetic -/

theorem rounded_imageMinWidth_id (c : CropTool) :
    Rounded.imageMinWidth id c = c.imageMinWidth := rfl

theorem rounded_imageMinHeight_id (c : CropTool) :
    Rounded.imageMinHeight id c = c.imageMinHeight := rfl

theorem rounded_initiallyPositionTracker_id (c : CropTool) :
    Rounded._initiallyPositionTracker id c = _initiallyPositionTracker c := rfl

theorem rounded_snapLoop_id (ratio : ℚ) :
    ∀ (n : Nat) (width height : ℚ),
      Rounded.snapLoop id ratio n width height = snapLoop ratio n width height := by
  intro n
  induction n with
  | zero => intro width height; rfl
  | succ n ih =>
    intro width height
    simp only [Rounded.snapLoop, snapLoop, id, ih]

theorem rounded_getCoords_id (c : CropTool) (t : Tracker) :
    Rounded.getCoords id c t = getCoords c t := by
  simp only [Rounded.getCoords, getCoords, Rounded.exportSize, exportSize,
    Rounded.exportOffset, exportOffset, id, rounded_snapLoop_id]

theorem rounded_resizeStart_id (c : CropTool) (t : Tracker) (corner : Corner)
    (clientX clientY : ℚ) :
    Rounded.resizeStart id c t corner clientX clientY
      = resizeStart c t corner clientX clientY := rfl

theorem rounded_resizeMoveRatio_id (c : CropTool) (s : ResizeSession) (ratio clientX : ℚ) :
    Rounded.resizeMoveRatio id c s ratio clientX = resizeMoveRatio c s ratio clientX := rfl

theorem rounded_resizeMove_id (c : CropTool) (s : ResizeSession) (t : Tracker)
    (clientX clientY : ℚ) :
    Rounded.resizeMove id c s t clientX clientY = resizeMove c s t clientX clientY := rfl

/-! ## Ratio-locked resize with every operation rounded -/

/-- In double precision the width of the ratio branch leaves its range by a
rounding error even on a gesture that starts on the ratio: for the 1000×500
image with the ratio written `7/3`, the 70×30 tracker at `x = 881` satisfies the
invariants and its width is the computed product of its height and the ratio;
the south-east corner grabbed at `(951, 30)` and moved to `(2000, 30)` gives
height 51 and the width `119.00000000000001`, above `maxWidth = 119`. -/
theorem resize_ratio_width_rounding :
    truthy thirdsImage.ratio = some (round64 (7 / 3)) ∧
    Rounded.Invariant round64 thirdsImage thirdsTracker ∧
    thirdsTracker.width = round64 (thirdsTracker.height * round64 (7 / 3)) ∧
    round64 (thirdsImage.imageWidth
      - (Rounded.resizeStart round64 thirdsImage thirdsTracker Corner.se 951 30).preLeft) = 119 ∧
    (Rounded.resizeMove round64 thirdsImage
        (Rounded.resizeStart round64 thirdsImage thirdsTracker Corner.se 951 30)
        thirdsTracker 2000 30).height = 51 ∧
    (Rounded.resizeMove round64 thirdsImage
        (Rounded.resizeStart round64 thirdsImage thirdsTracker Corner.se 951 30)
        thirdsTracker 2000 30).width = 8373880557142017 / 70368744177664 ∧
    (Rounded.resizeMove round64 thirdsImage
        (Rounded.resizeStart round64 thirdsImage thirdsTracker Corner.se 951 30)
        thirdsTracker 2000 30).width > 119 := by
  decide!

theorem rounded_resizeMove_ratio (rnd : ℚ → ℚ) (c : CropTool) (s : ResizeSession)
    (u : Tracker) (px py ratio : ℚ) (hr : truthy c.ratio = some ratio) :
    Rounded.resizeMove rnd c s u px py = Rounded.resizeMoveRatio rnd c s ratio px := by
  simp only [Rounded.resizeMove, hr]

/-- The ratio branch with every operation rounded by any rounding function
(the identity for exact arithmetic, `round64` for double precision), after every
resize move sample from any corner, whatever samples came before it: if
`minDisplayHeight ≤ maxHeight` then `minDisplayHeight ≤ height ≤ maxHeight`; the
width is the computed product `height × ratio`, which is not clamped again;
with an east corner `x` stays at its gesture-start value and with a south
corner `y` does. -/
theorem rounded_resize_ratio_height (rnd : ℚ → ℚ) (c : CropTool) (t : Tracker)
    (corner : Corner) (sx sy px py ratio : ℚ) (earlier : List (ℚ × ℚ))
    (hr : truthy c.ratio = some ratio)
    (h : Rounded.imageMinHeight rnd c
      ≤ (if (Rounded.resizeStart rnd c t corner sx sy).isNorth
          then rnd (c.imageHeight - (Rounded.resizeStart rnd c t corner sx sy).preBottom)
          else rnd (c.imageHeight - (Rounded.resizeStart rnd c t corner sx sy).preTop))) :
    Rounded.imageMinHeight rnd c
        ≤ (Rounded.resizeMove rnd c (Rounded.resizeStart rnd c t corner sx sy)
            (Rounded.resizeGesture rnd c (Rounded.resizeStart rnd c t corner sx sy) t earlier)
            px py).height ∧
    (Rounded.resizeMove rnd c (Rounded.resizeStart rnd c t corner sx sy)
            (Rounded.resizeGesture rnd c (Rounded.resizeStart rnd c t corner sx sy) t earlier)
            px py).height
        ≤ (if (Rounded.resizeStart rnd c t corner sx sy).isNorth
            then rnd (c.imageHeight - (Rounded.resizeStart rnd c t corner sx sy).preBottom)
            else rnd (c.imageHeight - (Rounded.resizeStart rnd c t corner sx sy).preTop)) ∧
    (Rounded.resizeMove rnd c (Rounded.resizeStart rnd c t corner sx sy)
            (Rounded.resizeGesture rnd c (Rounded.resizeStart rnd c t corner sx sy) t earlier)
            px py).width
        = rnd ((Rounded.resizeMove rnd c (Rounded.resizeStart rnd c t corner sx sy)
            (Rounded.resizeGesture rnd c (Rounded.resizeStart rnd c t corner sx sy) t earlier)
            px py).height * ratio) ∧
    ((corner = Corner.ne ∨ corner = Corner.se) →
      (Rounded.resizeMove rnd c (Rounded.resizeStart rnd c t corner sx sy)
            (Rounded.resizeGesture rnd c (Rounded.resizeStart rnd c t corner sx sy) t earlier)
            px py).positionLeft c = t.positionLeft c) ∧
    ((corner = Corner.se ∨ corner = Corner.sw) →
      (Rounded.resizeMove rnd c (Rounded.resizeStart rnd c t corner sx sy)
            (Rounded.resizeGesture rnd c (Rounded.resizeStart rnd c t corner sx sy) t earlier)
            px py).positionTop c = t.positionTop c) := by
  rw [rounded_resizeMove_ratio rnd c _ _ px py ratio hr]
  generalize hs : Rounded.resizeStart rnd c t corner sx sy = s at h ⊢
  have hL : s.preLeft = t.positionLeft c := by rw [← hs]; rfl
  have hT : s.preTop = t.positionTop c := by rw [← hs]; rfl
  have hW : (corner = Corner.ne ∨ corner = Corner.se) → s.isWest = false := by
    rw [← hs]
    rintro (rfl | rfl) <;> rfl
  have hN : (corner = Corner.se ∨ corner = Corner.sw) → s.isNorth = false := by
    rw [← hs]
    rintro (rfl | rfl) <;> rfl
  refine ⟨?_, ?_, ?_, ?_, ?_⟩
  · simp only [Rounded.resizeMoveRatio]
    exact (clampUp_mem h).1
  · simp only [Rounded.resizeMoveRatio]
    exact (clampUp_mem h).2
  · simp only [Rounded.resizeMoveRatio]
  · intro hc
    simp only [Rounded.resizeMoveRatio, Tracker.positionLeft, hW hc, hL]
    simp
  · intro hc
    simp only [Rounded.resizeMoveRatio, Tracker.positionTop, hN hc, hT]
    simp

/-- The height pass of the ratio branch in double precision: from a width
inside its range, on a gesture that started on the ratio as computed and inside
the ranges, the width derived from the clamped height is inside the width range
up to the two roundings of the quotient and of the product. -/
theorem ratio_height_pass_rounded {ratio wc h0 minW maxW minH maxH : ℚ} (hr : 0 < ratio)
    (h0W : 0 ≤ minW) (h0H : 0 ≤ minH)
    (hwc1 : minW ≤ wc) (hwc2 : wc ≤ maxW)
    (hw1 : minW ≤ round64 (h0 * ratio)) (hw2 : round64 (h0 * ratio) ≤ maxW)
    (hh1 : minH ≤ h0) (hh2 : h0 ≤ maxH) :
    minW * (1 - 1 / 2 ^ 53) ^ 2
        ≤ round64 (max minH (min (round64 (wc / ratio)) maxH) * ratio) ∧
      round64 (max minH (min (round64 (wc / ratio)) maxH) * ratio)
        ≤ maxW * (1 + 1 / 2 ^ 53) ^ 2 := by
  have hr0 : ratio ≠ 0 := ne_of_gt hr
  have hwc0 : 0 ≤ wc := le_trans h0W hwc1
  have hmaxW0 : 0 ≤ maxW := le_trans hwc0 hwc2
  have hq0 : 0 ≤ wc / ratio := div_nonneg hwc0 (le_of_lt hr)
  have hq1 := round64_le_mul hq0
  have hq2 := mul_le_round64 hq0
  have hh10 : 0 ≤ round64 (wc / ratio) := round64_nonneg hq0
  have e : wc / ratio * ratio = wc := by field_simp
  -- the product of the rounded quotient and the ratio
  have hp1 : round64 (wc / ratio) * ratio ≤ wc * (1 + 1 / 2 ^ 53) := by
    have := mul_le_mul_of_nonneg_right hq1 (le_of_lt hr)
    calc round64 (wc / ratio) * ratio ≤ wc / ratio * (1 + 1 / 2 ^ 53) * ratio := this
      _ = wc / ratio * ratio * (1 + 1 / 2 ^ 53) := by ring
      _ = wc * (1 + 1 / 2 ^ 53) := by rw [e]
  have hp2 : wc * (1 - 1 / 2 ^ 53) ≤ round64 (wc / ratio) * ratio := by
    have := mul_le_mul_of_nonneg_right hq2 (le_of_lt hr)
    calc wc * (1 - 1 / 2 ^ 53) = wc / ratio * ratio * (1 - 1 / 2 ^ 53) := by rw [e]
      _ = wc / ratio * (1 - 1 / 2 ^ 53) * ratio := by ring
      _ ≤ round64 (wc / ratio) * ratio := this
  have hp0 : 0 ≤ round64 (wc / ratio) * ratio := mul_nonneg hh10 (le_of_lt hr)
  have hup : round64 (round64 (wc / ratio) * ratio) ≤ maxW * (1 + 1 / 2 ^ 53) ^ 2 := by
    have h1 := round64_le_mul hp0
    have h2 : round64 (wc / ratio) * ratio * (1 + 1 / 2 ^ 53)
        ≤ wc * (1 + 1 / 2 ^ 53) * (1 + 1 / 2 ^ 53) :=
      mul_le_mul_of_nonneg_right hp1 (by norm_num)
    have h3 : wc * (1 + 1 / 2 ^ 53) * (1 + 1 / 2 ^ 53)
        ≤ maxW * (1 + 1 / 2 ^ 53) * (1 + 1 / 2 ^ 53) :=
      mul_le_mul_of_nonneg_right (mul_le_mul_of_nonneg_right hwc2 (by norm_num))
        (by norm_num)
    have h4 : maxW * (1 + 1 / 2 ^ 53) * (1 + 1 / 2 ^ 53) = maxW * (1 + 1 / 2 ^ 53) ^ 2 := by
      ring
    linarith
  have hlow : minW * (1 - 1 / 2 ^ 53) ^ 2 ≤ round64 (round64 (wc / ratio) * ratio) := by
    have h1 := mul_le_round64 hp0
    have h2 : wc * (1 - 1 / 2 ^ 53) * (1 - 1 / 2 ^ 53)
        ≤ round64 (wc / ratio) * ratio * (1 - 1 / 2 ^ 53) :=
      mul_le_mul_of_nonneg_right hp2 (by norm_num)
    have h3 : minW * (1 - 1 / 2 ^ 53) * (1 - 1 / 2 ^ 53)
        ≤ wc * (1 - 1 / 2 ^ 53) * (1 - 1 / 2 ^ 53) :=
      mul_le_mul_of_nonneg_right (mul_le_mul_of_nonneg_right hwc1 (by norm_num))
        (by norm_num)
    have h4 : minW * (1 - 1 / 2 ^ 53) * (1 - 1 / 2 ^ 53) = minW * (1 - 1 / 2 ^ 53) ^ 2 := by
      ring
    linarith
  have hminW2 : minW * (1 - 1 / 2 ^ 53) ^ 2 ≤ minW := by
    have : ((1 : ℚ) - 1 / 2 ^ 53) ^ 2 ≤ 1 := by norm_num
    calc minW * (1 - 1 / 2 ^ 53) ^ 2 ≤ minW * 1 := mul_le_mul_of_nonneg_left this h0W
      _ = minW := mul_one _
  have hmaxW2 : maxW ≤ maxW * (1 + 1 / 2 ^ 53) ^ 2 := by
    have : (1 : ℚ) ≤ (1 + 1 / 2 ^ 53) ^ 2 := by norm_num
    calc maxW = maxW * 1 := (mul_one _).symm
      _ ≤ maxW * (1 + 1 / 2 ^ 53) ^ 2 := mul_le_mul_of_nonneg_left this hmaxW0
  have hh00 : 0 ≤ h0 := le_trans h0H hh1
  rcases le_total (round64 (wc / ratio)) minH with hc | hc
  · -- the height is raised to the minimum
    have eh : max minH (min (round64 (wc / ratio)) maxH) = minH :=
      max_eq_left (le_trans (min_le_left _ _) hc)
    rw [eh]
    have hm0 : 0 ≤ minH * ratio := mul_nonneg h0H (le_of_lt hr)
    constructor
    · have h1 := mul_le_round64 hm0
      have h2 : round64 (wc / ratio) * ratio ≤ minH * ratio :=
        mul_le_mul_of_nonneg_right hc (le_of_lt hr)
      have h3 : wc * (1 - 1 / 2 ^ 53) * (1 - 1 / 2 ^ 53)
          ≤ minH * ratio * (1 - 1 / 2 ^ 53) :=
        mul_le_mul_of_nonneg_right (le_trans hp2 h2) (by norm_num)
      have h4 : minW * (1 - 1 / 2 ^ 53) * (1 - 1 / 2 ^ 53)
          ≤ wc * (1 - 1 / 2 ^ 53) * (1 - 1 / 2 ^ 53) :=
        mul_le_mul_of_nonneg_right (mul_le_mul_of_nonneg_right hwc1 (by norm_num))
          (by norm_num)
      have h5 : minW * (1 - 1 / 2 ^ 53) * (1 - 1 / 2 ^ 53)
          = minW * (1 - 1 / 2 ^ 53) ^ 2 := by ring
      linarith
    · have h1 : round64 (minH * ratio) ≤ round64 (h0 * ratio) :=
        round64_mono hm0 (mul_le_mul_of_nonneg_right hh1 (le_of_lt hr))
      linarith
  · rcases le_total (round64 (wc / ratio)) maxH with hd | hd
    · -- the height is the rounded quotient
      have eh : max minH (min (round64 (wc / ratio)) maxH) = round64 (wc / ratio) := by
        rw [min_eq_left hd, max_eq_right hc]
      rw [eh]
      exact ⟨hlow, hup⟩
    · -- the height is cut to the maximum
      have eh : max minH (min (round64 (wc / ratio)) maxH) = maxH := by
        rw [min_eq_right hd, max_eq_right (le_trans hh1 hh2)]
      rw [eh]
      have hM0 : 0 ≤ maxH * ratio :=
        mul_nonneg (le_trans hh00 hh2) (le_of_lt hr)
      constructor
      · have h1 : round64 (h0 * ratio) ≤ round64 (maxH * ratio) :=
          round64_mono (mul_nonneg hh00 (le_of_lt hr))
            (mul_le_mul_of_nonneg_right hh2 (le_of_lt hr))
        linarith
      · have h1 : round64 (maxH * ratio) ≤ round64 (round64 (wc / ratio) * ratio) :=
          round64_mono hM0 (mul_le_mul_of_nonneg_right hd (le_of_lt hr))
        linarith

/-- C10 (amended): in the program's double precision, with a ratio `r > 0`
configured, starting from a tracker that lies on the ratio as the program
computes it (`width = ⟦height × r⟧`, the rounded product) and whose width and
height lie in the handler's ranges `[minDisplayWidth, maxWidth]` and
`[minDisplayHeight, maxHeight]` (`maxWidth = ⟦renderedWidth − rightMargin⟧` for
west corners, `⟦renderedWidth − initialLeft⟧` otherwise, `maxHeight` likewise;
the display minimums not negative), after every resize move sample from any
corner, whatever samples came before it: `minDisplayHeight ≤ height ≤ maxHeight`
holds exactly, the width is the rounded product `⟦height × r⟧`, and the width
bounds hold up to the two roundings of the quotient and of the product,
`minDisplayWidth × (1 − 2⁻⁵³)² ≤ width ≤ maxWidth × (1 + 2⁻⁵³)²`; with an east
corner `x` stays at its gesture-start value and with a south corner `y` does. -/
theorem resize_ratio_bounds_rounded (c : CropTool) (t : Tracker) (corner : Corner)
    (sx sy px py ratio : ℚ) (earlier : List (ℚ × ℚ))
    (hr : truthy c.ratio = some ratio) (hpos : 0 < ratio)
    (hon : t.width = round64 (t.height * ratio))
    (h0w : 0 ≤ Rounded.imageMinWidth round64 c)
    (h0h : 0 ≤ Rounded.imageMinHeight round64 c)
    (hw1 : Rounded.imageMinWidth round64 c ≤ t.width)
    (hw2 : t.width
      ≤ (if (Rounded.resizeStart round64 c t corner sx sy).isWest
          then round64 (c.imageWidth
            - (Rounded.resizeStart round64 c t corner sx sy).preRight)
          else round64 (c.imageWidth
            - (Rounded.resizeStart round64 c t corner sx sy).preLeft)))
    (hh1 : Rounded.imageMinHeight round64 c ≤ t.height)
    (hh2 : t.height
      ≤ (if (Rounded.resizeStart round64 c t corner sx sy).isNorth
          then round64 (c.imageHeight
            - (Rounded.resizeStart round64 c t corner sx sy).preBottom)
          else round64 (c.imageHeight
            - (Rounded.resizeStart round64 c t corner sx sy).preTop))) :
    (Rounded.imageMinHeight round64 c
        ≤ (Rounded.resizeMove round64 c (Rounded.resizeStart round64 c t corner sx sy)
            (Rounded.resizeGesture round64 c
              (Rounded.resizeStart round64 c t corner sx sy) t earlier) px py).height ∧
      (Rounded.resizeMove round64 c (Rounded.resizeStart round64 c t corner sx sy)
            (Rounded.resizeGesture round64 c
              (Rounded.resizeStart round64 c t corner sx sy) t earlier) px py).height
        ≤ (if (Rounded.resizeStart round64 c t corner sx sy).isNorth
            then round64 (c.imageHeight
              - (Rounded.resizeStart round64 c t corner sx sy).preBottom)
            else round64 (c.imageHeight
              - (Rounded.resizeStart round64 c t corner sx sy).preTop))) ∧
    (Rounded.resizeMove round64 c (Rounded.resizeStart round64 c t corner sx sy)
            (Rounded.resizeGesture round64 c
              (Rounded.resizeStart round64 c t corner sx sy) t earlier) px py).width
        = round64 ((Rounded.resizeMove round64 c
            (Rounded.resizeStart round64 c t corner sx sy)
            (Rounded.resizeGesture round64 c
              (Rounded.resizeStart round64 c t corner sx sy) t earlier) px py).height
          * ratio) ∧
    (Rounded.imageMinWidth round64 c * (1 - 1 / 2 ^ 53) ^ 2
        ≤ (Rounded.resizeMove round64 c (Rounded.resizeStart round64 c t corner sx sy)
            (Rounded.resizeGesture round64 c
              (Rounded.resizeStart round64 c t corner sx sy) t earlier) px py).width ∧
      (Rounded.resizeMove round64 c (Rounded.resizeStart round64 c t corner sx sy)
            (Rounded.resizeGesture round64 c
              (Rounded.resizeStart round64 c t corner sx sy) t earlier) px py).width
        ≤ (if (Rounded.resizeStart round64 c t corner sx sy).isWest
            then round64 (c.imageWidth
              - (Rounded.resizeStart round64 c t corner sx sy).preRight)
            else round64 (c.imageWidth
              - (Rounded.resizeStart round64 c t corner sx sy).preLeft))
          * (1 + 1 / 2 ^ 53) ^ 2) ∧
    ((corner = Corner.ne ∨ corner = Corner.se) →
      (Rounded.resizeMove round64 c (Rounded.resizeStart round64 c t corner sx sy)
            (Rounded.resizeGesture round64 c
              (Rounded.resizeStart round64 c t corner sx sy) t earlier)
            px py).positionLeft c = t.positionLeft c) ∧
    ((corner = Corner.se ∨ corner = Corner.sw) →
      (Rounded.resizeMove round64 c (Rounded.resizeStart round64 c t corner sx sy)
            (Rounded.resizeGesture round64 c
              (Rounded.resizeStart round64 c t corner sx sy) t earlier)
            px py).positionTop c = t.positionTop c) := by
  obtain ⟨a1, a2, a3, a4, a5⟩ := rounded_resize_ratio_height round64 c t corner
    sx sy px py ratio earlier hr (le_trans hh1 hh2)
  refine ⟨⟨a1, a2⟩, a3, ?_, a4, a5⟩
  rw [rounded_resizeMove_ratio round64 c _ _ px py ratio hr]
  generalize hs : Rounded.resizeStart round64 c t corner sx sy = s at hw2 hh2 ⊢
  have hH : s.preHeight = t.height := by rw [← hs]; rfl
  have hmaxW := le_trans hw1 hw2
  have hmaxH := le_trans hh1 hh2
  generalize hMW : (if s.isWest then round64 (c.imageWidth - s.preRight)
    else round64 (c.imageWidth - s.preLeft)) = maxW at *
  generalize hMH : (if s.isNorth then round64 (c.imageHeight - s.preBottom)
    else round64 (c.imageHeight - s.preTop)) = maxH at *
  generalize hcand : (if s.isWest then round64 (s.preWidth - round64 (px - s.preClientX))
    else round64 (px - s.preOffsetWidth)) = cand
  have hww : (Rounded.resizeMoveRatio round64 c s ratio px).width
      = round64 (max (Rounded.imageMinHeight round64 c)
          (min (round64 ((max (Rounded.imageMinWidth round64 c) (min cand maxW)) / ratio))
            maxH) * ratio) := by
    simp only [Rounded.resizeMoveRatio, hMW, hMH, hcand]
    rw [clampUp_eq_max_min hmaxW, clampUp_eq_max_min hmaxH]
  rw [hww]
  exact ratio_height_pass_rounded hpos h0w h0h (le_max_left _ _)
    (max_le hmaxW (min_le_right _ _)) (by rw [← hon]; exact hw1) (by rw [← hon]; exact hw2)
    hh1 hh2

/-- C10 (instance): in double precision, for the 1000×500 image with the ratio
written `7/3` and the 70×30 tracker at `x = 881`, which lies on the ratio as
computed and inside the ranges, south-east corner grabbed at `(951, 30)` and
moved to `(2000, 30)`: the resulting height 51 is not above `maxHeight`, the
resulting width `119.00000000000001` is not above `119 × (1 + 2⁻⁵³)²`, and the
tracker stays at `x = 881`. -/
theorem resize_ratio_bounds_rounded_witness :
    thirdsTracker.width = round64 (thirdsTracker.height * round64 (7 / 3)) ∧
    (Rounded.resizeMove round64 thirdsImage
        (Rounded.resizeStart round64 thirdsImage thirdsTracker Corner.se 951 30)
        (Rounded.resizeGesture round64 thirdsImage
          (Rounded.resizeStart round64 thirdsImage thirdsTracker Corner.se 951 30)
          thirdsTracker []) 2000 30).height
      ≤ (if (Rounded.resizeStart round64 thirdsImage thirdsTracker Corner.se 951 30).isNorth
          then round64 (thirdsImage.imageHeight
            - (Rounded.resizeStart round64 thirdsImage thirdsTracker Corner.se 951 30).preBottom)
          else round64 (thirdsImage.imageHeight
            - (Rounded.resizeStart round64 thirdsImage thirdsTracker Corner.se 951 30).preTop)) ∧
    (Rounded.resizeMove round64 thirdsImage
        (Rounded.resizeStart round64 thirdsImage thirdsTracker Corner.se 951 30)
        (Rounded.resizeGesture round64 thirdsImage
          (Rounded.resizeStart round64 thirdsImage thirdsTracker Corner.se 951 30)
          thirdsTracker []) 2000 30).width
      ≤ (if (Rounded.resizeStart round64 thirdsImage thirdsTracker Corner.se 951 30).isWest
          then round64 (thirdsImage.imageWidth
            - (Rounded.resizeStart round64 thirdsImage thirdsTracker Corner.se 951 30).preRight)
          else round64 (thirdsImage.imageWidth
            - (Rounded.resizeStart round64 thirdsImage thirdsTracker Corner.se 951 30).preLeft))
        * (1 + 1 / 2 ^ 53) ^ 2 ∧
    (Rounded.resizeMove round64 thirdsImage
        (Rounded.resizeStart round64 thirdsImage thirdsTracker Corner.se 951 30)
        (Rounded.resizeGesture round64 thirdsImage
          (Rounded.resizeStart round64 thirdsImage thirdsTracker Corner.se 951 30)
          thirdsTracker []) 2000 30).positionLeft thirdsImage = 881 :=
  have h := resize_ratio_bounds_rounded thirdsImage thirdsTracker Corner.se
    951 30 2000 30 (round64 (7 / 3)) [] (by decide!) (by decide!) (by decide!)
    (by decide!) (by decide!) (by decide!) (by decide!) (by decide!) (by decide!)
  ⟨by decide!, h.1.2, h.2.2.1.2, (h.2.2.2.1 (Or.inr rfl)).trans (by decide!)⟩

/-! ## Initial placement from supplied coordinates, in double precision -/

/-- A whole quotient survives the rounding of the scale and of the division:
for `a / s` whole and up to `2 ^ 50`, dividing `a` by the rounded `s`, rounding,
and taking `Math.round` gives `a / s`. -/
theorem jsRound_round64_div {a s : ℚ} (ha : 0 ≤ a) (hs : 0 < s)
    (hw : isWhole (a / s) = true) (hb : a / s ≤ 2 ^ 50) :
    jsRound (round64 (a / round64 s)) = a / s := by
  obtain ⟨n, hn⟩ := isWhole_iff.mp hw
  have hs1 := round64_le_mul (le_of_lt hs)
  have hs2 := mul_le_round64 (le_of_lt hs)
  have hs' := round64_pos hs
  have hq0 : 0 ≤ a / round64 s := div_nonneg ha (le_of_lt hs')
  have hq1 := round64_le_mul hq0
  have hq2 := mul_le_round64 hq0
  have hn0 : (0 : ℚ) ≤ n := by rw [← hn]; exact div_nonneg ha (le_of_lt hs)
  have han : a = n * s := by rw [← hn]; field_simp
  -- the quotient by the rounded scale is near `n`
  have hqu : a / round64 s ≤ n * (1 + 1 / (2 ^ 53 - 1)) := by
    rw [div_le_iff₀ hs', han]
    have : n * s ≤ n * (1 + 1 / (2 ^ 53 - 1)) * (s * (1 - 1 / 2 ^ 53)) := by
      have e : n * (1 + 1 / (2 ^ 53 - 1)) * (s * (1 - 1 / 2 ^ 53)) = n * s := by
        norm_num
        ring
      rw [e]
    exact le_trans this (mul_le_mul_of_nonneg_left hs2 (by positivity))
  have hql : n * (1 - 1 / 2 ^ 53) ≤ a / round64 s := by
    rw [le_div_iff₀ hs', han]
    have h1 : n * (1 - 1 / 2 ^ 53) * round64 s
        ≤ n * (1 - 1 / 2 ^ 53) * (s * (1 + 1 / 2 ^ 53)) :=
      mul_le_mul_of_nonneg_left hs1 (mul_nonneg hn0 (by norm_num))
    have h2 : n * (1 - 1 / 2 ^ 53) * (s * (1 + 1 / 2 ^ 53)) ≤ n * s := by
      have : n * (1 - 1 / 2 ^ 53) * (s * (1 + 1 / 2 ^ 53))
          = n * s * (1 - 1 / 2 ^ 106) := by
        norm_num
        ring
      rw [this]
      have hns : 0 ≤ (n : ℚ) * s := mul_nonneg hn0 (le_of_lt hs)
      nlinarith
    exact le_trans h1 h2
  have hnb : (n : ℚ) ≤ 2 ^ 50 := by rw [← hn]; exact hb
  have hup : round64 (a / round64 s) < n + 1 / 2 := by
    have : round64 (a / round64 s)
        ≤ n * (1 + 1 / (2 ^ 53 - 1)) * (1 + 1 / 2 ^ 53) :=
      le_trans hq1 (mul_le_mul_of_nonneg_right hqu (by norm_num))
    have e : (n : ℚ) * (1 + 1 / (2 ^ 53 - 1)) * (1 + 1 / 2 ^ 53)
        = n + n * (2 / (2 ^ 53 - 1)) := by
      norm_num
      ring
    rw [e] at this
    have : (n : ℚ) * (2 / (2 ^ 53 - 1)) < 1 / 2 := by
      have h1 : (n : ℚ) * (2 / (2 ^ 53 - 1)) ≤ 2 ^ 50 * (2 / (2 ^ 53 - 1)) :=
        mul_le_mul_of_nonneg_right hnb (by norm_num)
      have h2 : (2 : ℚ) ^ 50 * (2 / (2 ^ 53 - 1)) < 1 / 2 := by norm_num
      linarith
    linarith
  have hlo : (n : ℚ) - 1 / 2 < round64 (a / round64 s) := by
    have : n * (1 - 1 / 2 ^ 53) * (1 - 1 / 2 ^ 53) ≤ round64 (a / round64 s) :=
      le_trans (mul_le_mul_of_nonneg_right hql (by norm_num)) hq2
    have e : (n : ℚ) * (1 - 1 / 2 ^ 53) * (1 - 1 / 2 ^ 53)
        = n - n * (2 / 2 ^ 53 - 1 / 2 ^ 106) := by
      ring
    rw [e] at this
    have : (n : ℚ) * (2 / 2 ^ 53 - 1 / 2 ^ 106) < 1 / 2 := by
      have h1 : (n : ℚ) * (2 / 2 ^ 53 - 1 / 2 ^ 106) ≤ 2 ^ 50 * (2 / 2 ^ 53 - 1 / 2 ^ 106) :=
        mul_le_mul_of_nonneg_right hnb (by norm_num)
      have h2 : (2 : ℚ) ^ 50 * (2 / 2 ^ 53 - 1 / 2 ^ 106) < 1 / 2 := by norm_num
      linarith
    linarith
  rw [hn]
  unfold jsRound
  have : ⌊round64 (a / round64 s) + 1 / 2⌋ = n := by
    rw [Int.floor_eq_iff]
    constructor <;> linarith
  rw [this]

/-- In double precision the display minimum is not kept even by supplied
coordinates that divide exactly: for the 700×700 image rendered at 450×450 with
minimum crop 350×350, the supplied `{0, 0, 350, 350}` lie inside the image, are
not below the minimum and divide to the whole 225, which is the tracker's
width; but `_createElements` computes `Math.ceil(450 / 700 * 350)` as 226. -/
theorem initial_coordinates_minimum_rounding :
    scaledMinimumStart.initialCoordinates
      = some { left := 0, top := 0, width := 350, height := 350 } ∧
    (350 : ℚ) / (scaledMinimumStart.fullWidth / scaledMinimumStart.imageWidth) = 225 ∧
    scaledMinimumStart.minWidth ≤ 350 ∧
    (Rounded._initiallyPositionTracker round64 scaledMinimumStart).width = 225 ∧
    Rounded.imageMinWidth round64 scaledMinimumStart = 226 ∧
    scaledMinimumStart.imageMinWidth = 225 ∧
    ¬ Rounded.Invariant round64 scaledMinimumStart
        (Rounded._initiallyPositionTracker round64 scaledMinimumStart) := by
  decide!

/-- C12 (amended): in the program's double precision, when initial coordinates
are supplied the initial tracker is their display-space conversion, each value
divided by its computed scale and rounded to the nearest whole number, with no
clamping; if the supplied values are not negative, the rectangle lies inside
the original image, each value divided by its scale is whole, and the rendered
size is at most `2 ^ 50`, the tracker is exactly these quotients and satisfies
`x ≥ 0`, `y ≥ 0`, `x + width ≤ renderedWidth`, `y + height ≤ renderedHeight`. -/
theorem initial_coordinates_placement (c : CropTool) (ic : Coords)
    (hic : c.initialCoordinates = some ic)
    (hfw : 0 < c.fullWidth) (hfh : 0 < c.fullHeight)
    (hiw : 0 < c.imageWidth) (hih : 0 < c.imageHeight)
    (hl : 0 ≤ ic.left) (ht : 0 ≤ ic.top) (hw : 0 ≤ ic.width) (hh : 0 ≤ ic.height)
    (hlw : ic.left + ic.width ≤ c.fullWidth) (hth : ic.top + ic.height ≤ c.fullHeight)
    (wl : isWhole (ic.left / (c.fullWidth / c.imageWidth)) = true)
    (wt : isWhole (ic.top / (c.fullHeight / c.imageHeight)) = true)
    (ww : isWhole (ic.width / (c.fullWidth / c.imageWidth)) = true)
    (wh : isWhole (ic.height / (c.fullHeight / c.imageHeight)) = true)
    (bw : c.imageWidth ≤ 2 ^ 50) (bh : c.imageHeight ≤ 2 ^ 50) :
    Rounded._initiallyPositionTracker round64 c
        = { top := some (jsRound (round64 (ic.top / round64 (c.fullHeight / c.imageHeight)))),
            right := none, bottom := none,
            left := some (jsRound (round64 (ic.left / round64 (c.fullWidth / c.imageWidth)))),
            width := jsRound (round64 (ic.width / round64 (c.fullWidth / c.imageWidth))),
            height := jsRound (round64 (ic.height / round64 (c.fullHeight / c.imageHeight))) } ∧
    Rounded._initiallyPositionTracker round64 c
        = { top := some (ic.top / (c.fullHeight / c.imageHeight)),
            right := none, bottom := none,
            left := some (ic.left / (c.fullWidth / c.imageWidth)),
            width := ic.width / (c.fullWidth / c.imageWidth),
            height := ic.height / (c.fullHeight / c.imageHeight) } ∧
    0 ≤ (Rounded._initiallyPositionTracker round64 c).positionLeft c ∧
    0 ≤ (Rounded._initiallyPositionTracker round64 c).positionTop c ∧
    (Rounded._initiallyPositionTracker round64 c).positionLeft c
        + (Rounded._initiallyPositionTracker round64 c).width ≤ c.imageWidth ∧
    (Rounded._initiallyPositionTracker round64 c).positionTop c
        + (Rounded._initiallyPositionTracker round64 c).height ≤ c.imageHeight := by
  have hws : 0 < c.fullWidth / c.imageWidth := div_pos hfw hiw
  have hhs : 0 < c.fullHeight / c.imageHeight := div_pos hfh hih
  have ew : c.fullWidth / (c.fullWidth / c.imageWidth) = c.imageWidth := by field_simp
  have eh : c.fullHeight / (c.fullHeight / c.imageHeight) = c.imageHeight := by field_simp
  have hxw := div_le_div_of_nonneg_right hlw (le_of_lt hws)
  have hyh := div_le_div_of_nonneg_right hth (le_of_lt hhs)
  rw [ew, add_div] at hxw
  rw [eh, add_div] at hyh
  have qx := div_nonneg hl (le_of_lt hws)
  have qy := div_nonneg ht (le_of_lt hhs)
  have qw := div_nonneg hw (le_of_lt hws)
  have qh := div_nonneg hh (le_of_lt hhs)
  have hinit : Rounded._initiallyPositionTracker round64 c
        = { top := some (jsRound (round64 (ic.top / round64 (c.fullHeight / c.imageHeight)))),
            right := none, bottom := none,
            left := some (jsRound (round64 (ic.left / round64 (c.fullWidth / c.imageWidth)))),
            width := jsRound (round64 (ic.width / round64 (c.fullWidth / c.imageWidth))),
            height := jsRound (round64 (ic.height / round64 (c.fullHeight / c.imageHeight))) } := by
    simp only [Rounded._initiallyPositionTracker, hic]
  refine ⟨hinit, ?_⟩
  rw [hinit, jsRound_round64_div hl hws wl (by linarith),
    jsRound_round64_div ht hhs wt (by linarith),
    jsRound_round64_div hw hws ww (by linarith),
    jsRound_round64_div hh hhs wh (by linarith)]
  simp only [Tracker.positionLeft, Tracker.positionTop]
  exact ⟨trivial, qx, qy, hxw, hyh⟩

/-- C12 (instance): for the 700×700 image rendered at 450×450 the supplied
`{0, 0, 350, 350}` give the tracker `x = 0, y = 0`, 225×225, inside the
rendered image. -/
theorem initial_coordinates_placement_witness :
    Rounded._initiallyPositionTracker round64 scaledMinimumStart
        = { top := some 0, right := none, bottom := none, left := some 0,
            width := 225, height := 225 } ∧
    (Rounded._initiallyPositionTracker round64 scaledMinimumStart).positionLeft
        scaledMinimumStart
      + (Rounded._initiallyPositionTracker round64 scaledMinimumStart).width
      ≤ scaledMinimumStart.imageWidth :=
  have h := initial_coordinates_placement scaledMinimumStart
    { left := 0, top := 0, width := 350, height := 350 } rfl
    (by decide!) (by decide!) (by decide!) (by decide!) (by decide!) (by decide!)
    (by decide!) (by decide!) (by decide!) (by decide!) (by decide!) (by decide!)
    (by decide!) (by decide!) (by decide!) (by decide!)
  ⟨h.2.1.trans (by decide!), h.2.2.2.2.1⟩

/-! ## Initial placement on a ratio, in double precision -/

/-- C13 (as stated, refuted): in the program's double precision, for the image
rendered at 102×100 with the ratio written `7/3` the initial tracker is 102 wide
and `43.71428571428571` high, and the product of the ratio and the height is
`101.99999999999999`, not the width; and for the 260×255 image whose ratio is its
own proportions, written `260/255`, the height is `255.00000000000003`, above the
rendered height, and `y` is negative. -/
theorem initial_ratio_placement_counterexample :
    (truthy thirdsPlacement.ratio = some (round64 (7 / 3)) ∧
      (Rounded._initiallyPositionTracker round64 thirdsPlacement).width = 102 ∧
      (Rounded._initiallyPositionTracker round64 thirdsPlacement).height
        = 3076119388337883 / 70368744177664 ∧
      round64 (round64 (7 / 3)
          * (Rounded._initiallyPositionTracker round64 thirdsPlacement).height)
        = 7177611906121727 / 70368744177664 ∧
      (Rounded._initiallyPositionTracker round64 thirdsPlacement).width
        ≠ round64 (7 / 3)
          * (Rounded._initiallyPositionTracker round64 thirdsPlacement).height ∧
      (Rounded._initiallyPositionTracker round64 thirdsPlacement).width
        ≠ round64 (round64 (7 / 3)
          * (Rounded._initiallyPositionTracker round64 thirdsPlacement).height)) ∧
    (truthy ownRatioImage.ratio = some (round64 (260 / 255)) ∧
      (Rounded._initiallyPositionTracker round64 ownRatioImage).height
        = 8972014882652161 / 35184372088832 ∧
      (Rounded._initiallyPositionTracker round64 ownRatioImage).height
        > ownRatioImage.imageHeight ∧
      (Rounded._initiallyPositionTracker round64 ownRatioImage).positionTop ownRatioImage
        < 0) := by
  decide!

/-- C13 (amended): in the program's double precision, for positive rendered
sizes and a ratio `r > 0` (the rendered width and the ratio being
double-precision numbers) with no initial coordinates, writing `⟦e⟧` for the
rounded result of an operation: if `⟦W / H⟧ > r` the initial tracker is
`(x = ⟦⟦W − ⟦H × r⟧⟧ / 2⟧, y = 0, width = ⟦H × r⟧, height = H)`, with
`width = ⟦height × r⟧`, `x ≥ 0`, `x + width ≤ W` and `y + height = H`; otherwise
it is `(x = 0, y = ⟦⟦H − ⟦W / r⟧⟧ / 2⟧, width = W, height = ⟦W / r⟧)`, with
`height = ⟦width / r⟧`, `height > 0` and `x + width = W`. -/
theorem initial_ratio_placement_rounded (c : CropTool) (ratio : ℚ)
    (hiw : 0 < c.imageWidth) (hih : 0 < c.imageHeight)
    (hr : truthy c.ratio = some ratio) (hpos : 0 < ratio)
    (hic : c.initialCoordinates = none)
    (dw : round64 c.imageWidth = c.imageWidth) (dr : round64 ratio = ratio) :
    (round64 (c.imageWidth / c.imageHeight) > ratio →
      Rounded._initiallyPositionTracker round64 c
        = { top := some 0, right := none, bottom := none,
            left := some (round64
              (round64 (c.imageWidth - round64 (c.imageHeight * ratio)) / 2)),
            width := round64 (c.imageHeight * ratio), height := c.imageHeight } ∧
      (Rounded._initiallyPositionTracker round64 c).width
        = round64 ((Rounded._initiallyPositionTracker round64 c).height * ratio) ∧
      0 ≤ (Rounded._initiallyPositionTracker round64 c).positionLeft c ∧
      (Rounded._initiallyPositionTracker round64 c).positionLeft c
        + (Rounded._initiallyPositionTracker round64 c).width ≤ c.imageWidth ∧
      (Rounded._initiallyPositionTracker round64 c).positionTop c
        + (Rounded._initiallyPositionTracker round64 c).height = c.imageHeight) ∧
    (¬ round64 (c.imageWidth / c.imageHeight) > ratio →
      Rounded._initiallyPositionTracker round64 c
        = { top := some (round64
              (round64 (c.imageHeight - round64 (c.imageWidth / ratio)) / 2)),
            right := none, bottom := none, left := some 0,
            width := c.imageWidth, height := round64 (c.imageWidth / ratio) } ∧
      (Rounded._initiallyPositionTracker round64 c).height
        = round64 ((Rounded._initiallyPositionTracker round64 c).width / ratio) ∧
      0 < (Rounded._initiallyPositionTracker round64 c).height ∧
      (Rounded._initiallyPositionTracker round64 c).positionLeft c
        + (Rounded._initiallyPositionTracker round64 c).width = c.imageWidth) := by
  constructor
  · intro h
    have e : Rounded._initiallyPositionTracker round64 c
        = { top := some 0, right := none, bottom := none,
            left := some (round64
              (round64 (c.imageWidth - round64 (c.imageHeight * ratio)) / 2)),
            width := round64 (c.imageHeight * ratio), height := c.imageHeight } := by
      simp only [Rounded._initiallyPositionTracker, hic, hr]
      rw [if_pos h]
    refine ⟨e, ?_⟩
    rw [e]
    simp only [Tracker.positionLeft, Tracker.positionTop]
    -- the exact product is not above the rendered width
    have hprod : c.imageHeight * ratio ≤ c.imageWidth := by
      by_contra hc
      have h1 : c.imageWidth / c.imageHeight ≤ ratio := by
        rw [div_le_iff₀ hih]
        linarith [not_le.mp hc]
      have h2 := round64_mono (div_nonneg (le_of_lt hiw) (le_of_lt hih)) h1
      rw [dr] at h2
      exact absurd h (not_lt.mpr h2)
    have hwidth : round64 (c.imageHeight * ratio) ≤ c.imageWidth := by
      have := round64_mono (mul_nonneg (le_of_lt hih) (le_of_lt hpos)) hprod
      rw [dw] at this
      exact this
    have hd : 0 ≤ c.imageWidth - round64 (c.imageHeight * ratio) := by linarith
    have h1 := round64_nonneg hd
    have h2 := round64_le_mul hd
    have hg : 0 ≤ round64 (c.imageWidth - round64 (c.imageHeight * ratio)) / 2 := by
      linarith
    have h3 := round64_le_mul hg
    refine ⟨trivial, round64_nonneg hg, ?_, by ring⟩
    have : round64 (round64 (c.imageWidth - round64 (c.imageHeight * ratio)) / 2)
        ≤ c.imageWidth - round64 (c.imageHeight * ratio) := by
      generalize c.imageWidth - round64 (c.imageHeight * ratio) = d at *
      generalize round64 d = rd at *
      generalize round64 (rd / 2) = x at *
      have e1 : rd / 2 * (1 + 1 / 2 ^ 53) ≤ d * (1 + 1 / 2 ^ 53) / 2 * (1 + 1 / 2 ^ 53) := by
        apply mul_le_mul_of_nonneg_right _ (by norm_num)
        linarith
      have e2 : d * (1 + 1 / 2 ^ 53) / 2 * (1 + 1 / 2 ^ 53) ≤ d := by
        have : d * (1 + 1 / 2 ^ 53) / 2 * (1 + 1 / 2 ^ 53)
            = d * ((1 + 1 / 2 ^ 53) * (1 + 1 / 2 ^ 53) / 2) := by ring
        rw [this]
        have hc : ((1 : ℚ) + 1 / 2 ^ 53) * (1 + 1 / 2 ^ 53) / 2 ≤ 1 := by norm_num
        calc d * ((1 + 1 / 2 ^ 53) * (1 + 1 / 2 ^ 53) / 2) ≤ d * 1 :=
              mul_le_mul_of_nonneg_left hc hd
          _ = d := mul_one d
      linarith
    linarith
  · intro h
    have e : Rounded._initiallyPositionTracker round64 c
        = { top := some (round64
              (round64 (c.imageHeight - round64 (c.imageWidth / ratio)) / 2)),
            right := none, bottom := none, left := some 0,
            width := c.imageWidth, height := round64 (c.imageWidth / ratio) } := by
      simp only [Rounded._initiallyPositionTracker, hic, hr]
      rw [if_neg h]
    refine ⟨e, ?_⟩
    rw [e]
    simp only [Tracker.positionLeft]
    exact ⟨trivial, round64_pos (div_pos hiw hpos), by ring⟩

/-- C13 (instance): in double precision the 2000×1000 image rendered at
1000×500 with ratio 1 starts with the 500×500 tracker at `x = 250, y = 0`. -/
theorem initial_ratio_placement_rounded_witness :
    round64 ((scenario (some 1)).imageWidth / (scenario (some 1)).imageHeight) > 1 ∧
    Rounded._initiallyPositionTracker round64 (scenario (some 1))
      = { top := some 0, right := none, bottom := none, left := some 250,
          width := 500, height := 500 } ∧
    (Rounded._initiallyPositionTracker round64 (scenario (some 1))).positionLeft
        (scenario (some 1))
      + (Rounded._initiallyPositionTracker round64 (scenario (some 1))).width
      ≤ (scenario (some 1)).imageWidth :=
  have h := (initial_ratio_placement_rounded (scenario (some 1)) 1 (by decide!) (by decide!)
    (by decide!) (by decide!) (by decide!) (by decide!) (by decide!)).1 (by decide!)
  ⟨by decide!, h.1.trans (by decide!), h.2.2.2.1⟩

/-! ## Round trip of supplied coordinates, in double precision -/

theorem round64_of_whole {x : ℚ} (hw : isWhole x = true) (h0 : 0 ≤ x) (hb : x ≤ 2 ^ 53) :
    round64 x = x := by
  obtain ⟨n, rfl⟩ := isWhole_iff.mp hw
  apply round64_intCast
  have h1 : (0 : ℤ) ≤ n := by exact_mod_cast h0
  have h2 : n ≤ 2 ^ 53 := by exact_mod_cast hb
  rw [abs_of_nonneg h1]
  exact h2

theorem isWhole_add {x y : ℚ} (hx : isWhole x = true) (hy : isWhole y = true) :
    isWhole (x + y) = true := by
  obtain ⟨a, rfl⟩ := isWhole_iff.mp hx
  obtain ⟨b, rfl⟩ := isWhole_iff.mp hy
  exact isWhole_iff.mpr ⟨a + b, by push_cast; rfl⟩

/-- One axis of the export in double precision, for a tracker whose scaled
size and offset are whole and lie inside the original image, the size not
below the minimum: the export is the scaled size and offset. -/
theorem rounded_exportAxis_of_whole (size offset scale lo full : ℚ)
    (hs : isWhole (size * scale) = true) (ho : isWhole (offset * scale) = true)
    (hlo : lo ≤ size * scale) (hs0 : 0 ≤ size * scale) (h0 : 0 ≤ offset * scale)
    (hb : offset * scale + size * scale ≤ full) (hfull : full ≤ 2 ^ 53) :
    Rounded.exportSize round64 size scale lo full = size * scale ∧
      Rounded.exportOffset round64 size offset scale lo full = offset * scale := by
  have e1 : round64 (size * scale) = size * scale :=
    round64_of_whole hs hs0 (by linarith)
  have e2 : round64 (offset * scale) = offset * scale :=
    round64_of_whole ho h0 (by linarith)
  have e3 : round64 (size * scale + offset * scale) = size * scale + offset * scale :=
    round64_of_whole (isWhole_add hs ho) (by linarith) (by linarith)
  constructor
  · simp only [Rounded.exportSize]
    rw [e1, jsCeil_of_whole hs]
    split_ifs <;> linarith
  · simp only [Rounded.exportOffset]
    rw [e1, e2, jsCeil_of_whole hs, jsRound_of_whole ho]
    rw [if_neg (not_lt.mpr hlo)]
    split_ifs with h1 h2
    · linarith
    · rw [e3] at h2
      have : full - size * scale = offset * scale := by linarith
      rw [this, e2]
    · rfl

/-- C24 (as stated, refuted): in the program's double precision, for the
700×700 image rendered at 300×300 with no ratio, the supplied whole
`{left: 0, top: 0, width: 252, height: 252}` lie inside the image, are not
below the minimum 250 and divide by the scale `700/300` to the whole 108; the
tracker is 108×108, but `108 * (700 / 300)` is computed as
`252.00000000000003` and `getCoords` returns width and height 253. -/
theorem initial_coordinates_roundtrip_counterexample :
    inexactScaleStart.initialCoordinates
      = some { left := 0, top := 0, width := 252, height := 252 } ∧
    truthy inexactScaleStart.ratio = none ∧
    (252 : ℚ) / (inexactScaleStart.fullWidth / inexactScaleStart.imageWidth) = 108 ∧
    (252 : ℚ) / (inexactScaleStart.fullHeight / inexactScaleStart.imageHeight) = 108 ∧
    inexactScaleStart.minWidth ≤ 252 ∧ inexactScaleStart.minHeight ≤ 252 ∧
    Rounded._initiallyPositionTracker round64 inexactScaleStart
      = { top := some 0, right := none, bottom := none, left := some 0,
          width := 108, height := 108 } ∧
    round64 (108 * round64 (inexactScaleStart.fullWidth / inexactScaleStart.imageWidth))
      = 8866461766385665 / 35184372088832 ∧
    Rounded.getCoords round64 inexactScaleStart
        (Rounded._initiallyPositionTracker round64 inexactScaleStart)
      = { left := 0, top := 0, width := 253, height := 253 } := by
  decide!

/-- C24 (amended): in the program's double precision, with no ratio, positive
sizes up to `2 ^ 53`, minimums that are not negative, and scales
`originalWidth / renderedWidth` and `originalHeight / renderedHeight` that are
double-precision numbers themselves (whole, or a multiple of a power of two such
as 2.5), if the supplied whole `{left, top, width, height}` satisfy `left ≥ 0`,
`top ≥ 0`, `left + width ≤ originalWidth`, `top + height ≤ originalHeight`,
`width ≥ minOriginalWidth`, `height ≥ minOriginalHeight`, and each value divided
by its scale is whole, then `getCoords` called before any gesture returns
exactly the supplied coordinates. -/
theorem initial_coordinates_roundtrip_rounded (c : CropTool) (ic : Coords)
    (hic : c.initialCoordinates = some ic) (hr : truthy c.ratio = none)
    (hfw : 0 < c.fullWidth) (hfh : 0 < c.fullHeight)
    (hiw : 0 < c.imageWidth) (hih : 0 < c.imageHeight)
    (bfw : c.fullWidth ≤ 2 ^ 53) (bfh : c.fullHeight ≤ 2 ^ 53)
    (biw : c.imageWidth ≤ 2 ^ 53) (bih : c.imageHeight ≤ 2 ^ 53)
    (h0w : 0 ≤ c.minWidth) (h0h : 0 ≤ c.minHeight)
    (sw : round64 (c.fullWidth / c.imageWidth) = c.fullWidth / c.imageWidth)
    (sh : round64 (c.fullHeight / c.imageHeight) = c.fullHeight / c.imageHeight)
    (hl : 0 ≤ ic.left) (ht : 0 ≤ ic.top)
    (hlw : ic.left + ic.width ≤ c.fullWidth) (hth : ic.top + ic.height ≤ c.fullHeight)
    (hmw : c.minWidth ≤ ic.width) (hmh : c.minHeight ≤ ic.height)
    (il : isWhole ic.left = true) (it : isWhole ic.top = true)
    (iw : isWhole ic.width = true) (ih : isWhole ic.height = true)
    (wl : isWhole (ic.left / (c.fullWidth / c.imageWidth)) = true)
    (wt : isWhole (ic.top / (c.fullHeight / c.imageHeight)) = true)
    (ww : isWhole (ic.width / (c.fullWidth / c.imageWidth)) = true)
    (wh : isWhole (ic.height / (c.fullHeight / c.imageHeight)) = true) :
    Rounded.getCoords round64 c (Rounded._initiallyPositionTracker round64 c) = ic := by
  have hws0 : 0 < c.fullWidth / c.imageWidth := div_pos hfw hiw
  have hhs0 : 0 < c.fullHeight / c.imageHeight := div_pos hfh hih
  have hws : c.fullWidth / c.imageWidth ≠ 0 := ne_of_gt hws0
  have hhs : c.fullHeight / c.imageHeight ≠ 0 := ne_of_gt hhs0
  have hw0 : 0 ≤ ic.width := le_trans h0w hmw
  have hh0 : 0 ≤ ic.height := le_trans h0h hmh
  have ew' : c.fullWidth / (c.fullWidth / c.imageWidth) = c.imageWidth := by field_simp
  have eh' : c.fullHeight / (c.fullHeight / c.imageHeight) = c.imageHeight := by field_simp
  have el : ic.left / (c.fullWidth / c.imageWidth) * (c.fullWidth / c.imageWidth)
      = ic.left := div_mul_cancel₀ _ hws
  have ew : ic.width / (c.fullWidth / c.imageWidth) * (c.fullWidth / c.imageWidth)
      = ic.width := div_mul_cancel₀ _ hws
  have et : ic.top / (c.fullHeight / c.imageHeight) * (c.fullHeight / c.imageHeight)
      = ic.top := div_mul_cancel₀ _ hhs
  have eh : ic.height / (c.fullHeight / c.imageHeight) * (c.fullHeight / c.imageHeight)
      = ic.height := div_mul_cancel₀ _ hhs
  -- the quotients are computed exactly
  have ql : round64 (ic.left / (c.fullWidth / c.imageWidth))
      = ic.left / (c.fullWidth / c.imageWidth) := by
    apply round64_of_whole wl (div_nonneg hl (le_of_lt hws0))
    have := div_le_div_of_nonneg_right (show ic.left ≤ c.fullWidth by linarith)
      (le_of_lt hws0)
    rw [ew'] at this
    linarith
  have qw : round64 (ic.width / (c.fullWidth / c.imageWidth))
      = ic.width / (c.fullWidth / c.imageWidth) := by
    apply round64_of_whole ww (div_nonneg hw0 (le_of_lt hws0))
    have := div_le_div_of_nonneg_right (show ic.width ≤ c.fullWidth by linarith)
      (le_of_lt hws0)
    rw [ew'] at this
    linarith
  have qt : round64 (ic.top / (c.fullHeight / c.imageHeight))
      = ic.top / (c.fullHeight / c.imageHeight) := by
    apply round64_of_whole wt (div_nonneg ht (le_of_lt hhs0))
    have := div_le_div_of_nonneg_right (show ic.top ≤ c.fullHeight by linarith)
      (le_of_lt hhs0)
    rw [eh'] at this
    linarith
  have qh : round64 (ic.height / (c.fullHeight / c.imageHeight))
      = ic.height / (c.fullHeight / c.imageHeight) := by
    apply round64_of_whole wh (div_nonneg hh0 (le_of_lt hhs0))
    have := div_le_div_of_nonneg_right (show ic.height ≤ c.fullHeight by linarith)
      (le_of_lt hhs0)
    rw [eh'] at this
    linarith
  obtain ⟨hW, hL⟩ := rounded_exportAxis_of_whole (ic.width / (c.fullWidth / c.imageWidth))
    (ic.left / (c.fullWidth / c.imageWidth)) (c.fullWidth / c.imageWidth)
    c.minWidth c.fullWidth
    (by rw [ew]; exact iw) (by rw [el]; exact il) (by rw [ew]; exact hmw)
    (by rw [ew]; exact hw0) (by rw [el]; exact hl) (by rw [el, ew]; exact hlw) bfw
  obtain ⟨hH, hT⟩ := rounded_exportAxis_of_whole (ic.height / (c.fullHeight / c.imageHeight))
    (ic.top / (c.fullHeight / c.imageHeight)) (c.fullHeight / c.imageHeight)
    c.minHeight c.fullHeight
    (by rw [eh]; exact ih) (by rw [et]; exact it) (by rw [eh]; exact hmh)
    (by rw [eh]; exact hh0) (by rw [et]; exact ht) (by rw [et, eh]; exact hth) bfh
  rw [ew] at hW
  rw [el] at hL
  rw [eh] at hH
  rw [et] at hT
  simp only [Rounded.getCoords, hr, Rounded._initiallyPositionTracker, hic,
    Tracker.positionLeft, Tracker.positionTop, sw, sh, ql, qw, qt, qh,
    jsRound_of_whole wl, jsRound_of_whole wt, jsRound_of_whole ww,
    jsRound_of_whole wh, hW, hL, hH, hT]

/-- C24 (instance): in double precision, for the 2000×1000 image rendered at
1000×500 (both scales are 2) the supplied
`{left: 600, top: 100, width: 800, height: 400}` come back from `getCoords`
before any gesture. -/
theorem initial_coordinates_roundtrip_rounded_witness :
    round64 (exactStart.fullWidth / exactStart.imageWidth)
      = exactStart.fullWidth / exactStart.imageWidth ∧
    Rounded.getCoords round64 exactStart (Rounded._initiallyPositionTracker round64 exactStart)
      = { left := 600, top := 100, width := 800, height := 400 } :=
  ⟨by decide!,
   initial_coordinates_roundtrip_rounded exactStart
    { left := 600, top := 100, width := 800, height := 400 } rfl
    (by decide!) (by decide!) (by decide!) (by decide!) (by decide!) (by decide!)
    (by decide!) (by decide!) (by decide!) (by decide!) (by decide!) (by decide!)
    (by decide!) (by decide!) (by decide!) (by decide!) (by decide!) (by decide!)
    (by decide!) (by decide!) (by decide!) (by decide!) (by decide!) (by decide!)
    (by decide!) (by decide!) (by decide!)⟩

/-! ## The ratio loop in double precision -/

/-- C22 (as stated, refuted): in the program's double precision, for the
1000×1000 image rendered at its own size with the ratio written `7/3` (`q = 3`)
and the 250×250 tracker in the corner, the loop adopts the width 581 and the
height `581 / (7/3)`, computed as `248.99999999999997`: the returned width and
height do not satisfy `width × 3 = height × 7`.  With the ratio written `3/11`
(`p = 3`) the export is 246×246. -/
theorem getCoords_ratio_rounding_counterexample :
    (truthy thirdsExport.ratio = some (round64 (7 / 3)) ∧
      Rounded.getCoords round64 thirdsExport cornerTracker
        = { left := 0, top := 0, width := 581,
            height := 8760908650119167 / 35184372088832 } ∧
      (Rounded.getCoords round64 thirdsExport cornerTracker).width * 3
        ≠ (Rounded.getCoords round64 thirdsExport cornerTracker).height * 7) ∧
    (Rounded.getCoords round64 { thirdsExport with ratio := some (round64 (3 / 11)) }
        cornerTracker
        = { left := 0, top := 0, width := 246, height := 246 } ∧
      (Rounded.getCoords round64 { thirdsExport with ratio := some (round64 (3 / 11)) }
        cornerTracker).width * 11
        ≠ (Rounded.getCoords round64 { thirdsExport with ratio := some (round64 (3 / 11)) }
          cornerTracker).height * 3) := by
  decide!

theorem abs_round64_le (x : ℚ) : |round64 x| ≤ |x| * (1 + 1 / 2 ^ 53) := by
  have h := abs_round64_sub_le x
  have h2 : |round64 x| ≤ |round64 x - x| + |x| := by
    have := abs_add (round64 x - x) x
    simpa using this
  linarith

/-- A whole multiple of a ratio `p / q` with `q` one of 1, 2, 4 is a
double-precision number as long as it has at most 53 bits. -/
theorem round64_mul_ratio (b : ℤ) (p q : ℕ) (hq : q = 1 ∨ q = 2 ∨ q = 4)
    (hb : |b| ≤ 2 ^ 34) (hp : p ≤ 2 ^ 17) :
    round64 ((b : ℚ) * ((p : ℚ) / q)) = (b : ℚ) * ((p : ℚ) / q) := by
  have h4 : pow2 (-2) = 1 / 4 := by rw [pow2_eq_zpow]; norm_num
  have hbp : |b * (p : ℤ)| ≤ 2 ^ 51 := by
    rw [abs_mul]
    have hp' : |(p : ℤ)| ≤ 2 ^ 17 := by
      rw [abs_of_nonneg (Int.natCast_nonneg p)]
      exact_mod_cast hp
    calc |b| * |(p : ℤ)| ≤ 2 ^ 34 * 2 ^ 17 :=
          mul_le_mul hb hp' (abs_nonneg _) (by norm_num)
      _ = 2 ^ 51 := by norm_num
  rcases hq with rfl | rfl | rfl
  · have := round64_exact (b * (p : ℤ) * 4) (-2) (by
      rw [abs_mul]
      have : |(4 : ℤ)| = 4 := by norm_num
      rw [this]
      linarith)
    rw [h4] at this
    have e : ((b * (p : ℤ) * 4 : ℤ) : ℚ) * (1 / 4) = (b : ℚ) * ((p : ℚ) / (1 : ℕ)) := by
      push_cast
      ring
    rw [e] at this
    exact this
  · have := round64_exact (b * (p : ℤ) * 2) (-2) (by
      rw [abs_mul]
      have : |(2 : ℤ)| = 2 := by norm_num
      rw [this]
      linarith)
    rw [h4] at this
    have e : ((b * (p : ℤ) * 2 : ℤ) : ℚ) * (1 / 4) = (b : ℚ) * ((p : ℚ) / (2 : ℕ)) := by
      push_cast
      ring
    rw [e] at this
    exact this
  · have := round64_exact (b * (p : ℤ)) (-2) (by linarith)
    rw [h4] at this
    have e : ((b * (p : ℤ) : ℤ) : ℚ) * (1 / 4) = (b : ℚ) * ((p : ℚ) / (4 : ℕ)) := by
      push_cast
      ring
    rw [e] at this
    exact this

theorem rounded_snapLoop_of_exact {ratio width height : ℚ} (n : Nat)
    (h1 : round64 (width / ratio) = height) (h2 : round64 (height * ratio) = width) :
    Rounded.snapLoop round64 ratio n width height = (width, height) := by
  cases n with
  | zero => rfl
  | succ n => simp [Rounded.snapLoop, h1, h2]

/-- The ratio loop in double precision, for a ratio `p / q` with `q` one of
1, 2, 4 and whole sizes: if within the allowed iterations the loop meets a
height whose ratio width is whole, it ends on the exact ratio. -/
theorem rounded_snapLoop_exact (p q : ℕ) (hp0 : 0 < p) (hq : q = 1 ∨ q = 2 ∨ q = 4)
    (hp : p ≤ 2 ^ 17) :
    ∀ (n : Nat) (a b : ℤ), |a| + n ≤ 2 ^ 31 → |b| + n ≤ 2 ^ 31 →
      (∃ k : Nat, k < n ∧ isWhole (((b : ℚ) - k) * ((p : ℚ) / q)) = true) →
      (Rounded.snapLoop round64 ((p : ℚ) / q) n a b).2 * ((p : ℚ) / q)
        = (Rounded.snapLoop round64 ((p : ℚ) / q) n a b).1 := by
  have hq0 : (0 : ℚ) < q := by
    rcases hq with rfl | rfl | rfl <;> norm_num
  have hq4 : (q : ℚ) ≤ 4 := by
    rcases hq with rfl | rfl | rfl <;> norm_num
  have hpq : (0 : ℚ) < p := by exact_mod_cast hp0
  have hp1 : (1 : ℚ) ≤ p := by exact_mod_cast hp0
  have hr : (0 : ℚ) < (p : ℚ) / q := div_pos hpq hq0
  have hr0 : (p : ℚ) / q ≠ 0 := ne_of_gt hr
  intro n
  induction n with
  | zero =>
    rintro a b _ _ ⟨k, hk, _⟩
    exact absurd hk (Nat.not_lt_zero k)
  | succ n ih =>
    rintro a b ha hb ⟨k, hk, hex⟩
    have ha' : |a| ≤ 2 ^ 31 := by
      have : (0 : ℤ) ≤ ((n + 1 : ℕ) : ℤ) := Int.natCast_nonneg _
      linarith
    have hb' : |b| ≤ 2 ^ 31 := by
      have : (0 : ℤ) ≤ ((n + 1 : ℕ) : ℤ) := Int.natCast_nonneg _
      linarith
    have eb : round64 ((b : ℚ) * ((p : ℚ) / q)) = (b : ℚ) * ((p : ℚ) / q) :=
      round64_mul_ratio b p q hq (by linarith) hp
    by_cases hc : round64 ((a : ℚ) / ((p : ℚ) / q)) ≠ (b : ℚ)
        ∨ round64 ((b : ℚ) * ((p : ℚ) / q)) ≠ (a : ℚ)
    · by_cases hW : isWhole ((b : ℚ) * ((p : ℚ) / q)) = true
      · -- the width from the height is adopted
        have e : Rounded.snapLoop round64 ((p : ℚ) / q) (n + 1) a b
            = ((b : ℚ) * ((p : ℚ) / q), (b : ℚ)) := by
          have ediv : (b : ℚ) * ((p : ℚ) / q) / ((p : ℚ) / q) = b := by field_simp
          have erb : round64 (b : ℚ) = b := round64_intCast b (by linarith)
          rw [Rounded.snapLoop, if_pos hc]
          simp only [eb, hW, if_true, ediv, erb]
          exact rounded_snapLoop_of_exact n (by rw [ediv, erb]) eb
        rw [e]
      · by_cases hH : isWhole (round64 ((a : ℚ) / ((p : ℚ) / q))) = true
        · -- the height from the width is adopted
          obtain ⟨z, hz⟩ := isWhole_iff.mp hH
          have hzb : |z| ≤ 2 ^ 34 := by
            have h1 := abs_round64_le ((a : ℚ) / ((p : ℚ) / q))
            rw [hz] at h1
            have h2 : |(a : ℚ) / ((p : ℚ) / q)| ≤ 2 ^ 33 := by
              rw [abs_div, abs_of_pos hr, div_le_iff₀ hr]
              have haq : |(a : ℚ)| ≤ 2 ^ 31 := by
                have : ((|a| : ℤ) : ℚ) ≤ ((2 ^ 31 : ℤ) : ℚ) := Int.cast_le.mpr ha'
                simpa using this
              have hrq : (1 : ℚ) / 4 ≤ (p : ℚ) / q := by
                rw [le_div_iff₀ hq0]
                linarith
              nlinarith
            have h3 : |(z : ℚ)| < 2 ^ 34 := by
              have : |(a : ℚ) / ((p : ℚ) / q)| * (1 + 1 / 2 ^ 53) ≤ 2 ^ 33 * (1 + 1 / 2 ^ 53) :=
                mul_le_mul_of_nonneg_right h2 (by norm_num)
              have : (2 : ℚ) ^ 33 * (1 + 1 / 2 ^ 53) < 2 ^ 34 := by norm_num
              linarith
            have h4 : ((|z| : ℤ) : ℚ) < ((2 ^ 34 : ℤ) : ℚ) := by
              simpa using h3
            exact le_of_lt (Int.cast_lt.mp h4)
          have ez : round64 ((z : ℚ) * ((p : ℚ) / q)) = (z : ℚ) * ((p : ℚ) / q) :=
            round64_mul_ratio z p q hq hzb hp
          have ediv : (z : ℚ) * ((p : ℚ) / q) / ((p : ℚ) / q) = z := by field_simp
          have erz : round64 (z : ℚ) = z := round64_intCast z (by linarith)
          have e : Rounded.snapLoop round64 ((p : ℚ) / q) (n + 1) a b
              = ((z : ℚ) * ((p : ℚ) / q), (z : ℚ)) := by
            rw [Rounded.snapLoop, if_pos hc]
            simp only [eb, hW, hH, hz, if_true, ez]
            exact rounded_snapLoop_of_exact n (by rw [ediv, erz]) ez
          rw [e]
        · -- both dimensions are decreased by one
          have ea1 : round64 ((a : ℚ) - 1) = ((a - 1 : ℤ) : ℚ) := by
            have := round64_intCast (a - 1) (by
              have := abs_sub a 1
              have h1 : |(1 : ℤ)| = 1 := abs_one
              linarith)
            rw [← this]
            push_cast
            rfl
          have eb1 : round64 ((b : ℚ) - 1) = ((b - 1 : ℤ) : ℚ) := by
            have := round64_intCast (b - 1) (by
              have := abs_sub b 1
              have h1 : |(1 : ℤ)| = 1 := abs_one
              linarith)
            rw [← this]
            push_cast
            rfl
          have e : Rounded.snapLoop round64 ((p : ℚ) / q) (n + 1) a b
              = Rounded.snapLoop round64 ((p : ℚ) / q) n ((a - 1 : ℤ) : ℚ)
                  ((b - 1 : ℤ) : ℚ) := by
            rw [Rounded.snapLoop, if_pos hc]
            simp only [eb, hW, hH, ea1, eb1]
            simp
          rw [e]
          have hsa : |a - 1| + (n : ℤ) ≤ 2 ^ 31 := by
            have := abs_sub a 1
            have h1 : |(1 : ℤ)| = 1 := abs_one
            push_cast at ha
            linarith
          have hsb : |b - 1| + (n : ℤ) ≤ 2 ^ 31 := by
            have := abs_sub b 1
            have h1 : |(1 : ℤ)| = 1 := abs_one
            push_cast at hb
            linarith
          apply ih (a - 1) (b - 1) hsa hsb
          cases k with
          | zero =>
            simp only [Nat.cast_zero, sub_zero] at hex
            exact absurd hex hW
          | succ k =>
            refine ⟨k, Nat.lt_of_succ_lt_succ hk, ?_⟩
            have e1 : (((b - 1 : ℤ) : ℚ)) - (k : ℚ) = (b : ℚ) - ((k + 1 : ℕ) : ℚ) := by
              push_cast; ring
            rw [e1]
            exact hex
    · have e : Rounded.snapLoop round64 ((p : ℚ) / q) (n + 1) a b = ((a : ℚ), (b : ℚ)) := by
        rw [Rounded.snapLoop, if_neg hc]
      rw [e]
      push_neg at hc
      rw [← hc.2, eb]

/-! ## The ratio written `4/3` -/

theorem round64_four_thirds :
    round64 (4 / 3) = 6004799503160661 / 4503599627370496 := by
  decide!

theorem roundEven_eq_of_near (N : ℤ) (y : ℚ) (h1 : (N : ℚ) - 1 / 2 < y)
    (h2 : y < (N : ℚ) + 1 / 2) : roundEven y = N := by
  rcases le_or_lt (N : ℚ) y with h | h
  · have hf : ⌊y⌋ = N := by
      rw [Int.floor_eq_iff]
      constructor <;> linarith
    unfold roundEven
    rw [hf, if_pos (by linarith)]
  · have hf : ⌊y⌋ = N - 1 := by
      rw [Int.floor_eq_iff]
      push_cast
      constructor <;> linarith
    unfold roundEven
    rw [hf]
    push_cast
    rw [if_neg (by linarith), if_pos (by linarith)]
    ring

theorem roundEven_tie_below (N : ℤ) (hN : N % 2 = 0) :
    roundEven ((N : ℚ) - 1 / 2) = N := by
  have hf : ⌊(N : ℚ) - 1 / 2⌋ = N - 1 := by
    rw [Int.floor_eq_iff]
    push_cast
    constructor <;> linarith
  unfold roundEven
  rw [hf]
  push_cast
  rw [if_neg (by linarith), if_neg (by linarith), if_neg (by omega)]
  ring

/-- The exponent of a number between 1 and `2 ^ 52` is a natural number below
52. -/
theorem exponent_nat {x : ℚ} (h1 : 1 ≤ x) (h2 : x < 2 ^ 52) :
    ∃ n : ℕ, n ≤ 51 ∧ exponent x = n ∧ (2 : ℚ) ^ n ≤ x ∧ x < 2 ^ (n + 1) ∧
      pow2 (exponent x - 52) = 2 ^ n / 2 ^ 52 := by
  have hx : x ≠ 0 := by linarith
  obtain ⟨hl, hu⟩ := exponent_spec hx
  rw [abs_of_pos (by linarith)] at hl hu
  have he1 : exponent x < 52 := by
    apply lt_of_pow2_lt_pow2
    have : pow2 52 = 2 ^ 52 := by rw [pow2_eq_zpow]; norm_num
    rw [this]
    linarith
  have he0 : 0 < exponent x + 1 := by
    apply lt_of_pow2_lt_pow2
    have : pow2 0 = 1 := by rw [pow2_eq_zpow]; norm_num
    rw [this]
    linarith
  obtain ⟨n, hn⟩ := Int.eq_ofNat_of_zero_le (show 0 ≤ exponent x by omega)
  refine ⟨n, by omega, hn, ?_, ?_, ?_⟩
  · rw [hn, pow2_natCast] at hl
    exact hl
  · have : exponent x + 1 = ((n + 1 : ℕ) : ℤ) := by rw [hn]; push_cast; ring
    rw [this, pow2_natCast] at hu
    exact hu
  · have := pow2_sub_52 (exponent x)
    rw [hn, pow2_natCast] at this
    rw [hn, this]
    field_simp

theorem two_pow_52_split {n : ℕ} (hn : n ≤ 51) :
    (2 : ℚ) ^ 52 = 2 ^ (52 - n) * 2 ^ n := by
  rw [← pow_add]
  congr 1
  omega

/-- The product of a multiple of 3 with the ratio written `4/3` is computed
exactly as the multiple of 4. -/
theorem round64_mul_four_thirds (j : ℤ) (h0 : 0 ≤ j) (hb : 4 * j ≤ 2 ^ 52) :
    round64 (((3 * j : ℤ) : ℚ) * (6004799503160661 / 4503599627370496))
      = ((4 * j : ℤ) : ℚ) := by
  rcases eq_or_lt_of_le h0 with hj0 | hjpos
  · rw [← hj0]
    simp [round64_zero]
  have hj1 : (1 : ℚ) ≤ j := by exact_mod_cast hjpos
  have hbq : (4 : ℚ) * j ≤ 2 ^ 52 := by exact_mod_cast hb
  have ex : ((3 * j : ℤ) : ℚ) * (6004799503160661 / 4503599627370496)
      = 4 * j - j / 2 ^ 52 := by
    push_cast
    ring
  rw [ex]
  have hx1 : (1 : ℚ) ≤ 4 * j - j / 2 ^ 52 := by
    have : (j : ℚ) / 2 ^ 52 ≤ j := div_le_self (by linarith) (by norm_num)
    linarith
  have hx2 : (4 : ℚ) * j - j / 2 ^ 52 < 2 ^ 52 := by
    have : (0 : ℚ) < j / 2 ^ 52 := by positivity
    linarith
  obtain ⟨n, hn, -, hl, hu, hpow⟩ := exponent_nat hx1 hx2
  -- the multiple of 4 is at most the upper end of the binade
  have hle : (4 : ℚ) * j ≤ 2 ^ (n + 1) := by
    by_contra hc
    have h1 : (2 : ℤ) ^ (n + 1) < 4 * j := by
      have : ((2 ^ (n + 1) : ℤ) : ℚ) < ((4 * j : ℤ) : ℚ) := by
        push_cast
        exact not_le.mp hc
      exact Int.cast_lt.mp this
    have h2 : (2 : ℤ) ^ (n + 1) + 1 ≤ 4 * j := h1
    have h3 : (2 : ℚ) ^ (n + 1) + 1 ≤ 4 * j := by exact_mod_cast h2
    have h4 : (j : ℚ) / 2 ^ 52 ≤ 1 / 4 := by
      rw [div_le_iff₀ (by positivity)]
      linarith
    linarith
  have hsplit := two_pow_52_split hn
  have h2n : (0 : ℚ) < 2 ^ n := by positivity
  have hy : (4 * (j : ℚ) - j / 2 ^ 52) / (2 ^ n / 2 ^ 52)
      = ((4 * j * 2 ^ (52 - n) : ℤ) : ℚ) - j / 2 ^ n := by
    push_cast
    rw [hsplit]
    field_simp
    ring
  have hd : (j : ℚ) / 2 ^ n ≤ 1 / 2 := by
    rw [div_le_iff₀ h2n]
    rw [pow_succ] at hle
    linarith
  have hd0 : (0 : ℚ) < j / 2 ^ n := by positivity
  have hN : (4 * j * 2 ^ (52 - n) : ℤ) % 2 = 0 :=
    Int.emod_eq_zero_of_dvd ⟨2 * j * 2 ^ (52 - n), by ring⟩
  have hre : roundEven ((4 * (j : ℚ) - j / 2 ^ 52) / (2 ^ n / 2 ^ 52))
      = 4 * j * 2 ^ (52 - n) := by
    rw [hy]
    rcases lt_or_eq_of_le hd with hlt | heq
    · exact roundEven_eq_of_near _ _ (by linarith) (by linarith)
    · rw [heq]
      exact roundEven_tie_below _ hN
  unfold round64
  rw [if_neg (by linarith), hpow, hre]
  push_cast
  rw [hsplit]
  field_simp
  ring

/-- The quotient of a multiple of 4 by the ratio written `4/3` is computed
exactly as the multiple of 3. -/
theorem round64_div_four_thirds (j : ℤ) (h0 : 0 ≤ j) (hb : 4 * j ≤ 2 ^ 52) :
    round64 (((4 * j : ℤ) : ℚ) / (6004799503160661 / 4503599627370496))
      = ((3 * j : ℤ) : ℚ) := by
  rcases eq_or_lt_of_le h0 with hj0 | hjpos
  · rw [← hj0]
    simp [round64_zero]
  have hj1 : (1 : ℚ) ≤ j := by exact_mod_cast hjpos
  have hbq : (4 : ℚ) * j ≤ 2 ^ 52 := by exact_mod_cast hb
  have ex : ((4 * j : ℤ) : ℚ) / (6004799503160661 / 4503599627370496)
      = 3 * j + 3 * j / (2 ^ 54 - 1) := by
    push_cast
    field_simp
    ring
  rw [ex]
  have hpos : (0 : ℚ) < 3 * j / (2 ^ 54 - 1) := by
    apply div_pos (by linarith) (by norm_num)
  have hsmall : (3 : ℚ) * j / (2 ^ 54 - 1) < 1 := by
    rw [div_lt_iff₀ (by norm_num)]
    have : (2 : ℚ) ^ 52 < (2 ^ 54 - 1) / 3 * 4 := by norm_num
    linarith
  have hx1 : (1 : ℚ) ≤ 3 * j + 3 * j / (2 ^ 54 - 1) := by linarith
  have hx2 : (3 : ℚ) * j + 3 * j / (2 ^ 54 - 1) < 2 ^ 52 := by
    have : (3 : ℚ) * j ≤ 2 ^ 52 * 3 / 4 := by linarith
    have : (2 : ℚ) ^ 52 * 3 / 4 + 1 < 2 ^ 52 := by norm_num
    linarith
  obtain ⟨n, hn, -, hl, hu, hpow⟩ := exponent_nat hx1 hx2
  -- the multiple of 3 is below the upper end of the binade, by at least one
  have hlt : (3 : ℚ) * j + 1 ≤ 2 ^ (n + 1) := by
    have h1 : (3 * j : ℤ) < 2 ^ (n + 1) := by
      have : ((3 * j : ℤ) : ℚ) < ((2 ^ (n + 1) : ℤ) : ℚ) := by
        push_cast
        linarith
      exact Int.cast_lt.mp this
    have h2 : (3 * j : ℤ) + 1 ≤ 2 ^ (n + 1) := h1
    exact_mod_cast h2
  have hsplit := two_pow_52_split hn
  have h2n : (0 : ℚ) < 2 ^ n := by positivity
  have h2n' : (2 : ℚ) ^ n ≤ 2 ^ 51 := pow_le_pow_right₀ (by norm_num) hn
  have hy : (3 * (j : ℚ) + 3 * j / (2 ^ 54 - 1)) / (2 ^ n / 2 ^ 52)
      = ((3 * j * 2 ^ (52 - n) : ℤ) : ℚ) + 3 * j / (2 ^ 54 - 1) * (2 ^ 52 / 2 ^ n) := by
    push_cast
    rw [hsplit]
    field_simp
    ring
  have hd : (3 : ℚ) * j / (2 ^ 54 - 1) * (2 ^ 52 / 2 ^ n) < 1 / 2 := by
    rw [div_mul_div_comm, div_lt_iff₀ (by positivity)]
    rw [pow_succ] at hlt
    nlinarith
  have hd0 : (0 : ℚ) < 3 * j / (2 ^ 54 - 1) * (2 ^ 52 / 2 ^ n) := by positivity
  have hre : roundEven ((3 * (j : ℚ) + 3 * j / (2 ^ 54 - 1)) / (2 ^ n / 2 ^ 52))
      = 3 * j * 2 ^ (52 - n) := by
    rw [hy]
    exact roundEven_eq_of_near _ _ (by linarith) (by linarith)
  unfold round64
  rw [if_neg (by linarith), hpow, hre]
  push_cast
  rw [hsplit]
  field_simp
  ring

/-- A whole computed product of a whole height with the ratio written `4/3`
comes from a multiple of 3 only. -/
theorem dvd_of_isWhole_mul_four_thirds (b : ℤ) (h0 : 0 ≤ b) (hb : b ≤ 2 ^ 50)
    (hw : isWhole (round64 ((b : ℚ) * (6004799503160661 / 4503599627370496))) = true) :
    (3 : ℤ) ∣ b := by
  obtain ⟨z, hz⟩ := isWhole_iff.mp hw
  have hb0 : (0 : ℚ) ≤ b := by exact_mod_cast h0
  have hbq : (b : ℚ) ≤ 2 ^ 50 := by exact_mod_cast hb
  have hx0 : (0 : ℚ) ≤ (b : ℚ) * (6004799503160661 / 4503599627370496) :=
    mul_nonneg hb0 (by norm_num)
  have herr := abs_round64_sub_le ((b : ℚ) * (6004799503160661 / 4503599627370496))
  rw [abs_of_nonneg hx0, hz] at herr
  obtain ⟨e1, e2⟩ := abs_le.mp herr
  have habs : |(3 * z - 4 * b : ℤ)| < 1 := by
    have h1 : ((3 * z - 4 * b : ℤ) : ℚ) < 1 := by
      push_cast
      linarith
    have h2 : (-1 : ℚ) < ((3 * z - 4 * b : ℤ) : ℚ) := by
      push_cast
      linarith
    have h3 : (3 * z - 4 * b : ℤ) < 1 := by exact_mod_cast h1
    have h4 : (-1 : ℤ) < 3 * z - 4 * b := by exact_mod_cast h2
    rw [abs_lt]
    exact ⟨h4, h3⟩
  have hzero : 3 * z - 4 * b = 0 := Int.abs_lt_one_iff.mp habs
  exact ⟨z - b, by linarith⟩

/-- A whole computed quotient of a whole width by the ratio written `4/3`
comes from a multiple of 4 only. -/
theorem dvd_of_isWhole_div_four_thirds (a : ℤ) (h0 : 0 ≤ a) (hb : a ≤ 2 ^ 50)
    (hw : isWhole (round64 ((a : ℚ) / (6004799503160661 / 4503599627370496))) = true) :
    (4 : ℤ) ∣ a := by
  obtain ⟨z, hz⟩ := isWhole_iff.mp hw
  have ha0 : (0 : ℚ) ≤ a := by exact_mod_cast h0
  have haq : (a : ℚ) ≤ 2 ^ 50 := by exact_mod_cast hb
  have ex : (a : ℚ) / (6004799503160661 / 4503599627370496)
      = (a : ℚ) * (13510798882111488 / 18014398509481983) := by
    rw [div_eq_mul_inv]
    norm_num
  rw [ex] at hz
  have hx0 : (0 : ℚ) ≤ (a : ℚ) * (13510798882111488 / 18014398509481983) :=
    mul_nonneg ha0 (by norm_num)
  have herr := abs_round64_sub_le ((a : ℚ) * (13510798882111488 / 18014398509481983))
  rw [abs_of_nonneg hx0, hz] at herr
  obtain ⟨e1, e2⟩ := abs_le.mp herr
  have habs : |(4 * z - 3 * a : ℤ)| < 1 := by
    have h1 : ((4 * z - 3 * a : ℤ) : ℚ) < 1 := by
      push_cast
      linarith
    have h2 : (-1 : ℚ) < ((4 * z - 3 * a : ℤ) : ℚ) := by
      push_cast
      linarith
    have h3 : (4 * z - 3 * a : ℤ) < 1 := by exact_mod_cast h1
    have h4 : (-1 : ℤ) < 4 * z - 3 * a := by exact_mod_cast h2
    rw [abs_lt]
    exact ⟨h4, h3⟩
  have hzero : 4 * z - 3 * a = 0 := Int.abs_lt_one_iff.mp habs
  exact ⟨a - z, by linarith⟩

/-- The ratio loop in double precision for the ratio written `4/3` and whole
sizes that are not negative: the loop meets a height that is a multiple of 3
within three iterations and ends on the exact ratio. -/
theorem rounded_snapLoop_four_thirds :
    ∀ (n : Nat) (a b : ℤ), 0 ≤ a → 0 ≤ b → a ≤ 2 ^ 50 → b ≤ 2 ^ 50 →
      (∃ k : Nat, k < n ∧ (3 : ℤ) ∣ b - k) →
      (Rounded.snapLoop round64 (6004799503160661 / 4503599627370496) n a b).1 * 3
        = (Rounded.snapLoop round64 (6004799503160661 / 4503599627370496) n a b).2 * 4 := by
  intro n
  induction n with
  | zero =>
    rintro a b _ _ _ _ ⟨k, hk, _⟩
    exact absurd hk (Nat.not_lt_zero k)
  | succ n ih =>
    rintro a b ha0 hb0 ha hb ⟨k, hk, hex⟩
    -- a height that is a multiple of 3 gives the pair `(4 j, 3 j)`
    have pair : ∀ j : ℤ, 0 ≤ j → 4 * j ≤ 2 ^ 52 →
        Rounded.snapLoop round64 (6004799503160661 / 4503599627370496) n
            ((4 * j : ℤ) : ℚ) ((3 * j : ℤ) : ℚ)
          = (((4 * j : ℤ) : ℚ), ((3 * j : ℤ) : ℚ)) := fun j hj0 hjb =>
      rounded_snapLoop_of_exact n (round64_div_four_thirds j hj0 hjb)
        (round64_mul_four_thirds j hj0 hjb)
    have three : (3 : ℤ) ∣ b → ∃ j : ℤ, b = 3 * j ∧ 0 ≤ j ∧ 4 * j ≤ 2 ^ 52 := by
      rintro ⟨j, hj⟩
      exact ⟨j, hj, by omega, by omega⟩
    have four : (4 : ℤ) ∣ a → ∃ j : ℤ, a = 4 * j ∧ 0 ≤ j ∧ 4 * j ≤ 2 ^ 52 := by
      rintro ⟨j, hj⟩
      exact ⟨j, hj, by omega, by omega⟩
    by_cases hc : round64 ((a : ℚ) / (6004799503160661 / 4503599627370496)) ≠ (b : ℚ)
        ∨ round64 ((b : ℚ) * (6004799503160661 / 4503599627370496)) ≠ (a : ℚ)
    · by_cases hW : isWhole (round64 ((b : ℚ) * (6004799503160661 / 4503599627370496)))
          = true
      · -- the width from the height is adopted
        obtain ⟨j, rfl, hj0, hjb⟩ := three (dvd_of_isWhole_mul_four_thirds b hb0 hb hW)
        have e1 := round64_mul_four_thirds j hj0 hjb
        have e2 := round64_div_four_thirds j hj0 hjb
        have e : Rounded.snapLoop round64 (6004799503160661 / 4503599627370496) (n + 1)
              a ((3 * j : ℤ) : ℚ)
            = (((4 * j : ℤ) : ℚ), ((3 * j : ℤ) : ℚ)) := by
          rw [Rounded.snapLoop, if_pos hc]
          simp only [e1, e2, isWhole_intCast, if_true]
          exact pair j hj0 hjb
        rw [e]
        push_cast
        ring
      · by_cases hH : isWhole (round64 ((a : ℚ) / (6004799503160661 / 4503599627370496)))
            = true
        · -- the height from the width is adopted
          obtain ⟨j, rfl, hj0, hjb⟩ := four (dvd_of_isWhole_div_four_thirds a ha0 ha hH)
          have e1 := round64_mul_four_thirds j hj0 hjb
          have e2 := round64_div_four_thirds j hj0 hjb
          have e : Rounded.snapLoop round64 (6004799503160661 / 4503599627370496) (n + 1)
                ((4 * j : ℤ) : ℚ) b
              = (((4 * j : ℤ) : ℚ), ((3 * j : ℤ) : ℚ)) := by
            rw [Rounded.snapLoop, if_pos hc]
            simp only [hW, e1, e2, isWhole_intCast, if_true]
            simp only [Bool.false_eq_true, if_false]
            exact pair j hj0 hjb
          rw [e]
          push_cast
          ring
        · -- both dimensions are decreased by one
          have hb3 : ¬ (3 : ℤ) ∣ b := by
            intro h
            obtain ⟨j, rfl, hj0, hjb⟩ := three h
            rw [round64_mul_four_thirds j hj0 hjb] at hW
            exact hW (isWhole_intCast _)
          have ha4 : ¬ (4 : ℤ) ∣ a := by
            intro h
            obtain ⟨j, rfl, hj0, hjb⟩ := four h
            rw [round64_div_four_thirds j hj0 hjb] at hH
            exact hH (isWhole_intCast _)
          have ha1 : 1 ≤ a := by
            by_contra hlt
            have : a = 0 := by omega
            exact ha4 ⟨0, by omega⟩
          have hb1 : 1 ≤ b := by
            by_contra hlt
            have : b = 0 := by omega
            exact hb3 ⟨0, by omega⟩
          have ea1 : round64 ((a : ℚ) - 1) = ((a - 1 : ℤ) : ℚ) := by
            have := round64_intCast (a - 1) (by
              rw [abs_of_nonneg (by omega)]
              omega)
            rw [← this]
            push_cast
            rfl
          have eb1 : round64 ((b : ℚ) - 1) = ((b - 1 : ℤ) : ℚ) := by
            have := round64_intCast (b - 1) (by
              rw [abs_of_nonneg (by omega)]
              omega)
            rw [← this]
            push_cast
            rfl
          have e : Rounded.snapLoop round64 (6004799503160661 / 4503599627370496) (n + 1)
                a b
              = Rounded.snapLoop round64 (6004799503160661 / 4503599627370496) n
                  ((a - 1 : ℤ) : ℚ) ((b - 1 : ℤ) : ℚ) := by
            rw [Rounded.snapLoop, if_pos hc]
            simp only [hW, hH, ea1, eb1]
            simp
          rw [e]
          apply ih (a - 1) (b - 1) (by omega) (by omega) (by omega) (by omega)
          cases k with
          | zero =>
            simp only [Nat.cast_zero, sub_zero] at hex
            exact absurd hex hb3
          | succ k =>
            refine ⟨k, Nat.lt_of_succ_lt_succ hk, ?_⟩
            have e1 : b - 1 - (k : ℤ) = b - ((k + 1 : ℕ) : ℤ) := by
              push_cast; ring
            rw [e1]
            exact hex
    · have e : Rounded.snapLoop round64 (6004799503160661 / 4503599627370496) (n + 1) a b
          = ((a : ℚ), (b : ℚ)) := by
        rw [Rounded.snapLoop, if_neg hc]
      rw [e]
      push_neg at hc
      have hW : isWhole (round64 ((b : ℚ) * (6004799503160661 / 4503599627370496)))
          = true := by
        rw [hc.2]
        exact isWhole_intCast a
      obtain ⟨j, rfl, hj0, hjb⟩ := three (dvd_of_isWhole_mul_four_thirds b hb0 hb hW)
      have e1 := round64_mul_four_thirds j hj0 hjb
      have h2 := hc.2
      rw [e1] at h2
      simp only
      rw [← h2]
      push_cast
      ring

theorem rounded_exportSize_spec (size scale lo full : ℚ)
    (hlo : isWhole lo = true) (hfull : isWhole full = true)
    (h0 : 0 ≤ lo) (hf0 : 0 ≤ full) :
    isWhole (Rounded.exportSize round64 size scale lo full) = true ∧
      0 ≤ Rounded.exportSize round64 size scale lo full ∧
      Rounded.exportSize round64 size scale lo full ≤ full := by
  simp only [Rounded.exportSize]
  have hc := isWhole_jsCeil (round64 (size * scale))
  split_ifs with h1 h2 h3
  · exact ⟨hfull, hf0, le_refl _⟩
  · exact ⟨hlo, h0, le_of_lt (not_le.mp h2)⟩
  · exact ⟨hfull, hf0, le_refl _⟩
  · exact ⟨hc, le_trans h0 (not_lt.mp h1), le_of_lt (not_le.mp h3)⟩

/-- The export in double precision for a ratio `p / q` with `q` one of 1, 2, 4
and `0 < p ≤ 2 ^ 17`, whole original sizes up to `2 ^ 30` and whole minimums
that are not negative: the loop ends on the exact ratio,
`width × q = height × p`. -/
theorem rounded_getCoords_quarter_ratio (c : CropTool) (t : Tracker) (p q : ℕ)
    (hp : 0 < p) (hq : q = 1 ∨ q = 2 ∨ q = 4) (hpb : p ≤ 2 ^ 17)
    (hr : c.ratio = some ((p : ℚ) / q))
    (hfw : isWhole c.fullWidth = true) (hfh : isWhole c.fullHeight = true)
    (hmw : isWhole c.minWidth = true) (hmh : isWhole c.minHeight = true)
    (h0w : 0 ≤ c.minWidth) (h0h : 0 ≤ c.minHeight)
    (hfw0 : 0 ≤ c.fullWidth) (hfh0 : 0 ≤ c.fullHeight)
    (bfw : c.fullWidth ≤ 2 ^ 30) (bfh : c.fullHeight ≤ 2 ^ 30) :
    (Rounded.getCoords round64 c t).width * q
      = (Rounded.getCoords round64 c t).height * p := by
  have hq0' : 0 < q := by rcases hq with rfl | rfl | rfl <;> norm_num
  have hq4 : q ≤ 4 := by rcases hq with rfl | rfl | rfl <;> norm_num
  have hq0 : (q : ℚ) ≠ 0 := by exact_mod_cast (ne_of_gt hq0')
  have hp0 : (p : ℚ) ≠ 0 := by exact_mod_cast (ne_of_gt hp)
  have hr0 : (p : ℚ) / q ≠ 0 := div_ne_zero hp0 hq0
  have htr : truthy c.ratio = some ((p : ℚ) / q) := by
    rw [hr]
    simp [truthy, hr0]
  obtain ⟨wW, wW0, wWf⟩ := rounded_exportSize_spec t.width
    (round64 (c.fullWidth / c.imageWidth)) c.minWidth c.fullWidth hmw hfw h0w hfw0
  obtain ⟨wH, wH0, wHf⟩ := rounded_exportSize_spec t.height
    (round64 (c.fullHeight / c.imageHeight)) c.minHeight c.fullHeight hmh hfh h0h hfh0
  obtain ⟨a, ha⟩ := isWhole_iff.mp wW
  obtain ⟨b, hb⟩ := isWhole_iff.mp wH
  have ha0 : (0 : ℤ) ≤ a := by
    have : (0 : ℚ) ≤ (a : ℚ) := by rw [← ha]; exact wW0
    exact_mod_cast this
  have hb0 : (0 : ℤ) ≤ b := by
    have : (0 : ℚ) ≤ (b : ℚ) := by rw [← hb]; exact wH0
    exact_mod_cast this
  have hab : a ≤ 2 ^ 30 := by
    have : (a : ℚ) ≤ 2 ^ 30 := by rw [← ha]; linarith
    exact_mod_cast this
  have hbb : b ≤ 2 ^ 30 := by
    have : (b : ℚ) ≤ 2 ^ 30 := by rw [← hb]; linarith
    exact_mod_cast this
  obtain ⟨k, hk, hwhole⟩ := exists_whole_mul (p : ℤ) q hq0' b
  have hloop := rounded_snapLoop_exact p q hp hq hpb 4 a b
    (by rw [abs_of_nonneg ha0]; push_cast; linarith)
    (by rw [abs_of_nonneg hb0]; push_cast; linarith)
    ⟨k, lt_of_lt_of_le hk hq4, by exact_mod_cast hwhole⟩
  rw [← ha, ← hb] at hloop
  simp only [Rounded.getCoords, htr]
  rw [← hloop]
  field_simp

/-- The export in double precision for the ratio written `4/3`, whole original
sizes up to `2 ^ 30` and whole minimums that are not negative: the loop ends on
the exact ratio, `width × 3 = height × 4`. -/
theorem rounded_getCoords_four_thirds (c : CropTool) (t : Tracker)
    (hr : c.ratio = some (round64 (4 / 3)))
    (hfw : isWhole c.fullWidth = true) (hfh : isWhole c.fullHeight = true)
    (hmw : isWhole c.minWidth = true) (hmh : isWhole c.minHeight = true)
    (h0w : 0 ≤ c.minWidth) (h0h : 0 ≤ c.minHeight)
    (hfw0 : 0 ≤ c.fullWidth) (hfh0 : 0 ≤ c.fullHeight)
    (bfw : c.fullWidth ≤ 2 ^ 30) (bfh : c.fullHeight ≤ 2 ^ 30) :
    (Rounded.getCoords round64 c t).width * 3
      = (Rounded.getCoords round64 c t).height * 4 := by
  have htr : truthy c.ratio = some (6004799503160661 / 4503599627370496) := by
    rw [hr, round64_four_thirds]
    simp [truthy]
  obtain ⟨wW, wW0, wWf⟩ := rounded_exportSize_spec t.width
    (round64 (c.fullWidth / c.imageWidth)) c.minWidth c.fullWidth hmw hfw h0w hfw0
  obtain ⟨wH, wH0, wHf⟩ := rounded_exportSize_spec t.height
    (round64 (c.fullHeight / c.imageHeight)) c.minHeight c.fullHeight hmh hfh h0h hfh0
  obtain ⟨a, ha⟩ := isWhole_iff.mp wW
  obtain ⟨b, hb⟩ := isWhole_iff.mp wH
  have ha0 : (0 : ℤ) ≤ a := by
    have : (0 : ℚ) ≤ (a : ℚ) := by rw [← ha]; exact wW0
    exact_mod_cast this
  have hb0 : (0 : ℤ) ≤ b := by
    have : (0 : ℚ) ≤ (b : ℚ) := by rw [← hb]; exact wH0
    exact_mod_cast this
  have hab : a ≤ 2 ^ 30 := by
    have : (a : ℚ) ≤ 2 ^ 30 := by rw [← ha]; linarith
    exact_mod_cast this
  have hbb : b ≤ 2 ^ 30 := by
    have : (b : ℚ) ≤ 2 ^ 30 := by rw [← hb]; linarith
    exact_mod_cast this
  have hk : ∃ k : Nat, k < 4 ∧ (3 : ℤ) ∣ b - k := by
    refine ⟨(b % 3).toNat, by omega, ?_⟩
    rw [Int.toNat_of_nonneg (by omega)]
    exact Int.dvd_sub_of_emod_eq rfl
  have hloop := rounded_snapLoop_four_thirds 4 a b ha0 hb0 (by omega) (by omega) hk
  rw [← ha, ← hb] at hloop
  simp only [Rounded.getCoords, htr]
  exact hloop

/-- C22 (amended): in the program's double precision, for every ratio `p / q`
with `q` one of 1, 2, 4 (a whole multiple of a quarter, such as 1, 3/2, 2 or
5/4) and `0 < p ≤ 2 ^ 17`, and for the ratio written `4/3` (`p = 4`, `q = 3`),
with whole original sizes up to `2 ^ 30` and whole minimums that are not
negative, and every tracker, the ratio loop of `getCoords` reaches the exact
ratio within its 4 iterations: the export satisfies `width × q = height × p`. -/
theorem getCoords_exact_ratio_rounded (c : CropTool) (t : Tracker) (p q : ℕ)
    (hr : (0 < p ∧ p ≤ 2 ^ 17 ∧ (q = 1 ∨ q = 2 ∨ q = 4) ∧ c.ratio = some ((p : ℚ) / q))
      ∨ (p = 4 ∧ q = 3 ∧ c.ratio = some (round64 (4 / 3))))
    (hfw : isWhole c.fullWidth = true) (hfh : isWhole c.fullHeight = true)
    (hmw : isWhole c.minWidth = true) (hmh : isWhole c.minHeight = true)
    (h0w : 0 ≤ c.minWidth) (h0h : 0 ≤ c.minHeight)
    (hfw0 : 0 ≤ c.fullWidth) (hfh0 : 0 ≤ c.fullHeight)
    (bfw : c.fullWidth ≤ 2 ^ 30) (bfh : c.fullHeight ≤ 2 ^ 30) :
    (Rounded.getCoords round64 c t).width * q
      = (Rounded.getCoords round64 c t).height * p := by
  rcases hr with ⟨hp, hpb, hq, hr⟩ | ⟨rfl, rfl, hr⟩
  · exact rounded_getCoords_quarter_ratio c t p q hp hq hpb hr hfw hfh hmw hmh h0w h0h
      hfw0 hfh0 bfw bfh
  · have := rounded_getCoords_four_thirds c t hr hfw hfh hmw hmh h0w h0h hfw0 hfh0 bfw bfh
    push_cast
    exact this

/-- C22 (instance): in double precision, the 2000×1000 image rendered at
1000×500 and its initial tracker: with ratio 3/2 the exported width times 2 is
the exported height times 3, and with the ratio written `4/3` the exported
width times 3 is the exported height times 4. -/
theorem getCoords_exact_ratio_rounded_witness :
    (Rounded.getCoords round64 (scenario (some ((3 : ℕ) / (2 : ℕ))))
        (Rounded._initiallyPositionTracker round64
          (scenario (some ((3 : ℕ) / (2 : ℕ)))))).width * (2 : ℕ)
      = (Rounded.getCoords round64 (scenario (some ((3 : ℕ) / (2 : ℕ))))
          (Rounded._initiallyPositionTracker round64
            (scenario (some ((3 : ℕ) / (2 : ℕ)))))).height * (3 : ℕ) ∧
    (Rounded.getCoords round64 (scenario (some (round64 (4 / 3))))
        (Rounded._initiallyPositionTracker round64
          (scenario (some (round64 (4 / 3)))))).width * (3 : ℕ)
      = (Rounded.getCoords round64 (scenario (some (round64 (4 / 3))))
          (Rounded._initiallyPositionTracker round64
            (scenario (some (round64 (4 / 3)))))).height * (4 : ℕ) :=
  ⟨getCoords_exact_ratio_rounded (scenario (some ((3 : ℕ) / (2 : ℕ))))
    (Rounded._initiallyPositionTracker round64 (scenario (some ((3 : ℕ) / (2 : ℕ))))) 3 2
    (Or.inl ⟨by decide, by decide, Or.inr (Or.inl rfl), rfl⟩)
    (by decide!) (by decide!) (by decide!) (by decide!) (by decide!) (by decide!)
    (by decide!) (by decide!) (by decide!) (by decide!),
   getCoords_exact_ratio_rounded (scenario (some (round64 (4 / 3))))
    (Rounded._initiallyPositionTracker round64 (scenario (some (round64 (4 / 3))))) 4 3
    (Or.inr ⟨rfl, rfl, rfl⟩)
    (by decide!) (by decide!) (by decide!) (by decide!) (by decide!) (by decide!)
    (by decide!) (by decide!) (by decide!) (by decide!)⟩

end CropGeometry
